import Mathlib

/-!
# CompVis252: pixel transforms of the image demos

A shallow embedding of the two pixel transforms of the repository,

* `invert_image` of `src/04-invert_image/main.c` (intensity negation, in place), and
* `MyImage_blur` of `src/06-filter_image/main.c` (mean filter into the global
  scratch surface `surfaceFilter`),

together with the texture republication they end with and the rest of the life
cycle of the image in `src/06-filter_image/main.c` (`load_rgba32`, `MyImage_destroy`,
`MyImage_restore_texture`, `reset_image` and the requests `loop` serves).

Conventions of the embedding.

* A pixel buffer is a list of `Uint32` words (naturals below `2 ^ 32`) in the
  RGBA32 layout the loader converts every image to; `SDL_GetRGB`, `SDL_GetRGBA`,
  `SDL_MapRGB` and `SDL_MapRGBA` are the SDL accessors for that layout on a
  little-endian host (red in the low byte).
* `Uint32` and `Uint8` arithmetic is arithmetic on naturals with an explicit
  `% 2 ^ 32` or `% 256`; the conversion of `filter_size * filter_size` to `int`
  is the two's complement one.  The product `w * h` of two `int` in
  `invert_image` is the two's complement one as well (the value the program
  computes), and its conversion to `size_t` is the one modulo `2 ^ 64`.  Array
  indices (`row * w + col`) of `MyImage_blur` are computed in unbounded integers.
* The stack that holds the array `filter` of `MyImage_blur` is not limited: the
  array is only required to have a positive number of entries.
* Single precision arithmetic (`1.0f / filterFinalSize`, `r * average`) is
  IEEE-754 binary32 with round-to-nearest-even, computed exactly on fractions.
* A result of `none` stands for undefined behaviour of the C program: an array
  access outside its bounds, or a variable length array of non-positive size.
* The only `MyImage` object of either program is the global `g_image`, so a
  `MyImage *` is either null or the address of `g_image`.
* Calls into SDL that may fail (`SDL_CreateSurface`,
  `SDL_CreateTextureFromSurface`, and `IMG_Load` and `SDL_ConvertSurface` in
  `load_rgba32`) take their outcome from a `Backend` or `LoadBackend` value.
* Textures are handles: `liveTextures` lists the handles created and not yet
  destroyed, `nextTexture` is the next handle the renderer gives out.
-/

namespace CompVis252

/-! ## RGBA32 pixels -/

/-- Colour record `SDL_Color`: four 8-bit channels. -/
structure SDL_Color where
  r : Nat
  g : Nat
  b : Nat
  a : Nat
deriving DecidableEq

/-- Pack four 8-bit channels into an RGBA32 word (`SDL_MapRGBA`). -/
def SDL_MapRGBA (r g b a : Nat) : Nat :=
  r % 256 + (g % 256) * 2 ^ 8 + (b % 256) * 2 ^ 16 + (a % 256) * 2 ^ 24

/-- Pack three channels into an RGBA32 word; SDL sets the alpha bits of a format
with an alpha channel to fully opaque (`SDL_MapRGB`). -/
def SDL_MapRGB (r g b : Nat) : Nat :=
  SDL_MapRGBA r g b 255

/-- Unpack the four channels of an RGBA32 word (`SDL_GetRGBA`). -/
def SDL_GetRGBA (pixel : Nat) : SDL_Color :=
  { r := pixel % 256, g := pixel / 2 ^ 8 % 256, b := pixel / 2 ^ 16 % 256,
    a := pixel / 2 ^ 24 % 256 }

/-- Unpack the three colour channels of an RGBA32 word (`SDL_GetRGB`). -/
def SDL_GetRGB (pixel : Nat) : Nat × Nat × Nat :=
  (pixel % 256, pixel / 2 ^ 8 % 256, pixel / 2 ^ 16 % 256)

/-! ## Single precision arithmetic -/

/-- A non-negative finite binary32 value, held as the fraction `num / den`
(`den` is a power of two). -/
structure Float32 where
  num : Nat
  den : Nat
deriving DecidableEq

/-- Number of binary digits of `n`, by halving at most `fuel` times. -/
def bitLenAux : Nat → Nat → Nat
  | 0, _ => 0
  | fuel + 1, n => if n = 0 then 0 else bitLenAux fuel (n / 2) + 1

/-- Number of binary digits of `n` (`0` for `0`). -/
def bitLen (n : Nat) : Nat :=
  bitLenAux n n

/-- The integer nearest to `p / q`, ties going to the even one. -/
def roundHalfEven (p q : Nat) : Nat :=
  if 2 * (p % q) > q ∨ (2 * (p % q) = q ∧ (p / q) % 2 = 1) then p / q + 1 else p / q

/-- The binary32 value nearest to `p / q` (round to nearest, ties to even): the
fraction is scaled by a power of two so that its quotient has 24 binary digits,
rounded to an integer, and scaled back.  The exponent range is not limited; the
values of this program lie between `2 ^ (-31)` and `2 ^ 32`, where binary32 has
neither subnormals nor overflow. -/
def Float32.ofRatio (p q : Nat) : Float32 :=
  if p = 0 then ⟨0, 1⟩
  else
    let up := 24 + bitLen q - bitLen p
    let down := bitLen p - (24 + bitLen q)
    if p * 2 ^ up / (q * 2 ^ down) < 2 ^ 24 then
      ⟨roundHalfEven (p * 2 ^ up) (q * 2 ^ down) * 2 ^ down, 2 ^ up⟩
    else
      ⟨roundHalfEven (p * 2 ^ up) (2 * (q * 2 ^ down)) * 2 ^ (down + 1), 2 ^ up⟩

/-- Conversion of a non-negative integer to `float`. -/
def Float32.ofNat (n : Nat) : Float32 :=
  Float32.ofRatio n 1

/-- Single precision division `x / y`. -/
def Float32.div (x y : Float32) : Float32 :=
  Float32.ofRatio (x.num * y.den) (x.den * y.num)

/-- Single precision multiplication `x * y`. -/
def Float32.mul (x y : Float32) : Float32 :=
  Float32.ofRatio (x.num * y.num) (x.den * y.den)

/-- Conversion `(Uint8) x`: truncation toward zero, kept to 8 bits. -/
def Float32.toUint8 (x : Float32) : Nat :=
  x.num / x.den % 256

/-! ## Surfaces, textures and the program state -/

/-- An `SDL_Surface` in RGBA32: `w * h` words, row-major, no padding. -/
structure SDL_Surface where
  w : Nat
  h : Nat
  pixels : List Nat
deriving DecidableEq

/-- An `SDL_Texture`: a handle `id` with the content it was created from. -/
structure SDL_Texture where
  id : Nat
  w : Nat
  h : Nat
  pixels : List Nat
deriving DecidableEq

/-- Rectangle `SDL_FRect`; its members hold integral values in these programs. -/
structure SDL_FRect where
  x : Nat
  y : Nat
  w : Nat
  h : Nat
deriving DecidableEq

/-- The record `struct MyImage`. -/
structure MyImage where
  surface : Option SDL_Surface
  texture : Option SDL_Texture
  rect : SDL_FRect
deriving DecidableEq

/-- The globals of the program and the part of SDL it acts on: `g_image`,
`surfaceFilter`, the textures alive in the renderer, the next texture handle,
the texture last drawn by `render`, and whether the wait cursor is shown. -/
structure State where
  g_image : MyImage
  surfaceFilter : Option SDL_Surface
  liveTextures : List Nat
  nextTexture : Nat
  screen : Option SDL_Texture
  waitCursor : Bool
deriving DecidableEq

/-- A `MyImage *` argument: null, or the address of the global `g_image`. -/
inductive MyImagePtr where
  | null
  | global
deriving DecidableEq

/-- An `SDL_Renderer *` argument: null, or the renderer of the window. -/
inductive RendererPtr where
  | null
  | valid
deriving DecidableEq

/-- Outcome of the SDL calls that may fail during one call of a transform. -/
structure Backend where
  surfaceOk : Bool
  textureOk : Bool
deriving DecidableEq

/-- The call `SDL_CreateSurface(w, h, format)`: a zero-filled surface, or null. -/
def SDL_CreateSurface (ok : Bool) (w h : Nat) : Option SDL_Surface :=
  if ok then some { w := w, h := h, pixels := List.replicate (w * h) 0 } else none

/-- The call `SDL_DestroyTexture(texture)`; a null argument has no effect. -/
def SDL_DestroyTexture (st : State) (texture : Option SDL_Texture) : State :=
  match texture with
  | none => st
  | some t => { st with liveTextures := st.liveTextures.filter (fun i => i ≠ t.id) }

/-- The call `SDL_CreateTextureFromSurface(renderer, surface)`: a fresh texture
holding a copy of the surface, or null. -/
def SDL_CreateTextureFromSurface (ok : Bool) (st : State) (surface : SDL_Surface) :
    Option SDL_Texture × State :=
  if ok then
    (some { id := st.nextTexture, w := surface.w, h := surface.h, pixels := surface.pixels },
      { st with liveTextures := st.nextTexture :: st.liveTextures,
                nextTexture := st.nextTexture + 1 })
  else (none, st)

/-- The function `MyImage_update_texture_with_surface` (06-filter_image). -/
def MyImage_update_texture_with_surface (ok : Bool) (st : State) (image : MyImagePtr)
    (renderer : RendererPtr) (surface : Option SDL_Surface) : Bool × State :=
  match image with
  | .null => (false, st)
  | .global =>
    match renderer with
    | .null => (false, st)
    | .valid =>
      match surface with
      | none => (false, st)
      | some s =>
        let st1 := SDL_DestroyTexture st st.g_image.texture
        let created := SDL_CreateTextureFromSurface ok st1 s
        let st2 := { created.2 with g_image := { created.2.g_image with texture := created.1 } }
        match created.1 with
        | none => (false, st2)
        | some t =>
          (true, { st2 with
            g_image := { st2.g_image with rect := { st2.g_image.rect with w := t.w, h := t.h } } })

/-- The function `render`: the window shows the texture of `g_image`. -/
def render (st : State) : State :=
  { st with screen := st.g_image.texture }

/-! ## Loops -/

/-- A counted loop: `count` iterations of `body`, the counter starting at `i`
and going up by one; it stops at the first iteration that is undefined. -/
def forLoop {σ : Type} (body : Int → σ → Option σ) : Nat → Int → σ → Option σ
  | 0, _, s => some s
  | count + 1, i, s => (body i s).bind (forLoop body count (i + 1))

/-- The loop `for (int i = lo; i < hi; ++i) body`. -/
def forRange {σ : Type} (body : Int → σ → Option σ) (lo hi : Int) (s : σ) : Option σ :=
  forLoop body (hi - lo).toNat lo s

/-! ## invert_image (04-invert_image) -/

/-- Conversion of a `Uint32` value to `int`. -/
def toInt32 (x : Nat) : Int :=
  if x < 2 ^ 31 then x else (x : Int) - 2 ^ 32

/-- The value of `pixelCount` in `invert_image`: the product `w * h` of two `int`,
which the program computes modulo `2 ^ 32` in the range of `int`, converted to
`size_t`. -/
def invertPixelCount (surface : SDL_Surface) : Int :=
  toInt32 (surface.w * surface.h % 2 ^ 32) % 2 ^ 64

/-- Body of the pixel loop of `invert_image`. -/
def invertBody (i : Int) (pixels : List Nat) : Option (List Nat) :=
  match pixels[i.toNat]? with
  | none => none
  | some p =>
    let c := SDL_GetRGBA p
    some (pixels.set i.toNat
      (SDL_MapRGBA ((255 - c.r) % 256) ((255 - c.g) % 256) ((255 - c.b) % 256) c.a))

/-- The function `invert_image`. -/
def invert_image (textureOk : Bool) (st : State) (renderer : RendererPtr)
    (image : MyImagePtr) : Option State :=
  match renderer with
  | .null => some st
  | .valid =>
    match image with
    | .null => some st
    | .global =>
      match st.g_image.surface with
      | none => some st
      | some surface =>
        let pixelCount : Int := invertPixelCount surface
        (forRange invertBody 0 pixelCount surface.pixels).map fun pixels =>
          let inverted : SDL_Surface := { surface with pixels := pixels }
          let st1 := { st with g_image := { st.g_image with surface := some inverted } }
          let st2 := SDL_DestroyTexture st1 st1.g_image.texture
          let created := SDL_CreateTextureFromSurface textureOk st2 inverted
          { created.2 with g_image := { created.2.g_image with texture := created.1 } }

/-! ## MyImage_blur (06-filter_image) -/

/-- Body of the innermost window loop: store the sample at
`(row + rowNeighbour, col + colNeighbour)`, or zero when that position is
outside the image, in `filter[filterIndex]`, and advance `filterIndex`. -/
def windowBody (surface : SDL_Surface) (row col rowNeighbour colNeighbour : Int)
    (s : List SDL_Color × Nat) : Option (List SDL_Color × Nat) :=
  match s.1[s.2]? with
  | none => none
  | some c =>
    if row + rowNeighbour < 0 ∨ row + rowNeighbour ≥ surface.h
        ∨ col + colNeighbour < 0 ∨ col + colNeighbour ≥ surface.w then
      some (s.1.set s.2 { c with r := 0, g := 0, b := 0 }, s.2 + 1)
    else
      match surface.pixels[((row + rowNeighbour) * surface.w + (col + colNeighbour)).toNat]? with
      | none => none
      | some p =>
        some (s.1.set s.2
          { c with r := (SDL_GetRGB p).1, g := (SDL_GetRGB p).2.1, b := (SDL_GetRGB p).2.2 },
          s.2 + 1)

/-- Body of the summation loop: add `filter[i]` to the `Uint32` sums `r, g, b`. -/
def sumBody (filter : List SDL_Color) (i : Int) (acc : Nat × Nat × Nat) :
    Option (Nat × Nat × Nat) :=
  match filter[i.toNat]? with
  | none => none
  | some c =>
    some ((acc.1 + c.r) % 2 ^ 32, (acc.2.1 + c.g) % 2 ^ 32, (acc.2.2 + c.b) % 2 ^ 32)

/-- The value `(Uint8)(sum * average)`. -/
def scaleChannel (average : Float32) (sum : Nat) : Nat :=
  (Float32.mul (Float32.ofNat sum) average).toUint8

/-- Body of the column loop of `MyImage_blur`: gather the window of `(row, col)`
into `filter`, sum it, scale the sums and store the pixel in `output`. -/
def blurBody (surface : SDL_Surface) (filterFinalSize filterHalfSize : Int)
    (average : Float32) (row col : Int) (s : List SDL_Color × List Nat) :
    Option (List SDL_Color × List Nat) :=
  (forRange
    (fun rowNeighbour =>
      forRange (fun colNeighbour => windowBody surface row col rowNeighbour colNeighbour)
        (-filterHalfSize) (filterHalfSize + 1))
    (-filterHalfSize) (filterHalfSize + 1) (s.1, 0)).bind fun gathered =>
  (forRange (sumBody gathered.1) 0 filterFinalSize (0, 0, 0)).bind fun sums =>
  let filteredPixel : SDL_Color :=
    { r := scaleChannel average sums.1, g := scaleChannel average sums.2.1,
      b := scaleChannel average sums.2.2, a := 255 }
  if (row * surface.w + col).toNat < s.2.length then
    some (gathered.1, s.2.set (row * surface.w + col).toNat
      (SDL_MapRGB filteredPixel.r filteredPixel.g filteredPixel.b))
  else none

/-- The two pixel loops of `MyImage_blur`, from the source surface and the
initial contents of `filter` and of the scratch buffer to their final ones. -/
def blurLoops (surface : SDL_Surface) (filterFinalSize filterHalfSize : Int)
    (average : Float32) (s : List SDL_Color × List Nat) : Option (List SDL_Color × List Nat) :=
  forRange
    (fun row =>
      forRange (fun col => blurBody surface filterFinalSize filterHalfSize average row col)
        0 surface.w)
    0 surface.h s

/-- The function `MyImage_blur`.  The wait cursor is set before the pixel loops
and the default cursor after them; the scratch surface is written by the loops,
then published as the texture of the image and drawn. -/
def MyImage_blur (env : Backend) (st : State) (image : MyImagePtr) (renderer : RendererPtr)
    (filter_size : Nat) : Option (Bool × State) :=
  match image with
  | .null => some (false, st)
  | .global =>
    match st.g_image.surface with
    | none => some (false, st)
    | some surface =>
      match renderer with
      | .null => some (false, st)
      | .valid =>
        let scratch :=
          match st.surfaceFilter with
          | some sf => some sf
          | none => SDL_CreateSurface env.surfaceOk surface.w surface.h
        match scratch with
        | none => some (false, st)
        | some sf =>
          let filterFinalSize : Int := toInt32 (filter_size * filter_size % 2 ^ 32)
          let filterHalfSize : Int := (filter_size / 2 : Nat)
          if filterFinalSize ≤ 0 then none
          else
            let average := Float32.div (Float32.ofNat 1) (Float32.ofNat filterFinalSize.toNat)
            let filter : List SDL_Color := List.replicate filterFinalSize.toNat ⟨0, 0, 0, 0⟩
            (blurLoops surface filterFinalSize filterHalfSize average (filter, sf.pixels)).map
              fun done =>
                let st1 :=
                  { st with surfaceFilter := some { sf with pixels := done.2 }, waitCursor := true }
                let st2 :=
                  (MyImage_update_texture_with_surface env.textureOk st1 image renderer
                    st1.surfaceFilter).2
                let st3 := render st2
                (true, { st3 with waitCursor := false })

/-- A surface is well formed: at least one row and one column, `w * h` pixels,
each a `Uint32`. -/
def SDL_Surface.WellFormed (s : SDL_Surface) : Prop :=
  1 ≤ s.w ∧ 1 ≤ s.h ∧ s.pixels.length = s.w * s.h ∧ ∀ p ∈ s.pixels, p < 2 ^ 32

/-! ## The value MyImage_blur stores at a pixel -/

/-- The colour `MyImage_blur` gathers for the image position `(r, c)`: the pixel
there, or zero outside the image. -/
def sampleAt (s : SDL_Surface) (r c : Int) : Nat × Nat × Nat :=
  if r < 0 ∨ r ≥ s.h ∨ c < 0 ∨ c ≥ s.w then (0, 0, 0)
  else
    match s.pixels[(r * s.w + c).toNat]? with
    | none => (0, 0, 0)
    | some p => SDL_GetRGB p

/-- The sample stored in `filter[t]` for the window of `(row, col)`: the window
is visited row by row, `2 * half + 1` positions per row. -/
def windowSample (s : SDL_Surface) (half : Nat) (row col : Int) (t : Nat) : Nat × Nat × Nat :=
  sampleAt s (row - half + (t / (2 * half + 1) : Nat)) (col - half + (t % (2 * half + 1) : Nat))

/-- The three channel sums over the window of `(row, col)`, before reduction
modulo `2 ^ 32`. -/
def windowSums (s : SDL_Surface) (half : Nat) (row col : Int) : Nat × Nat × Nat :=
  let samples := (List.range ((2 * half + 1) * (2 * half + 1))).map (windowSample s half row col)
  ((samples.map fun x => x.1).sum, (samples.map fun x => x.2.1).sum,
    (samples.map fun x => x.2.2).sum)

/-- The constant `average = 1.0f / filterFinalSize` for `filterFinalSize = n`. -/
def averageOf (n : Nat) : Float32 :=
  Float32.div (Float32.ofNat 1) (Float32.ofNat n)

/-- The word `MyImage_blur` stores at `(row, col)` for kernel size `k`. -/
def blurWord (s : SDL_Surface) (k : Nat) (row col : Int) : Nat :=
  SDL_MapRGB (scaleChannel (averageOf (k * k)) ((windowSums s (k / 2) row col).1 % 2 ^ 32))
    (scaleChannel (averageOf (k * k)) ((windowSums s (k / 2) row col).2.1 % 2 ^ 32))
    (scaleChannel (averageOf (k * k)) ((windowSums s (k / 2) row col).2.2 % 2 ^ 32))

/-- The buffer `MyImage_blur` leaves in the scratch surface. -/
def blurPixels (s : SDL_Surface) (k : Nat) : List Nat :=
  (List.range (s.w * s.h)).map fun t => blurWord s k ((t / s.w : Nat) : Int) ((t % s.w : Nat) : Int)

/-- The state `MyImage_blur` returns once the scratch surface `sf` holds `out`. -/
def blurDone (env : Backend) (st : State) (sf : SDL_Surface) (out : List Nat) : State :=
  let st1 := { st with surfaceFilter := some { sf with pixels := out }, waitCursor := true }
  { render (MyImage_update_texture_with_surface env.textureOk st1 .global .valid
      st1.surfaceFilter).2 with waitCursor := false }

/-- The scratch surface `MyImage_blur` writes to: `surfaceFilter` when it
exists, otherwise the surface it creates with the dimensions of the image. -/
def scratchFor (env : Backend) (st : State) (s : SDL_Surface) : Option SDL_Surface :=
  match st.surfaceFilter with
  | some sf => some sf
  | none => SDL_CreateSurface env.surfaceOk s.w s.h

/-- The setting of a blur request: `g_image` holds the well-formed surface `s`
and the scratch surface `sf` has the dimensions of `s`. -/
def BlurReady (env : Backend) (st : State) (s sf : SDL_Surface) : Prop :=
  st.g_image.surface = some s ∧ s.WellFormed ∧ scratchFor env st s = some sf ∧
    sf.w = s.w ∧ sf.h = s.h ∧ sf.pixels.length = s.w * s.h

/-- The state in which `main` enters `loop` after loading the image `s`: the
texture of `g_image` was created from `s`, the scratch surface is allocated and
`render` has drawn the texture. -/
def loadedState (s : SDL_Surface) : State :=
  { g_image :=
      { surface := some s
        texture := some { id := 0, w := s.w, h := s.h, pixels := s.pixels }
        rect := { x := 0, y := 0, w := s.w, h := s.h } }
    surfaceFilter := SDL_CreateSurface true s.w s.h
    liveTextures := [0]
    nextTexture := 1
    screen := some { id := 0, w := s.w, h := s.h, pixels := s.pixels }
    waitCursor := false }

/-- The pixel of a surface at `(row, col)`, as a colour record. -/
def pixelAt (s : SDL_Surface) (row col : Nat) : Option SDL_Color :=
  (s.pixels[row * s.w + col]?).map SDL_GetRGBA

/-- The pixel at `(row, col)` of the scratch surface after a call of
`MyImage_blur` that returned. -/
def blurredAt (r : Option (Bool × State)) (row col : Nat) : Option SDL_Color :=
  r.bind fun x => x.2.surfaceFilter.bind fun sf => pixelAt sf row col

/-- The `w × h` image whose pixels all are `(r, g, b, a)`. -/
def uniformImage (w h r g b a : Nat) : SDL_Surface :=
  { w := w, h := h, pixels := List.replicate (w * h) (SDL_MapRGBA r g b a) }

/-! ## The windowed average as the specification words it -/

/-- The offsets `-half, ..., half` of a window. -/
def windowOffsets (half : Nat) : List Int :=
  (List.range (2 * half + 1)).map fun (j : Nat) => (j : Int) - (half : Int)

/-- Whether the position `(r, c)` lies inside the image. -/
def insideImage (s : SDL_Surface) (r c : Int) : Bool :=
  decide (0 ≤ r ∧ r < s.h ∧ 0 ≤ c ∧ c < s.w)

/-- The sum `S` of one channel over the positions `(row + dr, col + dc)`,
`dr, dc` in `[-half, half]` with `half = (k - 1) / 2`, that lie inside the image;
positions outside the image contribute 0. -/
def specWindowSum (s : SDL_Surface) (k : Nat) (channel : SDL_Color → Nat) (row col : Int) : Nat :=
  ((windowOffsets ((k - 1) / 2)).map fun dr =>
    ((windowOffsets ((k - 1) / 2)).map fun dc =>
      if insideImage s (row + dr) (col + dc) then
        channel (SDL_GetRGBA (s.pixels.getD ((row + dr) * s.w + (col + dc)).toNat 0))
      else 0).sum).sum

/-- The number `n` of positions of the `k × k` window centred at `(row, col)`
that lie inside the image. -/
def specWindowCount (s : SDL_Surface) (k : Nat) (row col : Int) : Nat :=
  ((windowOffsets ((k - 1) / 2)).map fun dr =>
    ((windowOffsets ((k - 1) / 2)).map fun dc =>
      if insideImage s (row + dr) (col + dc) then 1 else 0).sum).sum

instance (s : SDL_Surface) : Decidable s.WellFormed := by
  unfold SDL_Surface.WellFormed
  infer_instance

instance (env : Backend) (st : State) (s sf : SDL_Surface) : Decidable (BlurReady env st s sf) := by
  unfold BlurReady
  infer_instance

/-! ## Auxiliary definitions of the proofs -/

/-- One pixel of `invert_image`: the word stored back by the loop body. -/
def invertWord (p : Nat) : Nat :=
  SDL_MapRGBA ((255 - (SDL_GetRGBA p).r) % 256) ((255 - (SDL_GetRGBA p).g) % 256)
    ((255 - (SDL_GetRGBA p).b) % 256) (SDL_GetRGBA p).a

/-- The buffer `invert_image` leaves when its loop runs over the first `n` pixels. -/
def invertPrefix (n : Nat) (pixels : List Nat) : List Nat :=
  (List.range pixels.length).map fun i =>
    if i < n then invertWord (pixels.getD i 0) else pixels.getD i 0

/-- What the window loops have established once `n` samples are stored. -/
def Gathered (s : SDL_Surface) (half : Nat) (row col : Int) (len n : Nat)
    (st : List SDL_Color × Nat) : Prop :=
  st.2 = n ∧ st.1.length = len ∧
    ∀ t, t < n → ∃ c, st.1[t]? = some c ∧ (c.r, c.g, c.b) = windowSample s half row col t

/-! ## The rest of the life cycle of the image (06-filter_image) -/

/-- The function `MyImage_destroy`: the texture and the surface are destroyed
when present, and the rectangle is reset. -/
def MyImage_destroy (st : State) (image : MyImagePtr) : State :=
  match image with
  | .null => st
  | .global =>
    let st1 := SDL_DestroyTexture st st.g_image.texture
    { st1 with
      g_image := { surface := none, texture := none, rect := { x := 0, y := 0, w := 0, h := 0 } } }

/-- The function `MyImage_restore_texture`.  It reads `image->surface` to build
the argument of the call, before any test, so a null `image` is undefined. -/
def MyImage_restore_texture (ok : Bool) (st : State) (image : MyImagePtr)
    (renderer : RendererPtr) : Option (Bool × State) :=
  match image with
  | .null => none
  | .global =>
    some (MyImage_update_texture_with_surface ok st image renderer st.g_image.surface)

/-- The function `reset_image`.  It runs inside `loop`, where `g_window.renderer`
is the renderer `initialize` created. -/
def reset_image (ok : Bool) (st : State) : Option State :=
  (MyImage_restore_texture ok st .global .valid).map fun r => render r.2

/-- Outcome of the external calls of one `load_rgba32`: whether `IMG_Load`
returned a surface, the RGBA32 surface `SDL_ConvertSurface` returned (or null),
and whether the texture could be created. -/
structure LoadBackend where
  decoded : Bool
  converted : Option SDL_Surface
  textureOk : Bool
deriving DecidableEq

/-- The function `load_rgba32` (06-filter_image). -/
def load_rgba32 (b : LoadBackend) (st : State) (filename : Option String)
    (renderer : RendererPtr) (output_image : MyImagePtr) : Bool × State :=
  match filename with
  | none => (false, st)
  | some _ =>
    match renderer with
    | .null => (false, st)
    | .valid =>
      match output_image with
      | .null => (false, st)
      | .global =>
        let st1 := MyImage_destroy st output_image
        if b.decoded = false then (false, st1)
        else
          let st2 := { st1 with g_image := { st1.g_image with surface := b.converted } }
          match st2.g_image.surface with
          | none => (false, st2)
          | some s =>
            let published :=
              MyImage_update_texture_with_surface b.textureOk st2 output_image renderer (some s)
            if published.1 = false then (false, published.2) else (true, published.2)

/-- The constant `IMAGE_FILENAME`. -/
def IMAGE_FILENAME : String :=
  "kodim23.png"

/-- The globals when `main` starts: no image, no scratch surface, no texture. -/
def initialState : State :=
  { g_image := { surface := none, texture := none, rect := { x := 0, y := 0, w := 0, h := 0 } }
    surfaceFilter := none
    liveTextures := []
    nextTexture := 0
    screen := none
    waitCursor := false }

/-- A request `loop` serves: a blur with some kernel size (keys '1' to '9'), or a
reset (keys '0' and 'R'). -/
inductive Request where
  | blur (filter_size : Nat)
  | reset
deriving DecidableEq

/-- One request served by `loop`, on the global image and the renderer of the
window. -/
def Request.run (env : Backend) (st : State) : Request → Option State
  | .blur filter_size => (MyImage_blur env st .global .valid filter_size).map fun r => r.2
  | .reset => reset_image env.textureOk st

/-- A sequence of requests, each with the outcome of its external calls. -/
def runRequests : State → List (Backend × Request) → Option State
  | st, [] => some st
  | st, (env, request) :: rest => (request.run env st).bind fun st' => runRequests st' rest

/-- The pixel buffer the window shows: the content of the texture last drawn. -/
def displayed (st : State) : Option (List Nat) :=
  st.screen.map fun t => t.pixels

/-- The states the program can be in: the initial one, and those reached by a
call of `load_rgba32`, by the creation of the scratch surface in `main`, by
`render`, by a returning call of `MyImage_blur`, or by `reset_image`. -/
inductive Reachable : State → Prop where
  | init : Reachable initialState
  | load (b : LoadBackend) (st : State) (filename : Option String) (renderer : RendererPtr)
      (image : MyImagePtr) :
      Reachable st → Reachable (load_rgba32 b st filename renderer image).2
  | scratch (ok : Bool) (st : State) (s : SDL_Surface) :
      Reachable st → st.g_image.surface = some s →
      Reachable { st with surfaceFilter := SDL_CreateSurface ok s.w s.h }
  | draw (st : State) : Reachable st → Reachable (render st)
  | blur (env : Backend) (st st' : State) (image : MyImagePtr) (renderer : RendererPtr)
      (filter_size : Nat) (ret : Bool) :
      Reachable st → MyImage_blur env st image renderer filter_size = some (ret, st') →
      Reachable st'
  | reset (ok : Bool) (st st' : State) :
      Reachable st → reset_image ok st = some st' → Reachable st'

/-- The state of a session of `loop` on the image `s`: `g_image` holds `s`, and
the scratch surface, when it exists, has the dimensions of `s`. -/
def SessionOn (s : SDL_Surface) (st : State) : Prop :=
  st.g_image.surface = some s ∧
    ∀ sf, st.surfaceFilter = some sf → sf.w = s.w ∧ sf.h = s.h ∧ sf.pixels.length = s.w * s.h

/-- Every live texture is the texture of `g_image`, and texture handles still to
be given out are not live. -/
def TexturesOwned (st : State) : Prop :=
  (∀ i, i ∈ st.liveTextures → i < st.nextTexture) ∧
    st.liveTextures = (st.g_image.texture.map fun t => t.id).toList

/-- Requests whose kernel sizes are odd with a square that fits `int`. -/
def ValidSizes (requests : List (Backend × Request)) : Prop :=
  ∀ env k, (env, Request.blur k) ∈ requests → k % 2 = 1 ∧ k * k < 2 ^ 31

/-! ## Transposition, ordering of images and the brightest sample of a window, as the
specification words them -/

/-- The transpose of a surface: rows and columns exchanged, width and height
swapped. -/
def transposeSurface (s : SDL_Surface) : SDL_Surface :=
  { w := s.h
    h := s.w
    pixels := (List.range (s.h * s.w)).map fun i => s.pixels.getD (i % s.h * s.w + i / s.h) 0 }

/-- Every colour channel of every pixel of `a` is at most the corresponding
channel of `b`. -/
def ChannelwiseLe (a b : SDL_Surface) : Prop :=
  ∀ i, i < a.w * a.h →
    (SDL_GetRGBA (a.pixels.getD i 0)).r ≤ (SDL_GetRGBA (b.pixels.getD i 0)).r ∧
    (SDL_GetRGBA (a.pixels.getD i 0)).g ≤ (SDL_GetRGBA (b.pixels.getD i 0)).g ∧
    (SDL_GetRGBA (a.pixels.getD i 0)).b ≤ (SDL_GetRGBA (b.pixels.getD i 0)).b

instance (a b : SDL_Surface) : Decidable (ChannelwiseLe a b) := by
  unfold ChannelwiseLe
  infer_instance

/-- The maximum of one channel over the positions `(row + dr, col + dc)` of the
`k × k` window centred at `(row, col)` that lie inside the image. -/
def specWindowMax (s : SDL_Surface) (k : Nat) (channel : SDL_Color → Nat) (row col : Int) : Nat :=
  ((windowOffsets ((k - 1) / 2)).map fun dr =>
    ((windowOffsets ((k - 1) / 2)).map fun dc =>
      if insideImage s (row + dr) (col + dc) then
        channel (SDL_GetRGBA (s.pixels.getD ((row + dr) * s.w + (col + dc)).toNat 0))
      else 0).foldr max 0).foldr max 0

/-! ## Values of single precision numbers (auxiliary definitions of the proofs) -/

/-- The value of a binary32 number, as a fraction. -/
def Float32.val (x : Float32) : ℚ :=
  (x.num : ℚ) / (x.den : ℚ)

/-- The integer nearest to `y`, ties going to the even one. -/
def roundNearestEven (y : ℚ) : ℤ :=
  if 1 < 2 * Int.fract y ∨ (2 * Int.fract y = 1 ∧ ⌊y⌋ % 2 = 1) then ⌊y⌋ + 1 else ⌊y⌋

/-- The product `sum * average`, truncated toward zero, before its reduction to
8 bits. -/
def truncatedProduct (average : Float32) (sum : Nat) : Nat :=
  (Float32.mul (Float32.ofNat sum) average).num / (Float32.mul (Float32.ofNat sum) average).den

set_option maxRecDepth 100000

/-! ## Loop rules -/

theorem forLoop_invariant {σ : Type} (body : Int → σ → Option σ) :
    ∀ (n : Nat) (P : Nat → σ → Prop) (i : Int) (s : σ), P 0 s →
      (∀ j t, j < n → P j t → ∃ t', body (i + j) t = some t' ∧ P (j + 1) t') →
      ∃ t, forLoop body n i s = some t ∧ P n t := by
  intro n
  induction n with
  | zero => intro P i s h0 _; exact ⟨s, rfl, h0⟩
  | succ n ih =>
    intro P i s h0 hstep
    obtain ⟨s1, hb, h1⟩ := hstep 0 s (Nat.succ_pos n) h0
    have hb' : body i s = some s1 := by simpa using hb
    obtain ⟨t, ht, hP⟩ := ih (fun j => P (j + 1)) (i + 1) s1 h1 (by
      intro j u hj hu
      obtain ⟨u', hu1, hu2⟩ := hstep (j + 1) u (Nat.succ_lt_succ hj) hu
      refine ⟨u', ?_, hu2⟩
      have e : i + 1 + (j : Int) = i + ((j + 1 : Nat) : Int) := by omega
      rw [e]; exact hu1)
    exact ⟨t, by simp [forLoop, hb', ht], hP⟩

theorem forRange_invariant {σ : Type} (body : Int → σ → Option σ) (n : Nat)
    (P : Nat → σ → Prop) (lo hi : Int) (s : σ) (hn : hi - lo = n) (h0 : P 0 s)
    (hstep : ∀ j t, j < n → P j t → ∃ t', body (lo + j) t = some t' ∧ P (j + 1) t') :
    ∃ t, forRange body lo hi s = some t ∧ P n t := by
  have e : (hi - lo).toNat = n := by omega
  unfold forRange
  rw [e]
  exact forLoop_invariant body n P lo s h0 hstep

/-! ## Pixel words -/

theorem pow_two_8 : (2 : Nat) ^ 8 = 256 := by norm_num

theorem pow_two_16 : (2 : Nat) ^ 16 = 65536 := by norm_num

theorem pow_two_24 : (2 : Nat) ^ 24 = 16777216 := by norm_num

theorem pow_two_32 : (2 : Nat) ^ 32 = 4294967296 := by norm_num

theorem getRGBA_mapRGBA (r g b a : Nat) (hr : r < 256) (hg : g < 256) (hb : b < 256)
    (ha : a < 256) : SDL_GetRGBA (SDL_MapRGBA r g b a) = { r := r, g := g, b := b, a := a } := by
  simp only [SDL_GetRGBA, SDL_MapRGBA, SDL_Color.mk.injEq, pow_two_8, pow_two_16, pow_two_24]
  refine ⟨?_, ?_, ?_, ?_⟩ <;> omega

theorem getRGBA_lt (p : Nat) :
    (SDL_GetRGBA p).r < 256 ∧ (SDL_GetRGBA p).g < 256 ∧ (SDL_GetRGBA p).b < 256
      ∧ (SDL_GetRGBA p).a < 256 := by
  simp only [SDL_GetRGBA]
  refine ⟨?_, ?_, ?_, ?_⟩ <;> omega

theorem getRGBA_invertWord (p : Nat) :
    SDL_GetRGBA (invertWord p) =
      { r := 255 - (SDL_GetRGBA p).r, g := 255 - (SDL_GetRGBA p).g,
        b := 255 - (SDL_GetRGBA p).b, a := (SDL_GetRGBA p).a } := by
  obtain ⟨hr, hg, hb, ha⟩ := getRGBA_lt p
  unfold invertWord
  rw [getRGBA_mapRGBA _ _ _ _ (Nat.mod_lt _ (by norm_num)) (Nat.mod_lt _ (by norm_num))
    (Nat.mod_lt _ (by norm_num)) ha]
  simp only [SDL_Color.mk.injEq, and_true]
  refine ⟨?_, ?_, ?_⟩ <;> omega

theorem invert_loop (pixels : List Nat) (n : Nat) (hn : pixels.length = n) :
    forRange invertBody 0 (n : Int) pixels = some (pixels.map invertWord) := by
  obtain ⟨t, ht, hlen, hP⟩ := forRange_invariant invertBody n
    (fun j px => px.length = pixels.length ∧
      ∀ t, px[t]? = if t < j then (pixels[t]?).map invertWord else pixels[t]?)
    0 n pixels (by omega) ⟨rfl, fun t => by simp⟩ (by
      intro j px hj ⟨hl, hpx⟩
      have hjl : j < pixels.length := by omega
      have e : ((0 : Int) + (j : Int)).toNat = j := by omega
      have hget : px[j]? = some pixels[j] := by
        rw [hpx j]; simp [hjl]
      refine ⟨px.set j (invertWord pixels[j]), ?_, ?_, ?_⟩
      · simp [invertBody, e, hget, invertWord]
      · simp [hl]
      · intro t
        rw [List.getElem?_set]
        by_cases htj : j = t
        · subst htj; simp [hl, hjl]
        · rw [if_neg htj, hpx t]
          by_cases h1 : t < j
          · have : t < j + 1 := by omega
            simp [h1, this]
          · have : ¬ t < j + 1 := by omega
            simp [h1, this])
  rw [ht]
  congr 1
  apply List.ext_getElem?
  intro i
  rw [hP i]
  by_cases hi : i < n
  · simp [hi]
  · have : pixels.length ≤ i := by omega
    simp [hi, List.getElem?_eq_none this]

/-! ## The window loops of MyImage_blur -/

theorem index_lt (w h : Nat) (r c : Int) (hr0 : 0 ≤ r) (hr : r < h) (hc0 : 0 ≤ c) (hc : c < w) :
    (r * w + c).toNat < w * h := by
  obtain ⟨r', rfl⟩ := Int.eq_ofNat_of_zero_le hr0
  obtain ⟨c', rfl⟩ := Int.eq_ofNat_of_zero_le hc0
  have hr' : r' < h := by omega
  have hc' : c' < w := by omega
  have e : ((r' : Int) * w + c').toNat = r' * w + c' := by
    have : ((r' : Int) * w + c') = ((r' * w + c' : Nat) : Int) := by push_cast; ring
    rw [this, Int.toNat_ofNat]
  rw [e]
  calc r' * w + c' < r' * w + w := by omega
    _ = w * (r' + 1) := by ring
    _ ≤ w * h := Nat.mul_le_mul_left w hr'

theorem windowBody_step (s : SDL_Surface) (hlen : s.pixels.length = s.w * s.h) (half : Nat)
    (row col : Int) (a j : Nat) (hj : j < 2 * half + 1) (len : Nat)
    (hn : a * (2 * half + 1) + j < len) (st : List SDL_Color × Nat)
    (h : Gathered s half row col len (a * (2 * half + 1) + j) st) :
    ∃ st', windowBody s row col (-(half : Int) + a) (-(half : Int) + j) st = some st' ∧
      Gathered s half row col len (a * (2 * half + 1) + (j + 1)) st' := by
  obtain ⟨f, i⟩ := st
  obtain ⟨hi, hl, hg⟩ := h
  simp only at hi hl hg
  subst hi
  have hdiv : (a * (2 * half + 1) + j) / (2 * half + 1) = a := by
    rw [Nat.add_comm, Nat.add_mul_div_right _ _ (by omega), Nat.div_eq_of_lt hj, Nat.zero_add]
  have hmod : (a * (2 * half + 1) + j) % (2 * half + 1) = j := by
    rw [Nat.add_comm, Nat.add_mul_mod_self_right, Nat.mod_eq_of_lt hj]
  have hget : f[a * (2 * half + 1) + j]? = some f[a * (2 * half + 1) + j] :=
    List.getElem?_eq_getElem (by omega)
  have key : ∀ c : SDL_Color, (c.r, c.g, c.b) = windowSample s half row col (a * (2 * half + 1) + j) →
      Gathered s half row col len (a * (2 * half + 1) + (j + 1))
        (f.set (a * (2 * half + 1) + j) c, a * (2 * half + 1) + j + 1) := by
    intro c hc
    refine ⟨by simp only; omega, by simp [hl], ?_⟩
    intro t ht
    simp only
    by_cases e : a * (2 * half + 1) + j = t
    · subst e
      exact ⟨c, by rw [List.getElem?_set_self (by omega)], hc⟩
    · rw [List.getElem?_set_ne e]
      exact hg t (by omega)
  have hs : windowSample s half row col (a * (2 * half + 1) + j)
      = sampleAt s (row + (-(half : Int) + a)) (col + (-(half : Int) + j)) := by
    unfold windowSample
    rw [hdiv, hmod]
    congr 1 <;> ring
  unfold windowBody
  simp only [hget]
  by_cases hout : row + (-(half : Int) + a) < 0 ∨ row + (-(half : Int) + a) ≥ s.h
      ∨ col + (-(half : Int) + j) < 0 ∨ col + (-(half : Int) + j) ≥ s.w
  · rw [if_pos hout]
    refine ⟨_, rfl, key _ ?_⟩
    rw [hs, sampleAt, if_pos hout]
  · rw [if_neg hout]
    have hidx : ((row + (-(half : Int) + a)) * s.w + (col + (-(half : Int) + j))).toNat
        < s.pixels.length := by
      rw [hlen]
      apply index_lt <;> omega
    rw [List.getElem?_eq_getElem hidx]
    refine ⟨_, rfl, key _ ?_⟩
    rw [hs, sampleAt, if_neg hout, List.getElem?_eq_getElem hidx]

theorem window_loops (s : SDL_Surface) (hlen : s.pixels.length = s.w * s.h) (half : Nat)
    (row col : Int) (f : List SDL_Color)
    (hf : f.length = (2 * half + 1) * (2 * half + 1)) :
    ∃ st, forRange
        (fun rowNeighbour =>
          forRange (fun colNeighbour => windowBody s row col rowNeighbour colNeighbour)
            (-(half : Int)) ((half : Int) + 1))
        (-(half : Int)) ((half : Int) + 1) (f, 0) = some st ∧
      Gathered s half row col ((2 * half + 1) * (2 * half + 1))
        ((2 * half + 1) * (2 * half + 1)) st := by
  apply forRange_invariant _ (2 * half + 1)
    (fun a st => Gathered s half row col ((2 * half + 1) * (2 * half + 1))
      (a * (2 * half + 1)) st)
  · push_cast; ring
  · exact ⟨by simp, hf, fun t ht => by omega⟩
  · intro a st ha hst
    have hinner := forRange_invariant
      (fun colNeighbour => windowBody s row col (-(half : Int) + a) colNeighbour) (2 * half + 1)
      (fun j st => Gathered s half row col ((2 * half + 1) * (2 * half + 1))
        (a * (2 * half + 1) + j) st)
      (-(half : Int)) ((half : Int) + 1) st (by push_cast; ring) (by simpa using hst) (by
        intro j u hj hu
        have hlt : a * (2 * half + 1) + j < (2 * half + 1) * (2 * half + 1) := by
          calc a * (2 * half + 1) + j < a * (2 * half + 1) + (2 * half + 1) := by omega
            _ = (a + 1) * (2 * half + 1) := by ring
            _ ≤ (2 * half + 1) * (2 * half + 1) := Nat.mul_le_mul_right _ (by omega)
        exact windowBody_step s hlen half row col a j hj _ hlt u hu)
    obtain ⟨t, ht, hP⟩ := hinner
    refine ⟨t, ht, ?_⟩
    have e : (a + 1) * (2 * half + 1) = a * (2 * half + 1) + (2 * half + 1) := by ring
    rw [e]
    exact hP

/-! ## The summation loop and the pixel loops of MyImage_blur -/

theorem sum_loop (f : List SDL_Color) (n : Nat) (hn : f.length = n) :
    forRange (sumBody f) 0 (n : Int) (0, 0, 0) =
      some ((f.map fun c => c.r).sum % 2 ^ 32, (f.map fun c => c.g).sum % 2 ^ 32,
        (f.map fun c => c.b).sum % 2 ^ 32) := by
  obtain ⟨acc, hacc, hP⟩ := forRange_invariant (sumBody f) n
    (fun j acc => acc = (((f.take j).map fun c => c.r).sum % 2 ^ 32,
      ((f.take j).map fun c => c.g).sum % 2 ^ 32, ((f.take j).map fun c => c.b).sum % 2 ^ 32))
    0 n (0, 0, 0) (by omega) (by simp) (by
      intro j acc hj hacc
      have e : ((0 : Int) + (j : Int)).toNat = j := by omega
      have hget : f[j]? = some f[j] := List.getElem?_eq_getElem (by omega)
      refine ⟨((acc.1 + f[j].r) % 2 ^ 32, (acc.2.1 + f[j].g) % 2 ^ 32,
        (acc.2.2 + f[j].b) % 2 ^ 32), by simp only [sumBody, e, hget], ?_⟩
      subst hacc
      rw [List.take_succ, hget]
      simp only [Option.toList, List.map_append, List.sum_append, List.map_cons, List.map_nil,
        List.sum_cons, List.sum_nil, Nat.add_zero, Nat.mod_add_mod])
  rw [hacc, hP, List.take_of_length_le (by omega)]

theorem gathered_map (s : SDL_Surface) (half : Nat) (row col : Int) (len : Nat)
    (st : List SDL_Color × Nat) (h : Gathered s half row col len len st) :
    (st.1.map fun c => (c.r, c.g, c.b)) = (List.range len).map (windowSample s half row col) := by
  obtain ⟨_, hl, hg⟩ := h
  apply List.ext_getElem?
  intro i
  by_cases hi : i < len
  · obtain ⟨c, hc, hcs⟩ := hg i hi
    simp [hc, List.getElem?_range hi, hcs]
  · have h1 : st.1.length ≤ i := by omega
    have h2 : (List.range len).length ≤ i := by rw [List.length_range]; omega
    rw [List.getElem?_map, List.getElem?_map, List.getElem?_eq_none h1,
      List.getElem?_eq_none h2]
    rfl

theorem gathered_sums (s : SDL_Surface) (half : Nat) (row col : Int)
    (st : List SDL_Color × Nat)
    (h : Gathered s half row col ((2 * half + 1) * (2 * half + 1))
      ((2 * half + 1) * (2 * half + 1)) st) :
    ((st.1.map fun c => c.r).sum, (st.1.map fun c => c.g).sum, (st.1.map fun c => c.b).sum)
      = windowSums s half row col := by
  have hm := gathered_map s half row col _ st h
  have h1 : (st.1.map fun c => c.r) = (st.1.map fun c => (c.r, c.g, c.b)).map fun x => x.1 := by
    simp [List.map_map, Function.comp_def]
  have h2 : (st.1.map fun c => c.g) = (st.1.map fun c => (c.r, c.g, c.b)).map fun x => x.2.1 := by
    simp [List.map_map, Function.comp_def]
  have h3 : (st.1.map fun c => c.b) = (st.1.map fun c => (c.r, c.g, c.b)).map fun x => x.2.2 := by
    simp [List.map_map, Function.comp_def]
  rw [h1, h2, h3, hm]
  rfl

theorem blurBody_eq (s : SDL_Surface) (hlen : s.pixels.length = s.w * s.h) (k : Nat)
    (hodd : k % 2 = 1) (row col : Nat) (hr : row < s.h) (hc : col < s.w)
    (f : List SDL_Color) (out : List Nat) (hf : f.length = k * k)
    (ho : out.length = s.w * s.h) :
    ∃ f', blurBody s ((k * k : Nat) : Int) ((k / 2 : Nat) : Int) (averageOf (k * k)) row col
        (f, out) = some (f', out.set (row * s.w + col) (blurWord s k row col)) ∧
      f'.length = k * k := by
  have hk : 2 * (k / 2) + 1 = k := by omega
  have hf' : f.length = (2 * (k / 2) + 1) * (2 * (k / 2) + 1) := by rw [hk]; exact hf
  obtain ⟨st, hst, hG⟩ := window_loops s hlen (k / 2) row col f hf'
  have hsum := sum_loop st.1 (k * k) (by rw [hG.2.1, hk])
  have hws := gathered_sums s (k / 2) row col st hG
  have hidx : ((row : Int) * (s.w : Int) + (col : Int)).toNat = row * s.w + col := by
    have : ((row : Int) * (s.w : Int) + (col : Int)) = ((row * s.w + col : Nat) : Int) := by
      push_cast; ring
    rw [this, Int.toNat_ofNat]
  have hlt : row * s.w + col < out.length := by
    rw [ho]
    calc row * s.w + col < row * s.w + s.w := by omega
      _ = s.w * (row + 1) := by ring
      _ ≤ s.w * s.h := Nat.mul_le_mul_left _ hr
  refine ⟨st.1, ?_, by rw [hG.2.1, hk]⟩
  unfold blurBody
  simp only [hst, Option.some_bind, hsum, hidx, hlt, if_true]
  have e1 := congrArg (fun x => x.1) hws
  have e2 := congrArg (fun x => x.2.1) hws
  have e3 := congrArg (fun x => x.2.2) hws
  simp only at e1 e2 e3
  simp only [blurWord, e1, e2, e3]

theorem blurLoops_eq (s : SDL_Surface) (hlen : s.pixels.length = s.w * s.h) (k : Nat)
    (hodd : k % 2 = 1) (f : List SDL_Color) (out : List Nat) (hf : f.length = k * k)
    (ho : out.length = s.w * s.h) :
    ∃ f', blurLoops s ((k * k : Nat) : Int) ((k / 2 : Nat) : Int) (averageOf (k * k)) (f, out)
      = some (f', blurPixels s k) := by
  have main := forRange_invariant
    (fun row =>
      forRange (fun col => blurBody s ((k * k : Nat) : Int) ((k / 2 : Nat) : Int)
        (averageOf (k * k)) row col) 0 s.w)
    s.h
    (fun row st => st.1.length = k * k ∧ st.2.length = s.w * s.h ∧
      ∀ t, t < row * s.w →
        st.2[t]? = some (blurWord s k ((t / s.w : Nat) : Int) ((t % s.w : Nat) : Int)))
    0 s.h (f, out) (by omega) ⟨hf, ho, fun t ht => by omega⟩ (by
      intro row st hrow hst
      have hinner := forRange_invariant
        (fun col => blurBody s ((k * k : Nat) : Int) ((k / 2 : Nat) : Int)
          (averageOf (k * k)) ((0 : Int) + row) col)
        s.w
        (fun col st => st.1.length = k * k ∧ st.2.length = s.w * s.h ∧
          ∀ t, t < row * s.w + col →
            st.2[t]? = some (blurWord s k ((t / s.w : Nat) : Int) ((t % s.w : Nat) : Int)))
        0 s.w st (by omega) (by simpa using hst) (by
          intro col u hcol ⟨hu1, hu2, hu3⟩
          obtain ⟨f', hb, hf'⟩ := blurBody_eq s hlen k hodd row col hrow hcol u.1 u.2 hu1 hu2
          have e0 : ((0 : Int) + (row : Int)) = (row : Int) := by omega
          have e1 : ((0 : Int) + (col : Int)) = (col : Int) := by omega
          rw [e0, e1]
          refine ⟨_, hb, hf', by simp [hu2], ?_⟩
          intro t ht
          simp only
          have hdiv : (row * s.w + col) / s.w = row := by
            rw [Nat.add_comm, Nat.add_mul_div_right _ _ (by omega), Nat.div_eq_of_lt hcol,
              Nat.zero_add]
          have hmod : (row * s.w + col) % s.w = col := by
            rw [Nat.add_comm, Nat.add_mul_mod_self_right, Nat.mod_eq_of_lt hcol]
          by_cases e : row * s.w + col = t
          · subst e
            have hlt : row * s.w + col < u.2.length := by
              rw [hu2]
              calc row * s.w + col < row * s.w + s.w := by omega
                _ = s.w * (row + 1) := by ring
                _ ≤ s.w * s.h := Nat.mul_le_mul_left _ hrow
            rw [List.getElem?_set_self hlt, hdiv, hmod]
          · rw [List.getElem?_set_ne e]
            exact hu3 t (by omega))
      obtain ⟨u, hu, hP⟩ := hinner
      refine ⟨u, hu, ?_⟩
      have e : (row + 1) * s.w = row * s.w + s.w := by ring
      beta_reduce
      rw [e]
      exact hP)
  obtain ⟨st, hst, h1, h2, h3⟩ := main
  refine ⟨st.1, ?_⟩
  unfold blurLoops
  rw [hst]
  congr 1
  have : st.2 = blurPixels s k := by
    apply List.ext_getElem?
    intro i
    unfold blurPixels
    by_cases hi : i < s.w * s.h
    · rw [h3 i (by rw [Nat.mul_comm]; exact hi), List.getElem?_map, List.getElem?_range hi]
      rfl
    · have h4 : st.2.length ≤ i := by omega
      have h5 : (List.range (s.w * s.h)).length ≤ i := by rw [List.length_range]; omega
      rw [List.getElem?_map, List.getElem?_eq_none h4, List.getElem?_eq_none h5]
      rfl
  rw [← this]

/-! ## The two transforms as functions of the state -/

theorem toInt32_sq (k : Nat) (hk : k * k < 2 ^ 31) :
    toInt32 (k * k % 2 ^ 32) = ((k * k : Nat) : Int) := by
  have h : k * k % 2 ^ 32 = k * k := Nat.mod_eq_of_lt (by omega)
  rw [h, toInt32, if_pos hk]

theorem MyImage_blur_eq (env : Backend) (st : State) (s sf : SDL_Surface) (k : Nat)
    (hs : st.g_image.surface = some s) (hlen : s.pixels.length = s.w * s.h)
    (hsf : scratchFor env st s = some sf) (hout : sf.pixels.length = s.w * s.h)
    (hodd : k % 2 = 1) (hk : k * k < 2 ^ 31) :
    MyImage_blur env st .global .valid k = some (true, blurDone env st sf (blurPixels s k)) := by
  have hpos : ¬ ((k * k : Nat) : Int) ≤ 0 := by
    have : 0 < k := by omega
    have : 0 < k * k := Nat.mul_pos this this
    omega
  obtain ⟨f', hf'⟩ := blurLoops_eq s hlen k hodd (List.replicate (k * k) ⟨0, 0, 0, 0⟩)
    sf.pixels (by simp) hout
  simp only [averageOf] at hf'
  unfold scratchFor at hsf
  unfold MyImage_blur
  simp only [hs, hsf, toInt32_sq k hk, hpos, if_false, Int.toNat_ofNat, hf', Option.map_some',
    blurDone]

/-! ## Facts shared by the claims -/

theorem update_texture_surfaceFilter (ok : Bool) (st : State) (image : MyImagePtr)
    (renderer : RendererPtr) (surface : Option SDL_Surface) :
    (MyImage_update_texture_with_surface ok st image renderer surface).2.surfaceFilter
      = st.surfaceFilter := by
  cases image <;> cases renderer <;> cases surface <;> cases ok <;>
    cases h : st.g_image.texture <;>
    simp [MyImage_update_texture_with_surface, SDL_CreateTextureFromSurface,
      SDL_DestroyTexture, h]

theorem update_texture_surface (ok : Bool) (st : State) (image : MyImagePtr)
    (renderer : RendererPtr) (surface : Option SDL_Surface) :
    (MyImage_update_texture_with_surface ok st image renderer surface).2.g_image.surface
      = st.g_image.surface := by
  cases image <;> cases renderer <;> cases surface <;> cases ok <;>
    cases h : st.g_image.texture <;>
    simp [MyImage_update_texture_with_surface, SDL_CreateTextureFromSurface,
      SDL_DestroyTexture, h]

theorem blurDone_surfaceFilter (env : Backend) (st : State) (sf : SDL_Surface) (out : List Nat) :
    (blurDone env st sf out).surfaceFilter = some { sf with pixels := out } := by
  simp only [blurDone, render, update_texture_surfaceFilter]

theorem blurDone_surface (env : Backend) (st : State) (sf : SDL_Surface) (out : List Nat) :
    (blurDone env st sf out).g_image.surface = st.g_image.surface := by
  simp only [blurDone, render, update_texture_surface]

theorem getElem?_blurPixels (s : SDL_Surface) (k i : Nat) (hi : i < s.w * s.h) :
    (blurPixels s k)[i]? = some (blurWord s k ((i / s.w : Nat) : Int) ((i % s.w : Nat) : Int)) := by
  unfold blurPixels
  rw [List.getElem?_map, List.getElem?_range hi]
  rfl

theorem blurredAt_eq (env : Backend) (st : State) (s sf : SDL_Surface) (k : Nat)
    (h : BlurReady env st s sf) (hodd : k % 2 = 1) (hk : k * k < 2 ^ 31) (row col : Nat)
    (hr : row < s.h) (hc : col < s.w) :
    blurredAt (MyImage_blur env st .global .valid k) row col
      = some (SDL_GetRGBA (blurWord s k row col)) := by
  obtain ⟨hs, hwf, hsf, hw, _, hl⟩ := h
  rw [MyImage_blur_eq env st s sf k hs hwf.2.2.1 hsf hl hodd hk]
  have hidx : row * s.w + col < s.w * s.h := by
    calc row * s.w + col < row * s.w + s.w := by omega
      _ = s.w * (row + 1) := by ring
      _ ≤ s.w * s.h := Nat.mul_le_mul_left _ hr
  have hdiv : (row * s.w + col) / s.w = row := by
    rw [Nat.add_comm, Nat.add_mul_div_right _ _ (by omega), Nat.div_eq_of_lt hc, Nat.zero_add]
  have hmod : (row * s.w + col) % s.w = col := by
    rw [Nat.add_comm, Nat.add_mul_mod_self_right, Nat.mod_eq_of_lt hc]
  simp only [blurredAt, Option.some_bind, blurDone_surfaceFilter, pixelAt, hw,
    getElem?_blurPixels s k _ hidx, hdiv, hmod, Option.map_some']

theorem getRGBA_mapRGB (r g b : Nat) (hr : r < 256) (hg : g < 256) (hb : b < 256) :
    SDL_GetRGBA (SDL_MapRGB r g b) = { r := r, g := g, b := b, a := 255 } :=
  getRGBA_mapRGBA r g b 255 hr hg hb (by norm_num)

theorem sum_range_mul (K : Nat) (hK : 0 < K) (g : Nat → Nat → Nat) (n : Nat) :
    ((List.range (n * K)).map fun t => g (t / K) (t % K)).sum
      = ((List.range n).map fun a => ((List.range K).map fun b => g a b).sum).sum := by
  induction n with
  | zero => simp
  | succ n ih =>
    have e : (n + 1) * K = n * K + K := by ring
    rw [e, List.range_add, List.map_append, List.sum_append, ih, List.range_succ,
      List.map_append, List.sum_append]
    simp only [List.map_cons, List.map_nil, List.sum_cons, List.sum_nil, Nat.add_zero,
      List.map_map]
    congr 2
    apply List.map_congr_left
    intro b hb
    have hb' : b < K := List.mem_range.mp hb
    simp only [Function.comp_apply]
    rw [Nat.add_comm (n * K) b, Nat.add_mul_div_right _ _ hK, Nat.div_eq_of_lt hb',
      Nat.add_mul_mod_self_right, Nat.mod_eq_of_lt hb', Nat.zero_add]

theorem sampleAt_channels (s : SDL_Surface) (r c : Int) :
    sampleAt s r c =
      if insideImage s r c then
        ((SDL_GetRGBA (s.pixels.getD (r * s.w + c).toNat 0)).r,
          (SDL_GetRGBA (s.pixels.getD (r * s.w + c).toNat 0)).g,
          (SDL_GetRGBA (s.pixels.getD (r * s.w + c).toNat 0)).b)
      else (0, 0, 0) := by
  unfold sampleAt insideImage
  by_cases h : r < 0 ∨ r ≥ s.h ∨ c < 0 ∨ c ≥ s.w
  · have h' : ¬ (0 ≤ r ∧ r < s.h ∧ 0 ≤ c ∧ c < s.w) := by omega
    simp [h, h']
  · have h' : 0 ≤ r ∧ r < s.h ∧ 0 ≤ c ∧ c < s.w := by omega
    rw [if_neg h]
    simp only [h', and_self, decide_True, if_true]
    cases hg : s.pixels[(r * s.w + c).toNat]? with
    | none =>
      rw [List.getD_eq_getElem?_getD, hg]
      rfl
    | some p =>
      rw [List.getD_eq_getElem?_getD, hg]
      rfl

theorem map_windowOffsets {α : Type} (half : Nat) (f : Int → α) :
    (windowOffsets half).map f
      = (List.range (2 * half + 1)).map fun (j : Nat) => f ((j : Int) - (half : Int)) := by
  unfold windowOffsets
  rw [List.map_map]
  rfl

theorem windowSums_eq_spec (s : SDL_Surface) (k : Nat) (hodd : k % 2 = 1) (row col : Int) :
    windowSums s (k / 2) row col =
      (specWindowSum s k (fun c => c.r) row col, specWindowSum s k (fun c => c.g) row col,
        specWindowSum s k (fun c => c.b) row col) := by
  have hh : (k - 1) / 2 = k / 2 := by omega
  have hK : 0 < 2 * (k / 2) + 1 := by omega
  have key : ∀ (ch : Nat × Nat × Nat → Nat) (ch' : SDL_Color → Nat),
      (∀ c : SDL_Color, ch (c.r, c.g, c.b) = ch' c) → ch (0, 0, 0) = 0 →
      (((List.range ((2 * (k / 2) + 1) * (2 * (k / 2) + 1))).map
          (windowSample s (k / 2) row col)).map ch).sum
        = specWindowSum s k ch' row col := by
    intro ch ch' h1 h0
    rw [List.map_map]
    have := sum_range_mul (2 * (k / 2) + 1) hK
      (fun a b => ch (sampleAt s (row - ((k / 2 : Nat) : Int) + (a : Int))
        (col - ((k / 2 : Nat) : Int) + (b : Int)))) (2 * (k / 2) + 1)
    simp only [Function.comp_def, windowSample]
    rw [this]
    unfold specWindowSum
    rw [hh]
    simp only [map_windowOffsets]
    congr 1
    apply List.map_congr_left
    intro a _
    congr 1
    apply List.map_congr_left
    intro b _
    have e1 : row - ((k / 2 : Nat) : Int) + (a : Int) = row + ((a : Int) - ((k / 2 : Nat) : Int)) := by
      ring
    have e2 : col - ((k / 2 : Nat) : Int) + (b : Int) = col + ((b : Int) - ((k / 2 : Nat) : Int)) := by
      ring
    rw [e1, e2, sampleAt_channels]
    split
    · exact h1 _
    · exact h0
  unfold windowSums
  simp only
  rw [key (fun x => x.1) (fun c => c.r) (fun _ => rfl) rfl,
    key (fun x => x.2.1) (fun c => c.g) (fun _ => rfl) rfl,
    key (fun x => x.2.2) (fun c => c.b) (fun _ => rfl) rfl]

theorem blurWord_eq_spec (s : SDL_Surface) (k : Nat) (hodd : k % 2 = 1) (row col : Int) :
    blurWord s k row col =
      SDL_MapRGB
        (scaleChannel (averageOf (k * k)) (specWindowSum s k (fun c => c.r) row col % 2 ^ 32))
        (scaleChannel (averageOf (k * k)) (specWindowSum s k (fun c => c.g) row col % 2 ^ 32))
        (scaleChannel (averageOf (k * k)) (specWindowSum s k (fun c => c.b) row col % 2 ^ 32)) := by
  unfold blurWord
  rw [windowSums_eq_spec s k hodd row col]

theorem scaleChannel_lt (average : Float32) (sum : Nat) : scaleChannel average sum < 256 := by
  unfold scaleChannel Float32.toUint8
  exact Nat.mod_lt _ (by norm_num)

theorem blurredAt_eq_spec (env : Backend) (st : State) (s sf : SDL_Surface) (k : Nat)
    (h : BlurReady env st s sf) (hodd : k % 2 = 1) (hk : k * k < 2 ^ 31) (row col : Nat)
    (hr : row < s.h) (hc : col < s.w) :
    blurredAt (MyImage_blur env st .global .valid k) row col
      = some
        { r := scaleChannel (averageOf (k * k)) (specWindowSum s k (fun c => c.r) row col % 2 ^ 32)
          g := scaleChannel (averageOf (k * k)) (specWindowSum s k (fun c => c.g) row col % 2 ^ 32)
          b := scaleChannel (averageOf (k * k)) (specWindowSum s k (fun c => c.b) row col % 2 ^ 32)
          a := 255 } := by
  rw [blurredAt_eq env st s sf k h hodd hk row col hr hc, blurWord_eq_spec s k hodd,
    getRGBA_mapRGB _ _ _ (scaleChannel_lt _ _) (scaleChannel_lt _ _) (scaleChannel_lt _ _)]

/-! ## What a returning call has written, for any kernel size -/

theorem forLoop_returned {σ : Type} (body : Int → σ → Option σ) :
    ∀ (n : Nat) (P : Nat → σ → Prop) (i : Int) (s t : σ), P 0 s →
      (∀ j u u', j < n → P j u → body (i + j) u = some u' → P (j + 1) u') →
      forLoop body n i s = some t → P n t := by
  intro n
  induction n with
  | zero =>
    intro P i s t h0 _ ht
    simp only [forLoop, Option.some.injEq] at ht
    exact ht ▸ h0
  | succ n ih =>
    intro P i s t h0 hstep ht
    simp only [forLoop, Option.bind_eq_some] at ht
    obtain ⟨s1, hb, hrest⟩ := ht
    have h1 : P 1 s1 := hstep 0 s s1 (Nat.succ_pos n) h0 (by simpa using hb)
    refine ih (fun j => P (j + 1)) (i + 1) s1 t h1 ?_ hrest
    intro j u u' hj hu hbody
    have e : i + 1 + (j : Int) = i + ((j + 1 : Nat) : Int) := by omega
    rw [e] at hbody
    exact hstep (j + 1) u u' (Nat.succ_lt_succ hj) hu hbody

theorem forRange_returned {σ : Type} (body : Int → σ → Option σ) (n : Nat)
    (P : Nat → σ → Prop) (lo hi : Int) (s t : σ) (hn : hi - lo = n) (h0 : P 0 s)
    (hstep : ∀ j u u', j < n → P j u → body (lo + j) u = some u' → P (j + 1) u')
    (ht : forRange body lo hi s = some t) : P n t := by
  have e : (hi - lo).toNat = n := by omega
  unfold forRange at ht
  rw [e] at ht
  exact forLoop_returned body n P lo s t h0 hstep ht

theorem blurBody_returned (s : SDL_Surface) (fin half : Int) (average : Float32)
    (row col : Int) (st st' : List SDL_Color × List Nat)
    (h : blurBody s fin half average row col st = some st') :
    (row * s.w + col).toNat < st.2.length ∧
      ∃ r g b, st'.2 = st.2.set (row * s.w + col).toNat (SDL_MapRGB r g b) := by
  unfold blurBody at h
  simp only [Option.bind_eq_some] at h
  obtain ⟨gathered, _, sums, _, h3⟩ := h
  split at h3
  · rename_i hlt
    simp only [Option.some.injEq] at h3
    exact ⟨hlt, _, _, _, by rw [← h3]⟩
  · exact Option.noConfusion h3

theorem blurLoops_returned (s : SDL_Surface) (fin half : Int) (average : Float32)
    (st st' : List SDL_Color × List Nat) (ho : st.2.length = s.w * s.h)
    (h : blurLoops s fin half average st = some st') :
    st'.2.length = s.w * s.h ∧ ∀ q, q ∈ st'.2 → ∃ r g b, q = SDL_MapRGB r g b := by
  have main := forRange_returned
    (fun row => forRange (fun col => blurBody s fin half average row col) 0 s.w) s.h
    (fun row u => u.2.length = s.w * s.h ∧
      ∀ t, t < row * s.w → ∃ r g b, u.2[t]? = some (SDL_MapRGB r g b))
    0 s.h st st' (by omega) ⟨ho, fun t ht => by omega⟩ (by
      intro row u u' hrow hu hbody
      have hinner := forRange_returned
        (fun col => blurBody s fin half average ((0 : Int) + row) col) s.w
        (fun col v => v.2.length = s.w * s.h ∧
          ∀ t, t < row * s.w + col → ∃ r g b, v.2[t]? = some (SDL_MapRGB r g b))
        0 s.w u u' (by omega) (by simpa using hu) (by
          intro col v v' hcol ⟨hv1, hv2⟩ hb
          obtain ⟨hlt, r, g, b, hset⟩ := blurBody_returned s fin half average _ _ v v' hb
          have hidx : (((0 : Int) + (row : Int)) * (s.w : Int) + ((0 : Int) + (col : Int))).toNat
              = row * s.w + col := by
            have : (((0 : Int) + (row : Int)) * (s.w : Int) + ((0 : Int) + (col : Int)))
                = ((row * s.w + col : Nat) : Int) := by push_cast; ring
            rw [this, Int.toNat_ofNat]
          rw [hidx] at hset hlt
          refine ⟨by rw [hset]; simp [hv1], ?_⟩
          intro t ht
          rw [hset]
          by_cases e : row * s.w + col = t
          · subst e
            exact ⟨r, g, b, List.getElem?_set_self hlt⟩
          · rw [List.getElem?_set_ne e]
            exact hv2 t (by omega))
        hbody
      have e : (row + 1) * s.w = row * s.w + s.w := by ring
      rw [e]
      exact hinner)
    (by unfold blurLoops at h; exact h)
  obtain ⟨hl, hall⟩ := main
  refine ⟨hl, ?_⟩
  intro q hq
  obtain ⟨t, ht, hqt⟩ := List.getElem_of_mem hq
  have ht' : t < s.h * s.w := by rw [Nat.mul_comm, ← hl]; exact ht
  obtain ⟨r, g, b, hrgb⟩ := hall t ht'
  rw [List.getElem?_eq_getElem ht, Option.some.injEq, hqt] at hrgb
  exact ⟨r, g, b, hrgb⟩

theorem MyImage_blur_undefined_at_46341 :
    MyImage_blur ⟨true, true⟩ (loadedState (uniformImage 1 1 10 20 30 40)) .global .valid 46341
      = none := by
  decide!

/-! ## The pixel count of invert_image and the loop over a prefix -/

theorem getElem?_invertPrefix (pixels : List Nat) (n i : Nat) :
    (invertPrefix n pixels)[i]?
      = if i < n then (pixels[i]?).map invertWord else pixels[i]? := by
  unfold invertPrefix
  by_cases hi : i < pixels.length
  · rw [List.getElem?_map, List.getElem?_range hi]
    simp only [Option.map_some', List.getD_eq_getElem?_getD, List.getElem?_eq_getElem hi,
      Option.getD_some]
    split <;> simp
  · have hle : pixels.length ≤ i := by omega
    rw [List.getElem?_eq_none (by simpa using hle), List.getElem?_eq_none hle]
    simp

theorem invertPrefix_all (pixels : List Nat) : invertPrefix pixels.length pixels
    = pixels.map invertWord := by
  apply List.ext_getElem?
  intro i
  rw [getElem?_invertPrefix, List.getElem?_map]
  by_cases hi : i < pixels.length
  · simp [hi]
  · simp [hi, List.getElem?_eq_none (show pixels.length ≤ i by omega)]

theorem invertPrefix_zero (pixels : List Nat) : invertPrefix 0 pixels = pixels := by
  apply List.ext_getElem?
  intro i
  rw [getElem?_invertPrefix]
  simp

theorem invert_loop_prefix (pixels : List Nat) (n : Nat) (hn : n ≤ pixels.length) :
    forRange invertBody 0 (n : Int) pixels = some (invertPrefix n pixels) := by
  obtain ⟨t, ht, hlen, hP⟩ := forRange_invariant invertBody n
    (fun j px => px.length = pixels.length ∧
      ∀ t, px[t]? = if t < j then (pixels[t]?).map invertWord else pixels[t]?)
    0 n pixels (by omega) ⟨rfl, fun t => by simp⟩ (by
      intro j px hj ⟨hl, hpx⟩
      have hjl : j < pixels.length := by omega
      have e : ((0 : Int) + (j : Int)).toNat = j := by omega
      have hget : px[j]? = some pixels[j] := by
        rw [hpx j]; simp [hjl]
      refine ⟨px.set j (invertWord pixels[j]), ?_, ?_, ?_⟩
      · simp [invertBody, e, hget, invertWord]
      · simp [hl]
      · intro t
        rw [List.getElem?_set]
        by_cases htj : j = t
        · subst htj; simp [hl, hjl]
        · rw [if_neg htj, hpx t]
          by_cases h1 : t < j
          · have : t < j + 1 := by omega
            simp [h1, this]
          · have : ¬ t < j + 1 := by omega
            simp [h1, this])
  rw [ht]
  congr 1
  apply List.ext_getElem?
  intro i
  rw [hP i, getElem?_invertPrefix]

theorem invertPixelCount_small (s : SDL_Surface) (h : s.w * s.h < 2 ^ 31) :
    invertPixelCount s = ((s.w * s.h : Nat) : Int) := by
  have e31 : (2 : Nat) ^ 31 = 2147483648 := by norm_num
  have e64 : (2 : Int) ^ 64 = 18446744073709551616 := by norm_num
  rw [e31] at h
  have hm : s.w * s.h % 2 ^ 32 = s.w * s.h := Nat.mod_eq_of_lt (by
    rw [pow_two_32]
    omega)
  unfold invertPixelCount toInt32
  rw [hm, e31, if_pos h, e64]
  omega

theorem invert_image_prefix (ok : Bool) (st : State) (s : SDL_Surface)
    (hs : st.g_image.surface = some s) (c : Nat) (hc : invertPixelCount s = (c : Int))
    (hle : c ≤ s.pixels.length) :
    ∃ st', invert_image ok st .valid .global = some st' ∧
      st'.g_image.surface = some { s with pixels := invertPrefix c s.pixels } ∧
      st'.g_image.rect = st.g_image.rect ∧ st'.surfaceFilter = st.surfaceFilter ∧
      st'.g_image.texture =
        (if ok then
          some { id := st.nextTexture, w := s.w, h := s.h, pixels := invertPrefix c s.pixels }
        else none) ∧
      st'.liveTextures =
        (if ok then st.nextTexture :: (SDL_DestroyTexture st st.g_image.texture).liveTextures
        else (SDL_DestroyTexture st st.g_image.texture).liveTextures) := by
  have hloop := invert_loop_prefix s.pixels c hle
  unfold invert_image
  simp only [hs, hc, hloop, Option.map_some']
  refine ⟨_, rfl, ?_, ?_, ?_, ?_, ?_⟩ <;>
    cases ok <;> cases ht : st.g_image.texture <;>
      simp [SDL_CreateTextureFromSurface, SDL_DestroyTexture, ht]

theorem invert_image_eq (ok : Bool) (st : State) (s : SDL_Surface)
    (hs : st.g_image.surface = some s) (hlen : s.pixels.length = s.w * s.h)
    (hb : s.w * s.h < 2 ^ 31) :
    ∃ st', invert_image ok st .valid .global = some st' ∧
      st'.g_image.surface = some { s with pixels := s.pixels.map invertWord } ∧
      st'.g_image.rect = st.g_image.rect ∧ st'.surfaceFilter = st.surfaceFilter := by
  obtain ⟨st', h1, h2, h3, h4, _⟩ := invert_image_prefix ok st s hs (s.w * s.h)
    (invertPixelCount_small s hb) (by omega)
  rw [← hlen, invertPrefix_all] at h2
  exact ⟨st', h1, h2, h3, h4⟩

theorem invert_image_zero (ok : Bool) (st : State) (s : SDL_Surface)
    (hs : st.g_image.surface = some s) (hz : s.w = 0 ∨ s.h = 0) :
    ∃ st', invert_image ok st .valid .global = some st' ∧ st'.g_image.surface = some s ∧
      st'.surfaceFilter = st.surfaceFilter ∧
      st'.g_image.texture =
        (if ok then some { id := st.nextTexture, w := s.w, h := s.h, pixels := s.pixels }
          else none) := by
  have hwh : s.w * s.h = 0 := by
    rcases hz with hz | hz <;> simp [hz]
  have hc : invertPixelCount s = ((0 : Nat) : Int) := by
    rw [invertPixelCount_small s (by rw [hwh]; norm_num), hwh]
  obtain ⟨st', h1, h2, _, h4, h5, _⟩ := invert_image_prefix ok st s hs 0 hc (Nat.zero_le _)
  rw [invertPrefix_zero] at h2 h5
  exact ⟨st', h1, h2, h4, h5⟩

theorem invert_image_skipped (ok : Bool) (st : State) (s : SDL_Surface)
    (hs : st.g_image.surface = some s) (hc : invertPixelCount s = 0) :
    ∃ st', invert_image ok st .valid .global = some st' ∧ st'.g_image.surface = some s := by
  obtain ⟨st', h1, h2, _⟩ := invert_image_prefix ok st s hs 0 hc (Nat.zero_le _)
  rw [invertPrefix_zero] at h2
  exact ⟨st', h1, h2⟩

theorem uniformImage_wellFormed (w h r g b a : Nat) (hw : 1 ≤ w) (hh : 1 ≤ h) :
    (uniformImage w h r g b a).WellFormed := by
  refine ⟨hw, hh, by simp [uniformImage], ?_⟩
  intro p hp
  simp only [uniformImage] at hp
  rw [List.eq_of_mem_replicate hp]
  unfold SDL_MapRGBA
  have h1 := Nat.mod_lt r (show 0 < 256 by norm_num)
  have h2 := Nat.mod_lt g (show 0 < 256 by norm_num)
  have h3 := Nat.mod_lt b (show 0 < 256 by norm_num)
  have h4 := Nat.mod_lt a (show 0 < 256 by norm_num)
  simp only [pow_two_8, pow_two_16, pow_two_24, pow_two_32]
  omega

theorem getD_uniformImage (w h r g b a i : Nat) (hi : i < w * h) :
    (uniformImage w h r g b a).pixels.getD i 0 = SDL_MapRGBA r g b a := by
  rw [List.getD_eq_getElem?_getD]
  have hlen : i < (uniformImage w h r g b a).pixels.length := by
    simp only [uniformImage, List.length_replicate]
    exact hi
  rw [List.getElem?_eq_getElem hlen]
  simp [uniformImage]

/-! ## Claims C1 to C10 -/

/-- Claim C1, at an input where the code departs from it.  On the 1 x 1 image whose
pixel is (121, 121, 121, 255) and for kernel size 11 the sum of every channel over
the window is `S = 121`, so the claim gives `floor (121 / 11 ^ 2) = 1` per channel;
`MyImage_blur` returns true and stores (0, 0, 0, 255), because in single precision
`121 * (1.0f / 121)` is below 1. -/
theorem C1_blur_departs_from_floor_of_mean :
    blurredAt (MyImage_blur ⟨true, true⟩ (loadedState (uniformImage 1 1 121 121 121 255))
        .global .valid 11) 0 0 = some ⟨0, 0, 0, 255⟩ ∧
      specWindowSum (uniformImage 1 1 121 121 121 255) 11 (fun c => c.r) 0 0 / (11 * 11) = 1 ∧
      specWindowSum (uniformImage 1 1 121 121 121 255) 11 (fun c => c.g) 0 0 / (11 * 11) = 1 ∧
      specWindowSum (uniformImage 1 1 121 121 121 255) 11 (fun c => c.b) 0 0 / (11 * 11) = 1 := by
  decide!

/-- Claim C2 fails on the code for images of `2 ^ 31` pixels or more, where the product
`w * h` of two `int` overflows.  On the well-formed 65536 x 65536 image whose pixels
all are (10, 20, 30, 40) the product is computed as 0, the loop does not run, and
`invert_image` returns with the surface as it was: pixel 0 still is (10, 20, 30, 40),
not (245, 235, 225, 40).  For every well-formed image of fewer than `2 ^ 31` pixels
`invert_image` returns, keeps the width, the height and the number of pixels, and
replaces each pixel (r, g, b, a) by (255 - r, 255 - g, 255 - b, a). -/
theorem C2_invert_image_pixel_count_overflows :
    (uniformImage 65536 65536 10 20 30 40).WellFormed ∧
      invertPixelCount (uniformImage 65536 65536 10 20 30 40) = 0 ∧
      (∃ st', invert_image true (loadedState (uniformImage 65536 65536 10 20 30 40)) .valid
          .global = some st' ∧
        st'.g_image.surface = some (uniformImage 65536 65536 10 20 30 40)) ∧
      SDL_GetRGBA ((uniformImage 65536 65536 10 20 30 40).pixels.getD 0 0) = ⟨10, 20, 30, 40⟩ ∧
      ∀ (ok : Bool) (st : State) (s : SDL_Surface), st.g_image.surface = some s →
        s.WellFormed → s.w * s.h < 2 ^ 31 →
        ∃ st' s', invert_image ok st .valid .global = some st' ∧
          st'.g_image.surface = some s' ∧
          s'.w = s.w ∧ s'.h = s.h ∧ s'.pixels.length = s.pixels.length ∧
          ∀ i, i < s.pixels.length →
            (s'.pixels[i]?).map SDL_GetRGBA = (s.pixels[i]?).map fun p =>
              { r := 255 - (SDL_GetRGBA p).r, g := 255 - (SDL_GetRGBA p).g,
                b := 255 - (SDL_GetRGBA p).b, a := (SDL_GetRGBA p).a } := by
  have hc : invertPixelCount (uniformImage 65536 65536 10 20 30 40) = 0 := by decide
  refine ⟨uniformImage_wellFormed 65536 65536 10 20 30 40 (by norm_num) (by norm_num), hc,
    ?_, ?_, ?_⟩
  · obtain ⟨st', h1, h2⟩ := invert_image_skipped true
      (loadedState (uniformImage 65536 65536 10 20 30 40)) _ rfl hc
    exact ⟨st', h1, h2⟩
  · rw [getD_uniformImage 65536 65536 10 20 30 40 0 (by norm_num)]
    decide
  · intro ok st s hs hwf hb
    obtain ⟨st', h1, h2, _, _⟩ := invert_image_eq ok st s hs hwf.2.2.1 hb
    refine ⟨st', _, h1, h2, rfl, rfl, by simp, ?_⟩
    intro i _
    simp only [List.getElem?_map, Option.map_map]
    congr 1
    funext p
    exact getRGBA_invertWord p

/-- Witness of C2 on the 2 x 2 image whose pixels are (10, 20, 30, 40). -/
theorem C2_invert_image_pixel_count_overflows_witness :
    (loadedState (uniformImage 2 2 10 20 30 40)).g_image.surface
        = some (uniformImage 2 2 10 20 30 40) ∧
      (uniformImage 2 2 10 20 30 40).WellFormed ∧
      ∃ st' s', invert_image true (loadedState (uniformImage 2 2 10 20 30 40)) .valid .global
          = some st' ∧ st'.g_image.surface = some s' ∧
        s'.w = (uniformImage 2 2 10 20 30 40).w ∧ s'.h = (uniformImage 2 2 10 20 30 40).h ∧
        s'.pixels.length = (uniformImage 2 2 10 20 30 40).pixels.length ∧
        ∀ i, i < (uniformImage 2 2 10 20 30 40).pixels.length →
          (s'.pixels[i]?).map SDL_GetRGBA =
            ((uniformImage 2 2 10 20 30 40).pixels[i]?).map fun p =>
              { r := 255 - (SDL_GetRGBA p).r, g := 255 - (SDL_GetRGBA p).g,
                b := 255 - (SDL_GetRGBA p).b, a := (SDL_GetRGBA p).a } :=
  ⟨rfl, by decide,
    C2_invert_image_pixel_count_overflows.2.2.2.2 true _ _ rfl (by decide) (by decide)⟩

/-- Claim C4, at an input where the code departs from it.  In the 11 x 11 image whose
pixels all are (200, 100, 50, 255) the pixel (5, 5) is interior for kernel size 11
(`half = 5`), so the claim gives (200, 100, 50); `MyImage_blur` stores
(199, 99, 49, 255) there. -/
theorem C4_uniform_interior_pixel_darkened :
    (11 - 1) / 2 ≤ 5 ∧ 5 < 11 - (11 - 1) / 2 ∧
      blurredAt (MyImage_blur ⟨true, true⟩ (loadedState (uniformImage 11 11 200 100 50 255))
        .global .valid 11) 5 5 = some ⟨199, 99, 49, 255⟩ := by
  refine ⟨by decide, by decide, ?_⟩
  rw [blurredAt_eq ⟨true, true⟩ _ (uniformImage 11 11 200 100 50 255)
    ⟨11, 11, List.replicate (11 * 11) 0⟩ 11 (by decide!) (by decide) (by decide) 5 5
    (by decide) (by decide)]
  decide!

/-- Claim C5.  End-to-end scenario: for the 4 x 4 image whose pixels all are
(200, 100, 50, 255), `MyImage_blur` with kernel size 3 returns true and the scratch
surface holds (200, 100, 50, 255) at the four interior pixels (rows and columns 1
and 2) and (88, 44, 22, 255) at the corner (0, 0). -/
theorem C5_end_to_end_4x4 (env : Backend) (st : State) (sf : SDL_Surface)
    (h : BlurReady env st (uniformImage 4 4 200 100 50 255) sf) :
    (∃ st', MyImage_blur env st .global .valid 3 = some (true, st')) ∧
      blurredAt (MyImage_blur env st .global .valid 3) 1 1 = some ⟨200, 100, 50, 255⟩ ∧
      blurredAt (MyImage_blur env st .global .valid 3) 1 2 = some ⟨200, 100, 50, 255⟩ ∧
      blurredAt (MyImage_blur env st .global .valid 3) 2 1 = some ⟨200, 100, 50, 255⟩ ∧
      blurredAt (MyImage_blur env st .global .valid 3) 2 2 = some ⟨200, 100, 50, 255⟩ ∧
      blurredAt (MyImage_blur env st .global .valid 3) 0 0 = some ⟨88, 44, 22, 255⟩ := by
  refine ⟨⟨_, MyImage_blur_eq env st _ sf 3 h.1 h.2.1.2.2.1 h.2.2.1 h.2.2.2.2.2 (by decide)
    (by decide)⟩, ?_, ?_, ?_, ?_, ?_⟩
  · rw [blurredAt_eq env st _ sf 3 h (by decide) (by decide) 1 1 (by decide) (by decide)]
    decide!
  · rw [blurredAt_eq env st _ sf 3 h (by decide) (by decide) 1 2 (by decide) (by decide)]
    decide!
  · rw [blurredAt_eq env st _ sf 3 h (by decide) (by decide) 2 1 (by decide) (by decide)]
    decide!
  · rw [blurredAt_eq env st _ sf 3 h (by decide) (by decide) 2 2 (by decide) (by decide)]
    decide!
  · rw [blurredAt_eq env st _ sf 3 h (by decide) (by decide) 0 0 (by decide) (by decide)]
    decide!

/-- Witness of C5 in the state in which `main` enters `loop`. -/
theorem C5_end_to_end_4x4_witness :
    BlurReady ⟨true, true⟩ (loadedState (uniformImage 4 4 200 100 50 255))
        (uniformImage 4 4 200 100 50 255) ⟨4, 4, List.replicate (4 * 4) 0⟩ ∧
      ((∃ st', MyImage_blur ⟨true, true⟩ (loadedState (uniformImage 4 4 200 100 50 255))
          .global .valid 3 = some (true, st')) ∧
        blurredAt (MyImage_blur ⟨true, true⟩ (loadedState (uniformImage 4 4 200 100 50 255))
          .global .valid 3) 1 1 = some ⟨200, 100, 50, 255⟩ ∧
        blurredAt (MyImage_blur ⟨true, true⟩ (loadedState (uniformImage 4 4 200 100 50 255))
          .global .valid 3) 1 2 = some ⟨200, 100, 50, 255⟩ ∧
        blurredAt (MyImage_blur ⟨true, true⟩ (loadedState (uniformImage 4 4 200 100 50 255))
          .global .valid 3) 2 1 = some ⟨200, 100, 50, 255⟩ ∧
        blurredAt (MyImage_blur ⟨true, true⟩ (loadedState (uniformImage 4 4 200 100 50 255))
          .global .valid 3) 2 2 = some ⟨200, 100, 50, 255⟩ ∧
        blurredAt (MyImage_blur ⟨true, true⟩ (loadedState (uniformImage 4 4 200 100 50 255))
          .global .valid 3) 0 0 = some ⟨88, 44, 22, 255⟩) :=
  ⟨by decide, C5_end_to_end_4x4 _ _ ⟨4, 4, List.replicate (4 * 4) 0⟩ (by decide)⟩

/-- Claim C7, at an input where the code departs from it.  In the 2 x 2 image whose
channels all are 121 the 11 x 11 window of the pixel (0, 0) has `n = 4` positions
inside the image, so the claim gives `floor (121 * 4 / 11 ^ 2) = 4` per channel;
`MyImage_blur` stores (3, 3, 3, 255). -/
theorem C7_uniform_image_not_proportional :
    blurredAt (MyImage_blur ⟨true, true⟩ (loadedState (uniformImage 2 2 121 121 121 255))
        .global .valid 11) 0 0 = some ⟨3, 3, 3, 255⟩ ∧
      specWindowCount (uniformImage 2 2 121 121 121 255) 11 0 0 = 4 ∧
      121 * specWindowCount (uniformImage 2 2 121 121 121 255) 11 0 0 / (11 * 11) = 4 := by
  decide!

/-- Claim C9 as stated fails: on a well-formed 2 x 2 image with its scratch surface
the calls with kernel size 0, 2 and `2 ^ 32 - 3` (the value of -3 as `Uint32`) do not
return false.  No line of `MyImage_blur` tests `filter_size`; the array `filter` has
`filter_size * filter_size` entries (0, 4 and 9) and the window loop stores
`(2 * (filter_size / 2) + 1) ^ 2` samples in it, so each call runs outside the
bounds of `filter`. -/
theorem C9_counterexample_no_kernel_validation :
    BlurReady ⟨true, true⟩ (loadedState (uniformImage 2 2 10 20 30 40))
        (uniformImage 2 2 10 20 30 40) ⟨2, 2, List.replicate (2 * 2) 0⟩ ∧
      MyImage_blur ⟨true, true⟩ (loadedState (uniformImage 2 2 10 20 30 40)) .global .valid 0
        ≠ some (false, loadedState (uniformImage 2 2 10 20 30 40)) ∧
      MyImage_blur ⟨true, true⟩ (loadedState (uniformImage 2 2 10 20 30 40)) .global .valid 2
        ≠ some (false, loadedState (uniformImage 2 2 10 20 30 40)) ∧
      MyImage_blur ⟨true, true⟩ (loadedState (uniformImage 2 2 10 20 30 40)) .global .valid
        (2 ^ 32 - 3) ≠ some (false, loadedState (uniformImage 2 2 10 20 30 40)) := by
  decide!

/-- Claim C9, amended.  `MyImage_blur` does not validate the kernel size: when the
image has a surface, the renderer is not null and the scratch surface exists or can be
created, no kernel size (0, even and negative ones included) makes it return false;
and whenever it does return false, for any arguments, the whole state, with the
pixels of the image and the scratch surface, is as it was before the call. -/
theorem C9_blur_never_rejects_a_kernel (env : Backend) (st : State) (s sf : SDL_Surface)
    (k : Nat) (hs : st.g_image.surface = some s) (hsf : scratchFor env st s = some sf) :
    (∀ st', MyImage_blur env st .global .valid k ≠ some (false, st')) ∧
      ∀ image renderer st', MyImage_blur env st image renderer k = some (false, st') →
        st' = st := by
  constructor
  · intro st' hcontra
    unfold scratchFor at hsf
    unfold MyImage_blur at hcontra
    simp only [hs, hsf] at hcontra
    split at hcontra
    · exact Option.noConfusion hcontra
    · simp at hcontra
  · intro image renderer st' hret
    unfold MyImage_blur at hret
    cases image with
    | null => simp at hret; exact hret.symm
    | global =>
      cases hsurf : st.g_image.surface with
      | none => simp [hsurf] at hret; exact hret.symm
      | some surface =>
        cases renderer with
        | null => simp [hsurf] at hret; exact hret.symm
        | valid =>
          simp only [hsurf] at hret
          split at hret
          · simp at hret; exact hret.symm
          · split at hret
            · exact Option.noConfusion hret
            · simp at hret

/-- Witness of the amended C9 with kernel size 2. -/
theorem C9_blur_never_rejects_a_kernel_witness :
    (loadedState (uniformImage 2 2 10 20 30 40)).g_image.surface
        = some (uniformImage 2 2 10 20 30 40) ∧
      scratchFor ⟨true, true⟩ (loadedState (uniformImage 2 2 10 20 30 40))
        (uniformImage 2 2 10 20 30 40) = some ⟨2, 2, List.replicate (2 * 2) 0⟩ ∧
      ((∀ st', MyImage_blur ⟨true, true⟩ (loadedState (uniformImage 2 2 10 20 30 40))
          .global .valid 2 ≠ some (false, st')) ∧
        ∀ image renderer st',
          MyImage_blur ⟨true, true⟩ (loadedState (uniformImage 2 2 10 20 30 40)) image renderer 2
            = some (false, st') → st' = loadedState (uniformImage 2 2 10 20 30 40)) :=
  ⟨rfl, rfl, C9_blur_never_rejects_a_kernel _ _ _ _ 2 rfl rfl⟩

/-- Claim C10.  Null image: when the image pointer is null or the image has no
surface, `MyImage_blur` returns false and `invert_image` returns, and in both cases
the state, with every pixel buffer, the scratch surface, the texture and the
rectangle, is unchanged. -/
theorem C10_null_image_is_skipped (env : Backend) (ok : Bool) (st : State)
    (image : MyImagePtr) (renderer : RendererPtr) (k : Nat)
    (h : image = .null ∨ st.g_image.surface = none) :
    MyImage_blur env st image renderer k = some (false, st) ∧
      invert_image ok st renderer image = some st := by
  rcases h with h | h
  · subst h
    constructor
    · rfl
    · cases renderer <;> rfl
  · constructor
    · cases image <;> simp [MyImage_blur, h]
    · cases image <;> cases renderer <;> simp [invert_image, h]

/-- Witness of C10 for an image without surface and a valid renderer. -/
theorem C10_null_image_is_skipped_witness :
    (MyImagePtr.global = .null ∨
        ({ loadedState (uniformImage 2 2 10 20 30 40) with
            g_image := { surface := none, texture := none, rect := ⟨0, 0, 0, 0⟩ } } : State
          ).g_image.surface = none) ∧
      (MyImage_blur ⟨true, true⟩
          { loadedState (uniformImage 2 2 10 20 30 40) with
            g_image := { surface := none, texture := none, rect := ⟨0, 0, 0, 0⟩ } }
          .global .valid 3
        = some (false, { loadedState (uniformImage 2 2 10 20 30 40) with
            g_image := { surface := none, texture := none, rect := ⟨0, 0, 0, 0⟩ } }) ∧
        invert_image true
          { loadedState (uniformImage 2 2 10 20 30 40) with
            g_image := { surface := none, texture := none, rect := ⟨0, 0, 0, 0⟩ } }
          .valid .global
        = some { loadedState (uniformImage 2 2 10 20 30 40) with
            g_image := { surface := none, texture := none, rect := ⟨0, 0, 0, 0⟩ } }) :=
  ⟨Or.inr rfl, C10_null_image_is_skipped _ _ _ _ _ _ (Or.inr rfl)⟩

/-! ## Every returning call of MyImage_blur, whatever the kernel size -/

theorem MyImage_blur_cases (env : Backend) (st : State) (s : SDL_Surface) (k : Nat)
    (ret : Bool) (st' : State) (hs : st.g_image.surface = some s)
    (h : MyImage_blur env st .global .valid k = some (ret, st')) :
    (ret = false ∧ st' = st ∧ scratchFor env st s = none) ∨
      (ret = true ∧ ∃ sf f' out, scratchFor env st s = some sf ∧
        blurLoops s (toInt32 (k * k % 2 ^ 32)) ((k / 2 : Nat) : Int)
          (averageOf (toInt32 (k * k % 2 ^ 32)).toNat)
          (List.replicate (toInt32 (k * k % 2 ^ 32)).toNat ⟨0, 0, 0, 0⟩, sf.pixels)
            = some (f', out) ∧
        st' = blurDone env st sf out) := by
  rcases hsf : scratchFor env st s with _ | sf
  · left
    unfold scratchFor at hsf
    unfold MyImage_blur at h
    simp only [hs, hsf, Option.some.injEq, Prod.mk.injEq] at h
    exact ⟨h.1.symm, h.2.symm, rfl⟩
  · right
    unfold scratchFor at hsf
    unfold MyImage_blur at h
    simp only [hs, hsf] at h
    split at h
    · exact Option.noConfusion h
    · simp only [Option.map_eq_some', Prod.mk.injEq] at h
      obtain ⟨done, hdone, hret, hst'⟩ := h
      exact ⟨hret.symm, sf, done.1, done.2, rfl, hdone, by rw [← hst']; rfl⟩

theorem update_texture_valid (ok : Bool) (st : State) (s : SDL_Surface) :
    MyImage_update_texture_with_surface ok st .global .valid (some s) =
      if ok then
        (true,
          { st with
            g_image :=
              { surface := st.g_image.surface
                texture := some { id := st.nextTexture, w := s.w, h := s.h, pixels := s.pixels }
                rect := { st.g_image.rect with w := s.w, h := s.h } }
            liveTextures :=
              st.nextTexture :: (SDL_DestroyTexture st st.g_image.texture).liveTextures
            nextTexture := st.nextTexture + 1 })
      else
        (false,
          { st with
            g_image := { st.g_image with texture := none }
            liveTextures := (SDL_DestroyTexture st st.g_image.texture).liveTextures }) := by
  cases ok <;> cases h : st.g_image.texture <;>
    simp [MyImage_update_texture_with_surface, SDL_CreateTextureFromSurface,
      SDL_DestroyTexture, h]

theorem destroyTexture_owned (st : State) (h : TexturesOwned st) :
    (SDL_DestroyTexture st st.g_image.texture).liveTextures = [] := by
  obtain ⟨_, hl⟩ := h
  cases ht : st.g_image.texture with
  | none => simp [SDL_DestroyTexture, hl, ht]
  | some t => simp [SDL_DestroyTexture, hl, ht]

theorem update_texture_owned (ok : Bool) (st : State) (image : MyImagePtr)
    (renderer : RendererPtr) (surface : Option SDL_Surface) (h : TexturesOwned st) :
    TexturesOwned (MyImage_update_texture_with_surface ok st image renderer surface).2 := by
  cases image with
  | null => exact h
  | global =>
    cases renderer with
    | null => exact h
    | valid =>
      cases surface with
      | none => exact h
      | some s =>
        rw [update_texture_valid, destroyTexture_owned st h]
        cases ok
        · simp [TexturesOwned]
        · simp [TexturesOwned]

theorem render_owned (st : State) (h : TexturesOwned st) : TexturesOwned (render st) := h

theorem destroy_owned (st : State) (image : MyImagePtr) (h : TexturesOwned st) :
    TexturesOwned (MyImage_destroy st image) := by
  cases image with
  | null => exact h
  | global =>
    have hd := destroyTexture_owned st h
    have hn : (SDL_DestroyTexture st st.g_image.texture).nextTexture = st.nextTexture := by
      cases st.g_image.texture <;> rfl
    simp only [MyImage_destroy, TexturesOwned, hd, Option.map_none', Option.toList]
    exact ⟨fun i hi => by simp at hi, trivial⟩

theorem load_owned (b : LoadBackend) (st : State) (filename : Option String)
    (renderer : RendererPtr) (image : MyImagePtr) (h : TexturesOwned st) :
    TexturesOwned (load_rgba32 b st filename renderer image).2 := by
  cases filename with
  | none => exact h
  | some name =>
    cases renderer with
    | null => exact h
    | valid =>
      cases image with
      | null => exact h
      | global =>
        have hd := destroy_owned st .global h
        unfold load_rgba32
        simp only
        split
        · exact hd
        · split
          · rename_i hnone
            exact ⟨hd.1, by simpa using hd.2⟩
          · rename_i s hsome
            have hst2 : TexturesOwned
                { MyImage_destroy st .global with
                  g_image := { (MyImage_destroy st .global).g_image with
                    surface := b.converted } } := ⟨hd.1, hd.2⟩
            have := update_texture_owned b.textureOk _ .global .valid (some s) hst2
            split <;> exact this

theorem blurDone_owned (env : Backend) (st : State) (sf : SDL_Surface) (out : List Nat)
    (h : TexturesOwned st) : TexturesOwned (blurDone env st sf out) := by
  have h1 : TexturesOwned
      { st with surfaceFilter := some { sf with pixels := out }, waitCursor := true } := h
  have h2 := update_texture_owned env.textureOk _ .global .valid
    (some { sf with pixels := out }) h1
  exact h2

theorem MyImage_blur_owned (env : Backend) (st st' : State) (image : MyImagePtr)
    (renderer : RendererPtr) (k : Nat) (ret : Bool) (h : TexturesOwned st)
    (hb : MyImage_blur env st image renderer k = some (ret, st')) : TexturesOwned st' := by
  cases image with
  | null =>
    simp only [MyImage_blur, Option.some.injEq, Prod.mk.injEq] at hb
    exact hb.2 ▸ h
  | global =>
    cases hs : st.g_image.surface with
    | none =>
      simp only [MyImage_blur, hs, Option.some.injEq, Prod.mk.injEq] at hb
      exact hb.2 ▸ h
    | some s =>
      cases renderer with
      | null =>
        simp only [MyImage_blur, hs, Option.some.injEq, Prod.mk.injEq] at hb
        exact hb.2 ▸ h
      | valid =>
        rcases MyImage_blur_cases env st s k ret st' hs hb with ⟨_, h2, _⟩ | ⟨_, sf, f', out, _, _, h2⟩
        · exact h2 ▸ h
        · rw [h2]
          exact blurDone_owned env st sf out h

theorem reset_owned (ok : Bool) (st st' : State) (h : TexturesOwned st)
    (hr : reset_image ok st = some st') : TexturesOwned st' := by
  simp only [reset_image, MyImage_restore_texture, Option.map_some', Option.some.injEq] at hr
  rw [← hr]
  exact render_owned _ (update_texture_owned ok st .global .valid _ h)

theorem reachable_owned (st : State) (h : Reachable st) : TexturesOwned st := by
  induction h with
  | init => exact ⟨fun i hi => by simp [initialState] at hi, rfl⟩
  | load b st filename renderer image _ ih => exact load_owned b st filename renderer image ih
  | scratch ok st s _ _ ih => exact ih
  | draw st _ ih => exact render_owned st ih
  | blur env st st' image renderer k ret _ hb ih =>
    exact MyImage_blur_owned env st st' image renderer k ret ih hb
  | reset ok st st' _ hr ih => exact reset_owned ok st st' ih hr

/-! ## Sessions of `loop` on one image -/

theorem blurDone_texture (env : Backend) (st : State) (sf : SDL_Surface) (out : List Nat) :
    (blurDone env st sf out).g_image.texture =
      if env.textureOk then
        some { id := st.nextTexture, w := sf.w, h := sf.h, pixels := out }
      else none := by
  unfold blurDone render
  simp only [update_texture_valid]
  cases env.textureOk <;> simp

theorem scratchFor_length (env : Backend) (st : State) (s sf : SDL_Surface)
    (h : SessionOn s st) (hsf : scratchFor env st s = some sf) :
    sf.w = s.w ∧ sf.h = s.h ∧ sf.pixels.length = s.w * s.h := by
  unfold scratchFor at hsf
  cases hc : st.surfaceFilter with
  | some x =>
    simp only [hc, Option.some.injEq] at hsf
    exact hsf ▸ h.2 x hc
  | none =>
    simp only [hc, SDL_CreateSurface] at hsf
    split at hsf
    · simp only [Option.some.injEq] at hsf
      rw [← hsf]
      simp
    · exact Option.noConfusion hsf

theorem MyImage_blur_session (env : Backend) (st st' : State) (s : SDL_Surface) (k : Nat)
    (ret : Bool) (h : SessionOn s st)
    (hb : MyImage_blur env st .global .valid k = some (ret, st')) : SessionOn s st' := by
  rcases MyImage_blur_cases env st s k ret st' h.1 hb with ⟨_, h2, _⟩ | ⟨_, sf, f', out, hsf, hl, h2⟩
  · exact h2 ▸ h
  · obtain ⟨hw, hh, hlen⟩ := scratchFor_length env st s sf h hsf
    have hout := (blurLoops_returned s _ _ _ _ (f', out) hlen hl).1
    rw [h2]
    refine ⟨by rw [blurDone_surface]; exact h.1, ?_⟩
    intro x hx
    rw [blurDone_surfaceFilter, Option.some.injEq] at hx
    rw [← hx]
    exact ⟨hw, hh, hout⟩

theorem reset_image_eq (ok : Bool) (st : State) :
    reset_image ok st =
      some (render (MyImage_update_texture_with_surface ok st .global .valid
        st.g_image.surface).2) := rfl

theorem reset_session (ok : Bool) (st st' : State) (s : SDL_Surface) (h : SessionOn s st)
    (hr : reset_image ok st = some st') : SessionOn s st' := by
  rw [reset_image_eq, Option.some.injEq] at hr
  rw [← hr]
  refine ⟨?_, ?_⟩
  · simp only [render, update_texture_surface]
    exact h.1
  · intro x hx
    simp only [render, update_texture_surfaceFilter] at hx
    exact h.2 x hx

theorem run_session (env : Backend) (st st' : State) (s : SDL_Surface) (request : Request)
    (h : SessionOn s st) (hr : request.run env st = some st') : SessionOn s st' := by
  cases request with
  | blur k =>
    simp only [Request.run, Option.map_eq_some'] at hr
    obtain ⟨r, hr1, hr2⟩ := hr
    exact hr2 ▸ MyImage_blur_session env st r.2 s k r.1 h hr1
  | reset => exact reset_session env.textureOk st st' s h hr

theorem runRequests_session (s : SDL_Surface) :
    ∀ (requests : List (Backend × Request)) (st st' : State), SessionOn s st →
      runRequests st requests = some st' → SessionOn s st' := by
  intro requests
  induction requests with
  | nil =>
    intro st st' h hr
    simp only [runRequests, Option.some.injEq] at hr
    exact hr ▸ h
  | cons x rest ih =>
    intro st st' h hr
    obtain ⟨env, request⟩ := x
    simp only [runRequests, Option.bind_eq_some] at hr
    obtain ⟨st1, h1, h2⟩ := hr
    exact ih st1 st' (run_session env st st1 s request h h1) h2

theorem forRange_empty {σ : Type} (body : Int → σ → Option σ) (lo : Int) (s : σ) :
    forRange body lo lo s = some s := by
  simp [forRange, forLoop]

theorem blurLoops_zero (s : SDL_Surface) (fin half : Int) (average : Float32)
    (st : List SDL_Color × List Nat) (hz : s.w = 0 ∨ s.h = 0) :
    blurLoops s fin half average st = some st := by
  unfold blurLoops
  rcases hz with hz | hz
  · rw [hz]
    obtain ⟨t, ht, hP⟩ := forRange_invariant
      (fun row => forRange (fun col => blurBody s fin half average row col) 0 ((0 : Nat) : Int))
      s.h (fun _ u => u = st) 0 s.h st (by omega) rfl (by
        intro j u _ hu
        exact ⟨u, forRange_empty _ _ _, hu⟩)
    rw [ht, hP]
  · rw [hz]
    exact forRange_empty _ _ _

theorem MyImage_blur_no_scratch (env : Backend) (st : State) (s : SDL_Surface) (k : Nat)
    (hs : st.g_image.surface = some s) (hsf : scratchFor env st s = none) :
    MyImage_blur env st .global .valid k = some (false, st) := by
  unfold scratchFor at hsf
  unfold MyImage_blur
  simp only [hs, hsf]

theorem run_returns (env : Backend) (st : State) (s : SDL_Surface) (request : Request)
    (h : SessionOn s st) (hlen : s.pixels.length = s.w * s.h)
    (hk : ∀ k, request = .blur k → k % 2 = 1 ∧ k * k < 2 ^ 31) :
    ∃ st', request.run env st = some st' := by
  cases request with
  | blur k =>
    obtain ⟨hodd, hfit⟩ := hk k rfl
    rcases hsf : scratchFor env st s with _ | sf
    · exact ⟨st, by simp [Request.run, MyImage_blur_no_scratch env st s k h.1 hsf]⟩
    · have hl := (scratchFor_length env st s sf h hsf).2.2
      exact ⟨blurDone env st sf (blurPixels s k), by
        simp [Request.run, MyImage_blur_eq env st s sf k h.1 hlen hsf hl hodd hfit]⟩
  | reset => exact ⟨_, reset_image_eq env.textureOk st⟩

theorem runRequests_returns (s : SDL_Surface) (hlen : s.pixels.length = s.w * s.h) :
    ∀ (requests : List (Backend × Request)) (st : State), SessionOn s st →
      ValidSizes requests → ∃ st', runRequests st requests = some st' := by
  intro requests
  induction requests with
  | nil => intro st _ _; exact ⟨st, rfl⟩
  | cons x rest ih =>
    intro st h hv
    obtain ⟨env, request⟩ := x
    obtain ⟨st1, h1⟩ := run_returns env st s request h hlen (by
      intro k hk
      exact hv env k (by rw [hk]; exact List.mem_cons_self _ _))
    obtain ⟨st2, h2⟩ := ih st1 (run_session env st st1 s request h h1) (by
      intro env' k hk
      exact hv env' k (List.mem_cons_of_mem _ hk))
    exact ⟨st2, by simp only [runRequests, h1, Option.some_bind, h2]⟩

theorem MyImage_blur_zero (env : Backend) (st : State) (s sf : SDL_Surface) (k : Nat)
    (hs : st.g_image.surface = some s) (hz : s.w = 0 ∨ s.h = 0)
    (hsf : scratchFor env st s = some sf) (hodd : k % 2 = 1) (hk : k * k < 2 ^ 31) :
    MyImage_blur env st .global .valid k = some (true, blurDone env st sf sf.pixels) := by
  have hpos : ¬ ((k * k : Nat) : Int) ≤ 0 := by
    have : 0 < k := by omega
    have : 0 < k * k := Nat.mul_pos this this
    omega
  unfold scratchFor at hsf
  unfold MyImage_blur
  simp only [hs, hsf, toInt32_sq k hk, hpos, if_false, blurLoops_zero s _ _ _ _ hz,
    Option.map_some', blurDone]

/-! ## Claims C11 to C20 -/

/-- Claim C11 as stated fails: on an image of width 0 and height 2, loaded with the
texture 0, `MyImage_blur` with kernel size 3 returns true, not false, and both
`MyImage_blur` and `invert_image` destroy the texture 0 and publish the new
texture 1: neither function tests the dimensions of the image. -/
theorem C11_counterexample_zero_width_image :
    ((loadedState ⟨0, 2, []⟩).g_image.texture.map fun t => t.id) = some 0 ∧
      ((MyImage_blur ⟨true, true⟩ (loadedState ⟨0, 2, []⟩) .global .valid 3).map fun r =>
          (r.1, r.2.g_image.texture.map fun t => t.id, r.2.liveTextures))
        = some (true, some 1, [1]) ∧
      ((invert_image true (loadedState ⟨0, 2, []⟩) .valid .global).map fun st' =>
          (st'.g_image.texture.map fun t => t.id, st'.liveTextures))
        = some (some 1, [1]) := by
  decide!

/-- Claim C11, amended.  An image of width 0 or height 0 is not rejected: the pixel
loops run zero times, so the surface of the image and the scratch surface keep their
content, and the republication still runs.  `invert_image` returns with a texture
newly created from the surface (or null when the creation fails), and `MyImage_blur`,
for a positive odd kernel size whose square fits `int`, returns true with a texture
newly created from the scratch surface (or null when the creation fails). -/
theorem C11_zero_dimension_image_is_processed (env : Backend) (ok : Bool) (st : State)
    (s sf : SDL_Surface) (k : Nat) (hs : st.g_image.surface = some s)
    (hz : s.w = 0 ∨ s.h = 0) (hsf : scratchFor env st s = some sf) (hodd : k % 2 = 1)
    (hk : k * k < 2 ^ 31) :
    (∃ st', invert_image ok st .valid .global = some st' ∧ st'.g_image.surface = some s ∧
        st'.surfaceFilter = st.surfaceFilter ∧
        st'.g_image.texture =
          (if ok then some { id := st.nextTexture, w := s.w, h := s.h, pixels := s.pixels }
            else none)) ∧
      ∃ st', MyImage_blur env st .global .valid k = some (true, st') ∧
        st'.g_image.surface = some s ∧ st'.surfaceFilter = some sf ∧
        st'.g_image.texture =
          (if env.textureOk then
            some { id := st.nextTexture, w := sf.w, h := sf.h, pixels := sf.pixels }
          else none) := by
  refine ⟨invert_image_zero ok st s hs hz, _, MyImage_blur_zero env st s sf k hs hz hsf hodd hk,
    ?_, ?_, ?_⟩
  · rw [blurDone_surface]; exact hs
  · rw [blurDone_surfaceFilter]
  · rw [blurDone_texture]

/-- Witness of the amended C11 on the image of width 0 and height 2. -/
theorem C11_zero_dimension_image_is_processed_witness :
    (loadedState ⟨0, 2, []⟩).g_image.surface = some ⟨0, 2, []⟩ ∧
      ((⟨0, 2, []⟩ : SDL_Surface).w = 0 ∨ (⟨0, 2, []⟩ : SDL_Surface).h = 0) ∧
      scratchFor ⟨true, true⟩ (loadedState ⟨0, 2, []⟩) ⟨0, 2, []⟩ = some ⟨0, 2, []⟩ ∧
      3 % 2 = 1 ∧ 3 * 3 < 2 ^ 31 ∧
      ((∃ st', invert_image true (loadedState ⟨0, 2, []⟩) .valid .global = some st' ∧
          st'.g_image.surface = some ⟨0, 2, []⟩ ∧
          st'.surfaceFilter = (loadedState ⟨0, 2, []⟩).surfaceFilter ∧
          st'.g_image.texture =
            (if true = true then
              some { id := (loadedState ⟨0, 2, []⟩).nextTexture, w := 0, h := 2, pixels := [] }
            else none)) ∧
        ∃ st', MyImage_blur ⟨true, true⟩ (loadedState ⟨0, 2, []⟩) .global .valid 3
            = some (true, st') ∧
          st'.g_image.surface = some ⟨0, 2, []⟩ ∧ st'.surfaceFilter = some ⟨0, 2, []⟩ ∧
          st'.g_image.texture =
            (if (⟨true, true⟩ : Backend).textureOk = true then
              some { id := (loadedState ⟨0, 2, []⟩).nextTexture, w := 0, h := 2, pixels := [] }
            else none)) :=
  ⟨rfl, Or.inl rfl, rfl, by decide, by decide,
    C11_zero_dimension_image_is_processed ⟨true, true⟩ true (loadedState ⟨0, 2, []⟩)
      ⟨0, 2, []⟩ ⟨0, 2, []⟩ 3 rfl (Or.inl rfl) rfl (by decide) (by decide)⟩

/-- Claim C15.  Reset restores the original: in a session of `loop` on the image
`s`, after any sequence of requests that returned, `reset_image` (with a back end
that creates the texture) returns, the surface of the image still is `s`, and the
texture it publishes and draws is newly created from `s`, with the pixels of `s`. -/
theorem C15_reset_restores_the_original (s : SDL_Surface) (st0 st : State)
    (requests : List (Backend × Request)) (h0 : SessionOn s st0)
    (hrun : runRequests st0 requests = some st) :
    ∃ st', reset_image true st = some st' ∧ st'.g_image.surface = some s ∧
      st'.g_image.texture
        = some { id := st.nextTexture, w := s.w, h := s.h, pixels := s.pixels } ∧
      st'.screen = st'.g_image.texture ∧ displayed st' = some s.pixels := by
  have hs := (runRequests_session s requests st0 st h0 hrun).1
  refine ⟨_, reset_image_eq true st, ?_, ?_, ?_, ?_⟩
  · simp only [render, update_texture_surface]
    exact hs
  · simp [render, hs, update_texture_valid]
  · rfl
  · simp [displayed, render, hs, update_texture_valid]

/-- Witness of C15 after the requests blur 5 and blur 3 on a 2 x 2 image. -/
theorem C15_reset_restores_the_original_witness :
    ∃ st, runRequests (loadedState (uniformImage 2 2 10 20 30 40))
        [(⟨true, true⟩, Request.blur 5), (⟨true, true⟩, Request.blur 3)] = some st ∧
      ∃ st', reset_image true st = some st' ∧
        st'.g_image.surface = some (uniformImage 2 2 10 20 30 40) ∧
        st'.g_image.texture
          = some { id := st.nextTexture, w := (uniformImage 2 2 10 20 30 40).w,
                   h := (uniformImage 2 2 10 20 30 40).h,
                   pixels := (uniformImage 2 2 10 20 30 40).pixels } ∧
        st'.screen = st'.g_image.texture ∧
        displayed st' = some (uniformImage 2 2 10 20 30 40).pixels :=
  have hs : SessionOn (uniformImage 2 2 10 20 30 40)
      (loadedState (uniformImage 2 2 10 20 30 40)) :=
    ⟨rfl, fun sf hsf => by
      have e : sf = ⟨2, 2, List.replicate (2 * 2) 0⟩ := (Option.some.inj hsf).symm
      rw [e]
      exact ⟨rfl, rfl, rfl⟩⟩
  have hrun := runRequests_returns (uniformImage 2 2 10 20 30 40) rfl
    [(⟨true, true⟩, Request.blur 5), (⟨true, true⟩, Request.blur 3)]
    (loadedState (uniformImage 2 2 10 20 30 40)) hs (by
      intro env k hk
      simp only [List.mem_cons, Prod.mk.injEq, Request.blur.injEq, List.mem_singleton,
        List.not_mem_nil, or_false] at hk
      rcases hk with ⟨_, hk⟩ | ⟨_, hk⟩
      · subst hk; decide
      · subst hk; decide)
  ⟨hrun.choose, hrun.choose_spec,
    C15_reset_restores_the_original (uniformImage 2 2 10 20 30 40)
      (loadedState (uniformImage 2 2 10 20 30 40)) hrun.choose _ hs hrun.choose_spec⟩

/-- Claim C16.  Republication without leak.  A call of
`MyImage_update_texture_with_surface` with a non-null image, renderer and surface in
which the back end succeeds returns true; the texture held before is destroyed and
then the new one is created (the live textures are the new one and those that were
live, without the old one); the image holds the new texture; the width and height of
its rectangle are those of the published surface and its position is unchanged.  And
in every state the program can reach at most one texture is live, the texture of the
image. -/
theorem C16_republication_without_leak (st0 : State) (s : SDL_Surface) (st : State)
    (h : Reachable st) :
    (MyImage_update_texture_with_surface true st0 .global .valid (some s)).1 = true ∧
      (MyImage_update_texture_with_surface true st0 .global .valid (some s)).2.liveTextures
        = st0.nextTexture :: (SDL_DestroyTexture st0 st0.g_image.texture).liveTextures ∧
      (∀ old, st0.g_image.texture = some old →
        old.id ∉ (SDL_DestroyTexture st0 st0.g_image.texture).liveTextures) ∧
      (MyImage_update_texture_with_surface true st0 .global .valid (some s)).2.g_image.texture
        = some { id := st0.nextTexture, w := s.w, h := s.h, pixels := s.pixels } ∧
      (MyImage_update_texture_with_surface true st0 .global .valid (some s)).2.g_image.rect
        = { x := st0.g_image.rect.x, y := st0.g_image.rect.y, w := s.w, h := s.h } ∧
      st.liveTextures.length ≤ 1 ∧
      st.liveTextures = (st.g_image.texture.map fun t => t.id).toList ∧
      (MyImage_update_texture_with_surface true st .global .valid (some s)).2.liveTextures
        = [st.nextTexture] := by
  have ho := reachable_owned st h
  refine ⟨by rw [update_texture_valid]; rfl, by rw [update_texture_valid]; rfl, ?_,
    by rw [update_texture_valid]; rfl, by rw [update_texture_valid]; rfl, ?_, ho.2, ?_⟩
  · intro old hold
    simp [SDL_DestroyTexture, hold]
  · rw [ho.2]
    cases st.g_image.texture <;> simp
  · rw [update_texture_valid, destroyTexture_owned st ho]
    rfl

/-- Witness of C16 in the state reached from the initial one by a successful load of a
2 x 2 image: the texture 0 is live, and a republication leaves the texture 1 alone. -/
theorem C16_republication_without_leak_witness :
    Reachable (load_rgba32 ⟨true, some (uniformImage 2 2 10 20 30 40), true⟩ initialState
        (some IMAGE_FILENAME) .valid .global).2 ∧
      (load_rgba32 ⟨true, some (uniformImage 2 2 10 20 30 40), true⟩ initialState
        (some IMAGE_FILENAME) .valid .global).2.liveTextures.length ≤ 1 ∧
      (load_rgba32 ⟨true, some (uniformImage 2 2 10 20 30 40), true⟩ initialState
        (some IMAGE_FILENAME) .valid .global).2.liveTextures = [0] ∧
      (MyImage_update_texture_with_surface true
        (load_rgba32 ⟨true, some (uniformImage 2 2 10 20 30 40), true⟩ initialState
          (some IMAGE_FILENAME) .valid .global).2
        .global .valid (some (uniformImage 2 2 10 20 30 40))).2.liveTextures = [1] :=
  have hr : Reachable (load_rgba32 ⟨true, some (uniformImage 2 2 10 20 30 40), true⟩
      initialState (some IMAGE_FILENAME) .valid .global).2 :=
    Reachable.load _ _ _ _ _ Reachable.init
  have h := C16_republication_without_leak initialState (uniformImage 2 2 10 20 30 40) _ hr
  ⟨hr, h.2.2.2.2.2.1, by decide, by decide⟩

/-- Claim C17 as stated fails: in the state `main` enters `loop` with, where the
image holds the live texture 0, a call of `MyImage_update_texture_with_surface` in
which the back end fails returns false and leaves the image without texture and the
texture 0 destroyed. -/
theorem C17_counterexample_old_texture_destroyed :
    ((loadedState (uniformImage 2 2 10 20 30 40)).g_image.texture.map fun t => t.id) = some 0 ∧
      (loadedState (uniformImage 2 2 10 20 30 40)).liveTextures = [0] ∧
      (MyImage_update_texture_with_surface false (loadedState (uniformImage 2 2 10 20 30 40))
        .global .valid (some (uniformImage 2 2 10 20 30 40))).1 = false ∧
      (MyImage_update_texture_with_surface false (loadedState (uniformImage 2 2 10 20 30 40))
        .global .valid (some (uniformImage 2 2 10 20 30 40))).2.g_image.texture = none ∧
      (MyImage_update_texture_with_surface false (loadedState (uniformImage 2 2 10 20 30 40))
        .global .valid (some (uniformImage 2 2 10 20 30 40))).2.liveTextures = [] := by
  decide

/-- Claim C17, amended.  When `MyImage_update_texture_with_surface` is called with a
non-null image, renderer and surface and the back end fails to create a texture, it
returns false; the texture held before has been destroyed and the image holds no
texture; the rectangle and the surface of the image are unchanged. -/
theorem C17_publish_failure_drops_the_texture (st : State) (s : SDL_Surface) :
    (MyImage_update_texture_with_surface false st .global .valid (some s)).1 = false ∧
      (MyImage_update_texture_with_surface false st .global .valid (some s)).2.g_image.texture
        = none ∧
      (MyImage_update_texture_with_surface false st .global .valid (some s)).2.liveTextures
        = (SDL_DestroyTexture st st.g_image.texture).liveTextures ∧
      (∀ old, st.g_image.texture = some old →
        old.id ∉ (MyImage_update_texture_with_surface false st .global .valid
          (some s)).2.liveTextures) ∧
      (MyImage_update_texture_with_surface false st .global .valid (some s)).2.g_image.rect
        = st.g_image.rect ∧
      (MyImage_update_texture_with_surface false st .global .valid (some s)).2.g_image.surface
        = st.g_image.surface := by
  refine ⟨by rw [update_texture_valid]; rfl, by rw [update_texture_valid]; rfl,
    by rw [update_texture_valid]; rfl, ?_, by rw [update_texture_valid]; rfl,
    by rw [update_texture_valid]; rfl⟩
  intro old hold
  rw [update_texture_valid]
  simp [SDL_DestroyTexture, hold]

/-- Claim C18 as stated fails: when `main` loads the image and the texture cannot be
created, `load_rgba32` returns false and leaves the converted surface in the image,
which held no surface before; and when an image is loaded over a loaded one and the
file cannot be decoded, `load_rgba32` returns false after it has destroyed the
surface and the texture the image held. -/
theorem C18_counterexample_load_not_atomic :
    initialState.g_image.surface = none ∧
      load_rgba32 ⟨true, some (uniformImage 2 2 10 20 30 40), false⟩ initialState
          (some IMAGE_FILENAME) .valid .global
        = (false, { initialState with
            g_image := { initialState.g_image with
              surface := some (uniformImage 2 2 10 20 30 40) } }) ∧
      (loadedState (uniformImage 2 2 10 20 30 40)).g_image.surface
        = some (uniformImage 2 2 10 20 30 40) ∧
      (load_rgba32 ⟨false, none, true⟩ (loadedState (uniformImage 2 2 10 20 30 40))
          (some IMAGE_FILENAME) .valid .global).1 = false ∧
      (load_rgba32 ⟨false, none, true⟩ (loadedState (uniformImage 2 2 10 20 30 40))
          (some IMAGE_FILENAME) .valid .global).2.g_image = initialState.g_image ∧
      (load_rgba32 ⟨false, none, true⟩ (loadedState (uniformImage 2 2 10 20 30 40))
          (some IMAGE_FILENAME) .valid .global).2.liveTextures = [] := by
  decide

/-- Claim C18, amended.  `load_rgba32`, called with a file name, a renderer and an
output image, first destroys what the output image holds.  It returns false exactly
when decoding, conversion or texture creation fails, and then the output image holds
no texture, its rectangle is (0, 0, 0, 0), the texture it held before is destroyed,
and its surface is null after a failed decoding or conversion and the converted
surface after a failed texture creation. -/
theorem C18_load_failure_leaves_no_old_image (b : LoadBackend) (st : State) (name : String) :
    ((load_rgba32 b st (some name) .valid .global).1 = false ↔
        (b.decoded = false ∨ b.converted = none ∨ b.textureOk = false)) ∧
      ((load_rgba32 b st (some name) .valid .global).1 = false →
        (load_rgba32 b st (some name) .valid .global).2.g_image.texture = none ∧
        (load_rgba32 b st (some name) .valid .global).2.g_image.rect
          = { x := 0, y := 0, w := 0, h := 0 } ∧
        (load_rgba32 b st (some name) .valid .global).2.g_image.surface
          = (if b.decoded then b.converted else none) ∧
        (load_rgba32 b st (some name) .valid .global).2.liveTextures
          = (SDL_DestroyTexture st st.g_image.texture).liveTextures) := by
  obtain ⟨decoded, converted, textureOk⟩ := b
  cases decoded <;> cases converted <;> cases textureOk <;>
    cases h : st.g_image.texture <;>
    simp [load_rgba32, MyImage_destroy, update_texture_valid, SDL_DestroyTexture, h]

/-- Witness of the amended C18: loading over a loaded image with a file that cannot be
decoded. -/
theorem C18_load_failure_leaves_no_old_image_witness :
    (load_rgba32 ⟨false, none, true⟩ (loadedState (uniformImage 2 2 10 20 30 40))
        (some IMAGE_FILENAME) .valid .global).1 = false ∧
      (load_rgba32 ⟨false, none, true⟩ (loadedState (uniformImage 2 2 10 20 30 40))
        (some IMAGE_FILENAME) .valid .global).2.g_image.texture = none ∧
      (load_rgba32 ⟨false, none, true⟩ (loadedState (uniformImage 2 2 10 20 30 40))
        (some IMAGE_FILENAME) .valid .global).2.g_image.rect
        = { x := 0, y := 0, w := 0, h := 0 } ∧
      (load_rgba32 ⟨false, none, true⟩ (loadedState (uniformImage 2 2 10 20 30 40))
        (some IMAGE_FILENAME) .valid .global).2.g_image.surface
        = (if (⟨false, none, true⟩ : LoadBackend).decoded then
            (⟨false, none, true⟩ : LoadBackend).converted else none) ∧
      (load_rgba32 ⟨false, none, true⟩ (loadedState (uniformImage 2 2 10 20 30 40))
        (some IMAGE_FILENAME) .valid .global).2.liveTextures
        = (SDL_DestroyTexture (loadedState (uniformImage 2 2 10 20 30 40))
            (loadedState (uniformImage 2 2 10 20 30 40)).g_image.texture).liveTextures :=
  have h := C18_load_failure_leaves_no_old_image ⟨false, none, true⟩
    (loadedState (uniformImage 2 2 10 20 30 40)) IMAGE_FILENAME
  have hf := h.1.mpr (Or.inl rfl)
  ⟨hf, h.2 hf⟩

/-- Claim C19 as stated fails: with a 1 x 1 image and a 2 x 2 scratch surface,
`MyImage_blur` with kernel size 1 returns true and the scratch surface still is
2 x 2; it is reused as it is, not reallocated to the size of the image. -/
theorem C19_counterexample_scratch_not_reallocated :
    ((MyImage_blur ⟨true, true⟩
          { loadedState (uniformImage 1 1 10 20 30 40) with
            surfaceFilter := some ⟨2, 2, [0, 0, 0, 0]⟩ }
          .global .valid 1).map fun r =>
        (r.1, r.2.g_image.surface.map fun s => (s.w, s.h),
          r.2.surfaceFilter.map fun sf => (sf.w, sf.h)))
      = some (true, some (1, 1), some (2, 2)) := by
  decide!

/-- Claim C19, amended.  After every call of `MyImage_blur` that returns true there
is a scratch surface: when there was none before the call it has been created with
the width and height of the image; when there was one it is that one, with the width
and height it had, whether or not they are those of the image (it is never
reallocated).  So the scratch surface has the size of the image after the call
whenever it was absent or had that size before. -/
theorem C19_scratch_created_or_reused (env : Backend) (st st' : State) (s : SDL_Surface)
    (k : Nat) (hs : st.g_image.surface = some s)
    (hret : MyImage_blur env st .global .valid k = some (true, st')) :
    (st.surfaceFilter = none →
        ∃ out, st'.surfaceFilter = some out ∧ out.w = s.w ∧ out.h = s.h) ∧
      (∀ sf, st.surfaceFilter = some sf →
        ∃ out, st'.surfaceFilter = some out ∧ out.w = sf.w ∧ out.h = sf.h) ∧
      ((st.surfaceFilter = none ∨ ∃ sf, st.surfaceFilter = some sf ∧ sf.w = s.w ∧ sf.h = s.h) →
        ∃ out, st'.surfaceFilter = some out ∧ out.w = s.w ∧ out.h = s.h) := by
  rcases MyImage_blur_cases env st s k true st' hs hret with
    ⟨hf, _, _⟩ | ⟨_, a, f', out, ha, _, hst'⟩
  · exact Bool.noConfusion hf
  · have hsf : st'.surfaceFilter = some { a with pixels := out } := by
      rw [hst', blurDone_surfaceFilter]
    have hnone : st.surfaceFilter = none → a.w = s.w ∧ a.h = s.h := by
      intro hn
      simp only [scratchFor, hn, SDL_CreateSurface] at ha
      split at ha
      · rw [Option.some.injEq] at ha
        rw [← ha]
        exact ⟨rfl, rfl⟩
      · exact Option.noConfusion ha
    have hsome : ∀ sf, st.surfaceFilter = some sf → a = sf := by
      intro sf hsome
      simp only [scratchFor, hsome, Option.some.injEq] at ha
      exact ha.symm
    refine ⟨fun hn => ⟨_, hsf, (hnone hn).1, (hnone hn).2⟩,
      fun sf h => ⟨_, hsf, by rw [hsome sf h], by rw [hsome sf h]⟩, ?_⟩
    rintro (hn | ⟨sf, h, hw, hh⟩)
    · exact ⟨_, hsf, (hnone hn).1, (hnone hn).2⟩
    · exact ⟨_, hsf, by rw [hsome sf h]; exact hw, by rw [hsome sf h]; exact hh⟩

/-- Witness of the amended C19: the first blur of a session in which `main` could not
create the scratch surface creates it, 2 x 2 like the image. -/
theorem C19_scratch_created_or_reused_witness :
    ∃ st', MyImage_blur ⟨true, true⟩
        { loadedState (uniformImage 2 2 10 20 30 40) with surfaceFilter := none }
        .global .valid 3 = some (true, st') ∧
      ∃ out, st'.surfaceFilter = some out ∧ out.w = (uniformImage 2 2 10 20 30 40).w ∧
        out.h = (uniformImage 2 2 10 20 30 40).h :=
  have hret := MyImage_blur_eq ⟨true, true⟩
    { loadedState (uniformImage 2 2 10 20 30 40) with surfaceFilter := none }
    (uniformImage 2 2 10 20 30 40) ⟨2, 2, List.replicate (2 * 2) 0⟩ 3 rfl rfl rfl rfl
    (by decide) (by decide)
  ⟨_, hret, (C19_scratch_created_or_reused ⟨true, true⟩
    { loadedState (uniformImage 2 2 10 20 30 40) with surfaceFilter := none } _
    (uniformImage 2 2 10 20 30 40) 3 rfl hret).1 rfl⟩

/-- Claim C20 fails on the code for large kernels: 46341 is positive and odd, the image
is well formed and the scratch surface has its dimensions, but the `Uint32` product
`filter_size * filter_size` = 2147488281 does not fit the `int` `filterFinalSize`, which
becomes negative: the array `filter` gets a negative size and the call is undefined. -/
theorem C20_kernel_square_overflows_int :
    BlurReady ⟨true, true⟩ (loadedState (uniformImage 1 1 10 20 30 40))
        (uniformImage 1 1 10 20 30 40) ⟨1, 1, List.replicate (1 * 1) 0⟩ ∧
      46341 % 2 = 1 ∧ toInt32 (46341 * 46341 % 2 ^ 32) < 0 ∧
      MyImage_blur ⟨true, true⟩ (loadedState (uniformImage 1 1 10 20 30 40)) .global .valid 46341
        = none := by
  decide!

/-! ## Single precision rounding -/

theorem bitLenAux_zero (fuel : Nat) : bitLenAux fuel 0 = 0 := by
  cases fuel <;> simp [bitLenAux]

theorem bitLenAux_spec : ∀ (fuel n : Nat), n ≤ fuel →
    n < 2 ^ bitLenAux fuel n ∧ (0 < n → 2 ^ bitLenAux fuel n ≤ 2 * n) := by
  intro fuel
  induction fuel with
  | zero =>
    intro n hn
    have : n = 0 := by omega
    subst this
    simp [bitLenAux]
  | succ fuel ih =>
    intro n hn
    by_cases h0 : n = 0
    · subst h0
      simp [bitLenAux]
    · have hle : n / 2 ≤ fuel := by omega
      obtain ⟨h1, h2⟩ := ih (n / 2) hle
      simp only [bitLenAux, h0, if_false, pow_succ]
      constructor
      · omega
      · intro _
        by_cases h3 : n / 2 = 0
        · rw [h3, bitLenAux_zero]
          omega
        · have := h2 (by omega)
          omega

theorem bitLen_spec (n : Nat) (hn : 0 < n) : n < 2 ^ bitLen n ∧ 2 ^ bitLen n ≤ 2 * n := by
  obtain ⟨h1, h2⟩ := bitLenAux_spec n n (le_refl n)
  exact ⟨h1, h2 hn⟩

theorem floor_natCast_div (P Q : Nat) (hQ : 0 < Q) : ⌊(P : ℚ) / (Q : ℚ)⌋ = ((P / Q : Nat) : Int) := by
  rw [Int.floor_eq_iff]
  have hQ' : (0 : ℚ) < Q := by exact_mod_cast hQ
  constructor
  · rw [le_div_iff₀ hQ']
    have := Nat.div_mul_le_self P Q
    exact_mod_cast this
  · rw [div_lt_iff₀ hQ']
    have := Nat.lt_succ_iff.mpr (le_refl (P / Q))
    have h2 : P < (P / Q + 1) * Q := by
      have := Nat.div_add_mod P Q
      have := Nat.mod_lt P hQ
      nlinarith
    exact_mod_cast h2

theorem fract_natCast_div (P Q : Nat) (hQ : 0 < Q) :
    Int.fract ((P : ℚ) / (Q : ℚ)) = ((P % Q : Nat) : ℚ) / (Q : ℚ) := by
  have hQ' : (Q : ℚ) ≠ 0 := by exact_mod_cast hQ.ne'
  have h := Nat.div_add_mod P Q
  have h' : (P : ℚ) = (Q : ℚ) * ((P / Q : Nat) : ℚ) + ((P % Q : Nat) : ℚ) := by exact_mod_cast h.symm
  unfold Int.fract
  rw [floor_natCast_div P Q hQ, Int.cast_natCast]
  field_simp
  linarith

theorem roundHalfEven_eq (P Q : Nat) (hQ : 0 < Q) :
    ((roundHalfEven P Q : Nat) : Int) = roundNearestEven ((P : ℚ) / (Q : ℚ)) := by
  have hQ' : (0 : ℚ) < Q := by exact_mod_cast hQ
  unfold roundHalfEven roundNearestEven
  rw [floor_natCast_div P Q hQ, fract_natCast_div P Q hQ]
  have e1 : (1 < 2 * (((P % Q : Nat) : ℚ) / (Q : ℚ))) ↔ 2 * (P % Q) > Q := by
    rw [← mul_div_assoc, lt_div_iff₀ hQ', one_mul]
    constructor
    · intro h
      have : (Q : ℚ) < ((2 * (P % Q) : Nat) : ℚ) := by push_cast; exact h
      exact_mod_cast this
    · intro h
      have : (Q : ℚ) < ((2 * (P % Q) : Nat) : ℚ) := by exact_mod_cast h
      push_cast at this
      exact this
  have e2 : (2 * (((P % Q : Nat) : ℚ) / (Q : ℚ)) = 1) ↔ 2 * (P % Q) = Q := by
    rw [← mul_div_assoc, div_eq_iff hQ'.ne', one_mul]
    constructor
    · intro h
      have : ((2 * (P % Q) : Nat) : ℚ) = (Q : ℚ) := by push_cast; exact h
      exact_mod_cast this
    · intro h
      have : ((2 * (P % Q) : Nat) : ℚ) = (Q : ℚ) := by exact_mod_cast h
      push_cast at this
      exact this
  have e3 : (((P / Q : Nat) : Int) % 2 = 1) ↔ (P / Q) % 2 = 1 := by omega
  simp only [e1, e2, e3]
  split <;> simp
theorem roundNearestEven_mono (x y : ℚ) (h : x ≤ y) : roundNearestEven x ≤ roundNearestEven y := by
  have hfx := Int.floor_le x
  have hfy := Int.floor_le y
  have hx1 := Int.fract_lt_one x
  have hx0 := Int.fract_nonneg x
  have hy0 := Int.fract_nonneg y
  have hfl : ⌊x⌋ ≤ ⌊y⌋ := Int.floor_le_floor h
  rcases lt_or_eq_of_le hfl with hlt | heq
  · have h1 : roundNearestEven x ≤ ⌊x⌋ + 1 := by
      unfold roundNearestEven; split <;> omega
    have h2 : ⌊y⌋ ≤ roundNearestEven y := by
      unfold roundNearestEven; split <;> omega
    omega
  · have hfr : Int.fract x ≤ Int.fract y := by
      unfold Int.fract
      rw [heq]
      linarith
    unfold roundNearestEven
    rw [heq]
    by_cases c1 : 1 < 2 * Int.fract x ∨ (2 * Int.fract x = 1 ∧ ⌊y⌋ % 2 = 1)
    · have c2 : 1 < 2 * Int.fract y ∨ (2 * Int.fract y = 1 ∧ ⌊y⌋ % 2 = 1) := by
        rcases c1 with c | ⟨c, d⟩
        · left; linarith
        · rcases lt_or_eq_of_le hfr with hl | he
          · left; linarith
          · right; exact ⟨by rw [← he]; exact c, d⟩
      rw [if_pos c1, if_pos c2]
    · rw [if_neg c1]
      split <;> omega

theorem roundNearestEven_le (y : ℚ) : (roundNearestEven y : ℚ) ≤ y + 1 / 2 := by
  have h0 : (⌊y⌋ : ℚ) + Int.fract y = y := Int.floor_add_fract y
  have hx0 := Int.fract_nonneg y
  unfold roundNearestEven
  split
  · rename_i c
    push_cast
    rcases c with c | ⟨c, _⟩ <;> linarith
  · linarith

theorem roundNearestEven_ge (y : ℚ) : y - 1 / 2 ≤ (roundNearestEven y : ℚ) := by
  have h0 : (⌊y⌋ : ℚ) + Int.fract y = y := Int.floor_add_fract y
  have hx1 := Int.fract_lt_one y
  unfold roundNearestEven
  split
  · push_cast
    linarith
  · rename_i c
    have : ¬ 1 < 2 * Int.fract y := fun h => c (Or.inl h)
    linarith

theorem roundNearestEven_intCast (n : ℤ) : roundNearestEven (n : ℚ) = n := by
  unfold roundNearestEven
  simp

theorem ofRatio_scale (p q : Nat) (hp : 0 < p) (hq : 0 < q) :
    2 ^ 24 * (q * 2 ^ (bitLen p - (24 + bitLen q)))
        < 2 * (p * 2 ^ (24 + bitLen q - bitLen p)) ∧
      p * 2 ^ (24 + bitLen q - bitLen p)
        < 2 ^ 25 * (q * 2 ^ (bitLen p - (24 + bitLen q))) := by
  obtain ⟨hp1, hp2⟩ := bitLen_spec p hp
  obtain ⟨hq1, hq2⟩ := bitLen_spec q hq
  rcases le_total (bitLen p) (24 + bitLen q) with hle | hle
  · have hd : bitLen p - (24 + bitLen q) = 0 := by omega
    obtain ⟨u, hu⟩ : ∃ u, 24 + bitLen q = bitLen p + u := ⟨24 + bitLen q - bitLen p, by omega⟩
    have hup : 24 + bitLen q - bitLen p = u := by omega
    rw [hd, hup, pow_zero, mul_one]
    have e : 2 ^ bitLen p * 2 ^ u = 2 ^ 24 * 2 ^ bitLen q := by
      rw [← pow_add, ← pow_add, hu]
    have hu0 : 0 < 2 ^ u := Nat.pow_pos (by norm_num)
    constructor
    · calc 2 ^ 24 * q < 2 ^ 24 * 2 ^ bitLen q := by
            apply Nat.mul_lt_mul_of_pos_left hq1 (by norm_num)
        _ = 2 ^ bitLen p * 2 ^ u := e.symm
        _ ≤ (2 * p) * 2 ^ u := Nat.mul_le_mul_right _ hp2
        _ = 2 * (p * 2 ^ u) := by ring
    · calc p * 2 ^ u < 2 ^ bitLen p * 2 ^ u := by
            apply Nat.mul_lt_mul_of_pos_right hp1 hu0
        _ = 2 ^ 24 * 2 ^ bitLen q := e
        _ ≤ 2 ^ 24 * (2 * q) := Nat.mul_le_mul_left _ hq2
        _ = 2 ^ 25 * q := by ring
  · have hu : 24 + bitLen q - bitLen p = 0 := by omega
    obtain ⟨d, hd⟩ : ∃ d, bitLen p = 24 + bitLen q + d := ⟨bitLen p - (24 + bitLen q), by omega⟩
    have hdown : bitLen p - (24 + bitLen q) = d := by omega
    rw [hu, hdown, pow_zero, mul_one]
    have e : 2 ^ bitLen p = 2 ^ 24 * (2 ^ bitLen q * 2 ^ d) := by
      rw [hd, pow_add, pow_add, mul_assoc]
    have hd0 : 0 < 2 ^ d := Nat.pow_pos (by norm_num)
    constructor
    · calc 2 ^ 24 * (q * 2 ^ d) < 2 ^ 24 * (2 ^ bitLen q * 2 ^ d) := by
            apply Nat.mul_lt_mul_of_pos_left _ (by norm_num)
            exact Nat.mul_lt_mul_of_pos_right hq1 hd0
        _ = 2 ^ bitLen p := e.symm
        _ ≤ 2 * p := hp2
    · calc p < 2 ^ bitLen p := hp1
        _ = 2 ^ 24 * (2 ^ bitLen q * 2 ^ d) := e
        _ ≤ 2 ^ 24 * ((2 * q) * 2 ^ d) := by
            apply Nat.mul_le_mul_left
            exact Nat.mul_le_mul_right _ hq2
        _ = 2 ^ 25 * (q * 2 ^ d) := by ring

theorem ofRatio_spec (p q : Nat) (hp : 0 < p) (hq : 0 < q) :
    ∃ e : ℤ, (2 : ℚ) ^ 23 ≤ (p : ℚ) / (q : ℚ) / 2 ^ e ∧ (p : ℚ) / (q : ℚ) / 2 ^ e < 2 ^ 24 ∧
      (Float32.ofRatio p q).val = (roundNearestEven ((p : ℚ) / (q : ℚ) / 2 ^ e) : ℚ) * 2 ^ e := by
  obtain ⟨hs1, hs2⟩ := ofRatio_scale p q hp hq
  generalize hup : 24 + bitLen q - bitLen p = up at hs1 hs2
  generalize hdown : bitLen p - (24 + bitLen q) = down at hs1 hs2
  have hp' : (0 : ℚ) < p := by exact_mod_cast hp
  have hq' : (0 : ℚ) < q := by exact_mod_cast hq
  have hU : (0 : ℚ) < 2 ^ up := by positivity
  have hD : (0 : ℚ) < 2 ^ down := by positivity
  have hQ : 0 < q * 2 ^ down := Nat.mul_pos hq (Nat.pow_pos (by norm_num))
  have c1 : ((2 ^ 24 * (q * 2 ^ down) : Nat) : ℚ) < ((2 * (p * 2 ^ up) : Nat) : ℚ) := by
    exact_mod_cast hs1
  have c2 : ((p * 2 ^ up : Nat) : ℚ) < ((2 ^ 25 * (q * 2 ^ down) : Nat) : ℚ) := by
    exact_mod_cast hs2
  push_cast at c1 c2
  by_cases hb : p * 2 ^ up / (q * 2 ^ down) < 2 ^ 24
  · have hb' : p * 2 ^ up < 2 ^ 24 * (q * 2 ^ down) := by
      rw [Nat.div_lt_iff_lt_mul hQ] at hb
      linarith
    have c3 : ((p * 2 ^ up : Nat) : ℚ) < ((2 ^ 24 * (q * 2 ^ down) : Nat) : ℚ) := by
      exact_mod_cast hb'
    push_cast at c3
    have hpow : (2 : ℚ) ^ ((down : ℤ) - (up : ℤ)) = 2 ^ down / 2 ^ up := by
      rw [zpow_sub₀ (by norm_num), zpow_natCast, zpow_natCast]
    have hy : (p : ℚ) / (q : ℚ) / 2 ^ ((down : ℤ) - (up : ℤ))
        = ((p * 2 ^ up : Nat) : ℚ) / ((q * 2 ^ down : Nat) : ℚ) := by
      rw [hpow]; push_cast; field_simp
    refine ⟨(down : ℤ) - (up : ℤ), ?_, ?_, ?_⟩
    · rw [hy, le_div_iff₀ (by push_cast; positivity)]
      push_cast; linarith
    · rw [hy, div_lt_iff₀ (by push_cast; positivity)]
      push_cast; linarith
    · rw [hy, ← roundHalfEven_eq _ _ hQ, hpow]
      unfold Float32.ofRatio Float32.val
      simp only [hp.ne', if_false, hup, hdown, hb, if_true]
      push_cast
      field_simp
  · have hb' : 2 ^ 24 * (q * 2 ^ down) ≤ p * 2 ^ up := by
      rw [Nat.div_lt_iff_lt_mul hQ] at hb
      linarith
    have c3 : ((2 ^ 24 * (q * 2 ^ down) : Nat) : ℚ) ≤ ((p * 2 ^ up : Nat) : ℚ) := by
      exact_mod_cast hb'
    push_cast at c3
    have hQ2 : 0 < 2 * (q * 2 ^ down) := by omega
    have hpow : (2 : ℚ) ^ ((down : ℤ) + 1 - (up : ℤ)) = 2 ^ (down + 1) / 2 ^ up := by
      rw [zpow_sub₀ (by norm_num), zpow_natCast]
      congr 1
      exact_mod_cast zpow_natCast (2 : ℚ) (down + 1)
    have hy : (p : ℚ) / (q : ℚ) / 2 ^ ((down : ℤ) + 1 - (up : ℤ))
        = ((p * 2 ^ up : Nat) : ℚ) / ((2 * (q * 2 ^ down) : Nat) : ℚ) := by
      rw [hpow]; push_cast; field_simp; ring
    refine ⟨(down : ℤ) + 1 - (up : ℤ), ?_, ?_, ?_⟩
    · rw [hy, le_div_iff₀ (by push_cast; positivity)]
      push_cast; linarith
    · rw [hy, div_lt_iff₀ (by push_cast; positivity)]
      push_cast; linarith
    · rw [hy, ← roundHalfEven_eq _ _ hQ2, hpow]
      unfold Float32.ofRatio Float32.val
      simp only [hp.ne', if_false, hup, hdown, hb]
      push_cast
      field_simp
theorem ofRatio_den_pos (p q : Nat) : 0 < (Float32.ofRatio p q).den := by
  unfold Float32.ofRatio
  split
  · norm_num
  · dsimp only
    split <;> exact Nat.pow_pos (by norm_num)

theorem val_nonneg (x : Float32) : 0 ≤ x.val := by
  unfold Float32.val
  positivity

theorem ofRatio_zero (q : Nat) : (Float32.ofRatio 0 q).val = 0 := by
  simp [Float32.ofRatio, Float32.val]

theorem roundNearestEven_bounds (y : ℚ) (h1 : (2 : ℚ) ^ 23 ≤ y) (h2 : y < 2 ^ 24) :
    (2 : ℚ) ^ 23 ≤ (roundNearestEven y : ℚ) ∧ (roundNearestEven y : ℚ) ≤ 2 ^ 24 := by
  have a := roundNearestEven_mono _ _ h1
  have b := roundNearestEven_mono _ _ h2.le
  have e1 : roundNearestEven ((2 : ℚ) ^ 23) = 2 ^ 23 := by
    have := roundNearestEven_intCast (2 ^ 23)
    push_cast at this
    exact this
  have e2 : roundNearestEven ((2 : ℚ) ^ 24) = 2 ^ 24 := by
    have := roundNearestEven_intCast (2 ^ 24)
    push_cast at this
    exact this
  rw [e1] at a
  rw [e2] at b
  constructor
  · exact_mod_cast a
  · exact_mod_cast b

theorem ofRatio_mono (p q p' q' : Nat) (hq : 0 < q) (hq' : 0 < q') (h : p * q' ≤ p' * q) :
    (Float32.ofRatio p q).val ≤ (Float32.ofRatio p' q').val := by
  rcases Nat.eq_zero_or_pos p with hp | hp
  · rw [hp, ofRatio_zero]
    exact val_nonneg _
  have hp' : 0 < p' := by
    rcases Nat.eq_zero_or_pos p' with h0 | h0
    · rw [h0, Nat.zero_mul] at h
      have := Nat.mul_pos hp hq'
      omega
    · exact h0
  have hqQ : (0 : ℚ) < q := by exact_mod_cast hq
  have hqQ' : (0 : ℚ) < q' := by exact_mod_cast hq'
  have hx : (p : ℚ) / (q : ℚ) ≤ (p' : ℚ) / (q' : ℚ) := by
    rw [div_le_div_iff₀ hqQ hqQ']
    exact_mod_cast h
  obtain ⟨e, a1, a2, a3⟩ := ofRatio_spec p q hp hq
  obtain ⟨e', b1, b2, b3⟩ := ofRatio_spec p' q' hp' hq'
  rw [a3, b3]
  have he : (0 : ℚ) < 2 ^ e := by positivity
  have he' : (0 : ℚ) < 2 ^ e' := by positivity
  obtain ⟨ra1, ra2⟩ := roundNearestEven_bounds _ a1 a2
  obtain ⟨rb1, rb2⟩ := roundNearestEven_bounds _ b1 b2
  rcases lt_trichotomy e e' with hlt | heq | hgt
  · have hpow : (2 : ℚ) ^ e * 2 ≤ 2 ^ e' := by
      have : (2 : ℚ) ^ (e + 1) ≤ 2 ^ e' := zpow_le_zpow_right₀ (by norm_num) (by omega)
      rw [zpow_add_one₀ (by norm_num)] at this
      exact this
    calc (roundNearestEven ((p : ℚ) / q / 2 ^ e) : ℚ) * 2 ^ e ≤ 2 ^ 24 * 2 ^ e :=
          mul_le_mul_of_nonneg_right ra2 he.le
      _ = 2 ^ 23 * (2 ^ e * 2) := by ring
      _ ≤ 2 ^ 23 * 2 ^ e' := mul_le_mul_of_nonneg_left hpow (by positivity)
      _ ≤ (roundNearestEven ((p' : ℚ) / q' / 2 ^ e') : ℚ) * 2 ^ e' :=
          mul_le_mul_of_nonneg_right rb1 he'.le
  · subst heq
    have hy : (p : ℚ) / q / 2 ^ e ≤ (p' : ℚ) / q' / 2 ^ e :=
      div_le_div_of_nonneg_right hx he.le
    have := roundNearestEven_mono _ _ hy
    apply mul_le_mul_of_nonneg_right _ he.le
    exact_mod_cast this
  · exfalso
    have hpow : (2 : ℚ) ^ e' * 2 ≤ 2 ^ e := by
      have : (2 : ℚ) ^ (e' + 1) ≤ 2 ^ e := zpow_le_zpow_right₀ (by norm_num) (by omega)
      rw [zpow_add_one₀ (by norm_num)] at this
      exact this
    rw [le_div_iff₀ he] at a1
    rw [div_lt_iff₀ he'] at b2
    nlinarith

theorem ofRatio_le (p q : Nat) (hq : 0 < q) :
    (Float32.ofRatio p q).val ≤ (p : ℚ) / (q : ℚ) * (1 + 1 / 2 ^ 24) := by
  rcases Nat.eq_zero_or_pos p with hp | hp
  · rw [hp, ofRatio_zero]
    simp
  obtain ⟨e, a1, a2, a3⟩ := ofRatio_spec p q hp hq
  have he : (0 : ℚ) < 2 ^ e := by positivity
  rw [a3]
  have h := roundNearestEven_le ((p : ℚ) / q / 2 ^ e)
  have hxy : (p : ℚ) / q = (p : ℚ) / q / 2 ^ e * 2 ^ e := by
    rw [div_mul_cancel₀ _ he.ne']
  generalize (p : ℚ) / q / 2 ^ e = y at a1 a2 h hxy ⊢
  rw [hxy]
  have : (roundNearestEven y : ℚ) ≤ y * (1 + 1 / 2 ^ 24) := by
    norm_num at a1 ⊢
    linarith
  calc (roundNearestEven y : ℚ) * 2 ^ e ≤ y * (1 + 1 / 2 ^ 24) * 2 ^ e :=
        mul_le_mul_of_nonneg_right this he.le
    _ = y * 2 ^ e * (1 + 1 / 2 ^ 24) := by ring

theorem ofRatio_ge (p q : Nat) (hq : 0 < q) :
    (p : ℚ) / (q : ℚ) * (1 - 1 / 2 ^ 24) ≤ (Float32.ofRatio p q).val := by
  rcases Nat.eq_zero_or_pos p with hp | hp
  · rw [hp, ofRatio_zero]
    simp
  obtain ⟨e, a1, a2, a3⟩ := ofRatio_spec p q hp hq
  have he : (0 : ℚ) < 2 ^ e := by positivity
  rw [a3]
  have h := roundNearestEven_ge ((p : ℚ) / q / 2 ^ e)
  have hxy : (p : ℚ) / q = (p : ℚ) / q / 2 ^ e * 2 ^ e := by
    rw [div_mul_cancel₀ _ he.ne']
  generalize (p : ℚ) / q / 2 ^ e = y at a1 a2 h hxy ⊢
  rw [hxy]
  have : y * (1 - 1 / 2 ^ 24) ≤ (roundNearestEven y : ℚ) := by
    norm_num at a1 ⊢
    linarith
  calc y * 2 ^ e * (1 - 1 / 2 ^ 24) = y * (1 - 1 / 2 ^ 24) * 2 ^ e := by ring
    _ ≤ (roundNearestEven y : ℚ) * 2 ^ e := mul_le_mul_of_nonneg_right this he.le

theorem ofNat_exact (n : Nat) (hn : n < 2 ^ 24) : (Float32.ofNat n).val = n := by
  unfold Float32.ofNat
  rcases Nat.eq_zero_or_pos n with h0 | h0
  · rw [h0, ofRatio_zero]
    simp
  obtain ⟨e, a1, a2, a3⟩ := ofRatio_spec n 1 h0 (by norm_num)
  rw [a3]
  have he : (0 : ℚ) < 2 ^ e := by positivity
  have hn' : (n : ℚ) < 2 ^ 24 := by exact_mod_cast hn
  simp only [Nat.cast_one, div_one] at a1 a2 ⊢
  have hle : e ≤ 0 := by
    by_contra hc
    have h1 : (2 : ℚ) ^ (1 : ℤ) ≤ 2 ^ e := zpow_le_zpow_right₀ (by norm_num) (by omega)
    rw [le_div_iff₀ he] at a1
    norm_num at h1
    nlinarith
  obtain ⟨d, hd⟩ : ∃ d : Nat, e = -(d : ℤ) := ⟨(-e).toNat, by omega⟩
  have hy : (n : ℚ) / 2 ^ e = ((n * 2 ^ d : Nat) : ℤ) := by
    rw [hd, zpow_neg, zpow_natCast]
    push_cast
    field_simp
  rw [hy, roundNearestEven_intCast, ← hy]
  field_simp
theorem ofRatio_mono_val (p q p' q' : Nat) (hq : 0 < q) (hq' : 0 < q')
    (h : (p : ℚ) / (q : ℚ) ≤ (p' : ℚ) / (q' : ℚ)) :
    (Float32.ofRatio p q).val ≤ (Float32.ofRatio p' q').val := by
  apply ofRatio_mono p q p' q' hq hq'
  have hqQ : (0 : ℚ) < q := by exact_mod_cast hq
  have hqQ' : (0 : ℚ) < q' := by exact_mod_cast hq'
  rw [div_le_div_iff₀ hqQ hqQ'] at h
  exact_mod_cast h

theorem mul_ratio (x y : Float32) :
    ((x.num * y.num : Nat) : ℚ) / ((x.den * y.den : Nat) : ℚ) = x.val * y.val := by
  unfold Float32.val
  push_cast
  rw [mul_div_mul_comm]

theorem mul_val_le (x y : Float32) (hx : 0 < x.den) (hy : 0 < y.den) :
    (Float32.mul x y).val ≤ x.val * y.val * (1 + 1 / 2 ^ 24) := by
  unfold Float32.mul
  rw [← mul_ratio]
  exact ofRatio_le _ _ (Nat.mul_pos hx hy)

theorem mul_val_ge (x y : Float32) (hx : 0 < x.den) (hy : 0 < y.den) :
    x.val * y.val * (1 - 1 / 2 ^ 24) ≤ (Float32.mul x y).val := by
  unfold Float32.mul
  rw [← mul_ratio]
  exact ofRatio_ge _ _ (Nat.mul_pos hx hy)

theorem mul_mono_left (x x' y : Float32) (hx : 0 < x.den) (hx' : 0 < x'.den) (hy : 0 < y.den)
    (h : x.val ≤ x'.val) : (Float32.mul x y).val ≤ (Float32.mul x' y).val := by
  unfold Float32.mul
  apply ofRatio_mono_val _ _ _ _ (Nat.mul_pos hx hy) (Nat.mul_pos hx' hy)
  rw [mul_ratio, mul_ratio]
  exact mul_le_mul_of_nonneg_right h (val_nonneg y)

theorem ofNat_den_pos (n : Nat) : 0 < (Float32.ofNat n).den :=
  ofRatio_den_pos n 1

theorem ofNat_mono (s s' : Nat) (h : s ≤ s') : (Float32.ofNat s).val ≤ (Float32.ofNat s').val := by
  unfold Float32.ofNat
  apply ofRatio_mono _ _ _ _ (by norm_num) (by norm_num)
  omega

theorem ofNat_val_le (n : Nat) : (Float32.ofNat n).val ≤ (n : ℚ) * (1 + 1 / 2 ^ 24) := by
  have := ofRatio_le n 1 (by norm_num)
  simpa [Float32.ofNat] using this

theorem ofNat_val_ge (n : Nat) : (n : ℚ) * (1 - 1 / 2 ^ 24) ≤ (Float32.ofNat n).val := by
  have := ofRatio_ge n 1 (by norm_num)
  simpa [Float32.ofNat] using this

theorem averageOf_den_pos (n : Nat) : 0 < (averageOf n).den :=
  ofRatio_den_pos _ _

theorem num_pos_of_val_pos (x : Float32) (h : 0 < x.val) : 0 < x.num := by
  unfold Float32.val at h
  rcases Nat.eq_zero_or_pos x.num with h0 | h0
  · rw [h0] at h
    simp at h
  · exact h0

theorem div_ratio (x y : Float32) (hx : 0 < x.den) (hy : 0 < y.num) :
    ((x.num * y.den : Nat) : ℚ) / ((x.den * y.num : Nat) : ℚ) = x.val / y.val := by
  unfold Float32.val
  have h1 : (x.den : ℚ) ≠ 0 := by exact_mod_cast hx.ne'
  have h2 : (y.num : ℚ) ≠ 0 := by exact_mod_cast hy.ne'
  push_cast
  by_cases h3 : (y.den : ℚ) = 0
  · rw [h3]; simp
  · field_simp

theorem averageOf_val_le (n : Nat) (hn : 0 < n) :
    (averageOf n).val ≤ 1 / ((n : ℚ) * (1 - 1 / 2 ^ 24)) * (1 + 1 / 2 ^ 24) := by
  have hnQ : (0 : ℚ) < n := by exact_mod_cast hn
  have hN := ofNat_val_ge n
  have hNpos : (0 : ℚ) < (n : ℚ) * (1 - 1 / 2 ^ 24) := by
    apply mul_pos hnQ
    norm_num
  have hNv : 0 < (Float32.ofNat n).val := lt_of_lt_of_le hNpos hN
  have hnum := num_pos_of_val_pos _ hNv
  have h1 : (Float32.ofNat 1).val = 1 := by
    have := ofNat_exact 1 (by norm_num)
    simpa using this
  have h := ofRatio_le ((Float32.ofNat 1).num * (Float32.ofNat n).den)
    ((Float32.ofNat 1).den * (Float32.ofNat n).num)
    (Nat.mul_pos (ofNat_den_pos 1) hnum)
  rw [div_ratio _ _ (ofNat_den_pos 1) hnum, h1] at h
  unfold averageOf Float32.div
  refine le_trans h ?_
  apply mul_le_mul_of_nonneg_right _ (by norm_num)
  exact one_div_le_one_div_of_le hNpos hN

theorem averageOf_val_exact (n : Nat) (hn : 0 < n) (hn2 : n < 2 ^ 24) :
    (1 : ℚ) / n * (1 - 1 / 2 ^ 24) ≤ (averageOf n).val ∧
      (averageOf n).val ≤ (1 : ℚ) / n * (1 + 1 / 2 ^ 24) := by
  have hnQ : (0 : ℚ) < n := by exact_mod_cast hn
  have hN := ofNat_exact n hn2
  have hNv : 0 < (Float32.ofNat n).val := by rw [hN]; exact hnQ
  have hnum := num_pos_of_val_pos _ hNv
  have h1 : (Float32.ofNat 1).val = 1 := by
    have := ofNat_exact 1 (by norm_num)
    simpa using this
  have hl := ofRatio_le ((Float32.ofNat 1).num * (Float32.ofNat n).den)
    ((Float32.ofNat 1).den * (Float32.ofNat n).num)
    (Nat.mul_pos (ofNat_den_pos 1) hnum)
  have hg := ofRatio_ge ((Float32.ofNat 1).num * (Float32.ofNat n).den)
    ((Float32.ofNat 1).den * (Float32.ofNat n).num)
    (Nat.mul_pos (ofNat_den_pos 1) hnum)
  rw [div_ratio _ _ (ofNat_den_pos 1) hnum, h1, hN] at hl hg
  unfold averageOf Float32.div
  exact ⟨hg, hl⟩

theorem toUint8_eq (x : Float32) : x.toUint8 = ⌊x.val⌋₊ % 256 := by
  unfold Float32.toUint8 Float32.val
  rw [Nat.floor_div_eq_div]

theorem scaleChannel_eq (a : Float32) (s : Nat) :
    scaleChannel a s = ⌊(Float32.mul (Float32.ofNat s) a).val⌋₊ % 256 := by
  unfold scaleChannel
  rw [toUint8_eq]

/-- The product never reaches `M + 1` when the sum is at most `M` times the
number of window positions. -/
theorem scale_val_lt (n s M : Nat) (hn : 0 < n) (hM : M ≤ 255) (hs : s ≤ M * n) :
    (Float32.mul (Float32.ofNat s) (averageOf n)).val < (M : ℚ) + 1 := by
  have hnQ : (0 : ℚ) < n := by exact_mod_cast hn
  have hMQ : (M : ℚ) ≤ 255 := by exact_mod_cast hM
  have hM0 : (0 : ℚ) ≤ M := by positivity
  have hsQ : (s : ℚ) ≤ (M : ℚ) * n := by exact_mod_cast hs
  have hX := ofNat_val_le s
  have hA := averageOf_val_le n hn
  have hP := mul_val_le (Float32.ofNat s) (averageOf n) (ofNat_den_pos s) (averageOf_den_pos n)
  have hX0 := val_nonneg (Float32.ofNat s)
  have hA0 := val_nonneg (averageOf n)
  have hX' : (Float32.ofNat s).val ≤ (M : ℚ) * n * (1 + 1 / 2 ^ 24) :=
    le_trans hX (mul_le_mul_of_nonneg_right hsQ (by norm_num))
  have hXA : (Float32.ofNat s).val * (averageOf n).val
      ≤ ((M : ℚ) * n * (1 + 1 / 2 ^ 24)) * (1 / ((n : ℚ) * (1 - 1 / 2 ^ 24)) * (1 + 1 / 2 ^ 24)) :=
    mul_le_mul hX' hA hA0 (by positivity)
  have hsimp : ((M : ℚ) * n * (1 + 1 / 2 ^ 24)) * (1 / ((n : ℚ) * (1 - 1 / 2 ^ 24)) * (1 + 1 / 2 ^ 24))
      = (M : ℚ) * ((1 + 1 / 2 ^ 24) * (1 + 1 / 2 ^ 24) / (1 - 1 / 2 ^ 24)) := by
    field_simp
    ring
  rw [hsimp] at hXA
  have hfin : (Float32.mul (Float32.ofNat s) (averageOf n)).val
      ≤ (M : ℚ) * ((1 + 1 / 2 ^ 24) * (1 + 1 / 2 ^ 24) / (1 - 1 / 2 ^ 24)) * (1 + 1 / 2 ^ 24) :=
    le_trans hP (mul_le_mul_of_nonneg_right hXA (by norm_num))
  refine lt_of_le_of_lt hfin ?_
  have hc : ((1 : ℚ) + 1 / 2 ^ 24) * (1 + 1 / 2 ^ 24) / (1 - 1 / 2 ^ 24) * (1 + 1 / 2 ^ 24)
      ≤ 1 + 1 / 1000 := by norm_num
  calc (M : ℚ) * ((1 + 1 / 2 ^ 24) * (1 + 1 / 2 ^ 24) / (1 - 1 / 2 ^ 24)) * (1 + 1 / 2 ^ 24)
      = (M : ℚ) * ((1 + 1 / 2 ^ 24) * (1 + 1 / 2 ^ 24) / (1 - 1 / 2 ^ 24) * (1 + 1 / 2 ^ 24)) := by
        ring
    _ ≤ (M : ℚ) * (1 + 1 / 1000) := mul_le_mul_of_nonneg_left hc hM0
    _ < (M : ℚ) + 1 := by linarith

theorem scaleChannel_le (n s M : Nat) (hn : 0 < n) (hM : M ≤ 255) (hs : s ≤ M * n) :
    (Float32.mul (Float32.ofNat s) (averageOf n)).num
        / (Float32.mul (Float32.ofNat s) (averageOf n)).den ≤ M ∧
      scaleChannel (averageOf n) s ≤ M := by
  have h := scale_val_lt n s M hn hM hs
  have hfl : ⌊(Float32.mul (Float32.ofNat s) (averageOf n)).val⌋₊ ≤ M := by
    have : ⌊(Float32.mul (Float32.ofNat s) (averageOf n)).val⌋₊ < M + 1 := by
      rw [Nat.floor_lt (val_nonneg _)]
      exact_mod_cast h
    omega
  constructor
  · have := hfl
    unfold Float32.val at this
    rw [Nat.floor_div_eq_div] at this
    exact this
  · rw [scaleChannel_eq]
    exact le_trans (Nat.mod_le _ _) hfl

theorem scaleChannel_mono (a : Float32) (ha : 0 < a.den) (s s' : Nat) (h : s ≤ s')
    (hlt : (Float32.mul (Float32.ofNat s') a).num / (Float32.mul (Float32.ofNat s') a).den < 256) :
    scaleChannel a s ≤ scaleChannel a s' := by
  have hv := mul_mono_left _ _ a (ofNat_den_pos s) (ofNat_den_pos s') ha (ofNat_mono s s' h)
  have hfl := Nat.floor_le_floor hv
  have e' : ⌊(Float32.mul (Float32.ofNat s') a).val⌋₊
      = (Float32.mul (Float32.ofNat s') a).num / (Float32.mul (Float32.ofNat s') a).den := by
    unfold Float32.val
    rw [Nat.floor_div_eq_div]
  rw [scaleChannel_eq, scaleChannel_eq]
  rw [e'] at hfl ⊢
  rw [Nat.mod_eq_of_lt hlt]
  exact le_trans (Nat.mod_le _ _) hfl
theorem ofRatio_below_integer : ∀ c, c < 256 →
    c * (Float32.ofRatio (c * (2 ^ 25 - 1)) (2 ^ 25)).den
      ≤ (Float32.ofRatio (c * (2 ^ 25 - 1)) (2 ^ 25)).num := by
  decide!

/-- When `1.0f / n` is not below `(1 - 2 ^ (-25)) / n`, the scaled sum is the
integer quotient, for every sum a window of `n` positions can have. -/
theorem scaleChannel_exact (n : Nat) (hn : 0 < n) (hn2 : n ≤ 2 ^ 14)
    (hA : (2 ^ 25 - 1) * (averageOf n).den ≤ 2 ^ 25 * n * (averageOf n).num)
    (s : Nat) (hs : s ≤ 255 * n) : scaleChannel (averageOf n) s = s / n := by
  have hnQ : (0 : ℚ) < n := by exact_mod_cast hn
  have hn2Q : (n : ℚ) ≤ 2 ^ 14 := by exact_mod_cast hn2
  have hden := averageOf_den_pos n
  have hdenQ : (0 : ℚ) < (averageOf n).den := by exact_mod_cast hden
  have hs24 : s < 2 ^ 24 := by
    have : 255 * n ≤ 255 * 2 ^ 14 := Nat.mul_le_mul_left _ hn2
    norm_num at this ⊢
    omega
  have hX := ofNat_exact s hs24
  obtain ⟨_, hAle⟩ := averageOf_val_exact n hn (by
    have : (2 : Nat) ^ 14 < 2 ^ 24 := by norm_num
    omega)
  have hAge : ((2 : ℚ) ^ 25 - 1) / (2 ^ 25 * n) ≤ (averageOf n).val := by
    unfold Float32.val
    rw [div_le_div_iff₀ (by positivity) hdenQ]
    have : (((2 ^ 25 - 1) * (averageOf n).den : Nat) : ℚ)
        ≤ ((2 ^ 25 * n * (averageOf n).num : Nat) : ℚ) := by exact_mod_cast hA
    push_cast at this
    linarith
  have hc : s / n ≤ 255 := by
    rw [Nat.div_le_iff_le_mul_add_pred hn]
    omega
  have hcn : (s / n) * n ≤ s := Nat.div_mul_le_self s n
  have hcn2 : s < (s / n + 1) * n := by
    have := Nat.div_add_mod s n
    have := Nat.mod_lt s hn
    nlinarith
  have hcnQ : ((s / n : Nat) : ℚ) * n ≤ s := by exact_mod_cast hcn
  have hcn2Q : (s : ℚ) + 1 ≤ (((s / n : Nat) : ℚ) + 1) * n := by
    have : s + 1 ≤ (s / n + 1) * n := hcn2
    exact_mod_cast this
  have hcQ : ((s / n : Nat) : ℚ) ≤ 255 := by exact_mod_cast hc
  have hc0 : (0 : ℚ) ≤ ((s / n : Nat) : ℚ) := by positivity
  have hA0 := val_nonneg (averageOf n)
  -- the product is below the next integer
  have hup : (Float32.mul (Float32.ofNat s) (averageOf n)).val < ((s / n : Nat) : ℚ) + 1 := by
    have hP := mul_val_le (Float32.ofNat s) (averageOf n) (ofNat_den_pos s) hden
    rw [hX] at hP
    have h1 : (s : ℚ) * (averageOf n).val ≤ (s : ℚ) * (1 / n * (1 + 1 / 2 ^ 24)) :=
      mul_le_mul_of_nonneg_left hAle (by positivity)
    have h2 : (s : ℚ) * (1 / n * (1 + 1 / 2 ^ 24))
        ≤ ((((s / n : Nat) : ℚ) + 1) * n - 1) * (1 / n * (1 + 1 / 2 ^ 24)) := by
      apply mul_le_mul_of_nonneg_right _ (by positivity)
      linarith
    have h3 : ((((s / n : Nat) : ℚ) + 1) * n - 1) * (1 / n * (1 + 1 / 2 ^ 24))
        = (((s / n : Nat) : ℚ) + 1 - 1 / n) * (1 + 1 / 2 ^ 24) := by
      field_simp
    have h4 : (Float32.mul (Float32.ofNat s) (averageOf n)).val
        ≤ (((s / n : Nat) : ℚ) + 1 - 1 / n) * (1 + 1 / 2 ^ 24) * (1 + 1 / 2 ^ 24) := by
      refine le_trans hP ?_
      apply mul_le_mul_of_nonneg_right _ (by norm_num)
      linarith
    have h5 : (1 : ℚ) / 2 ^ 14 ≤ 1 / n := one_div_le_one_div_of_le hnQ hn2Q
    refine lt_of_le_of_lt h4 ?_
    generalize ((s / n : Nat) : ℚ) = c at hcQ hc0 ⊢
    generalize (1 : ℚ) / n = t at h5 ⊢
    have e : (c + 1 - t) * (1 + 1 / 2 ^ 24) * (1 + 1 / 2 ^ 24)
        = (c + 1) + (c + 1) * ((1 + 1 / 2 ^ 24) * (1 + 1 / 2 ^ 24) - 1)
          - t * ((1 + 1 / 2 ^ 24) * (1 + 1 / 2 ^ 24)) := by ring
    rw [e]
    have e1 : (c + 1) * (((1 : ℚ) + 1 / 2 ^ 24) * (1 + 1 / 2 ^ 24) - 1)
        ≤ 256 * (((1 : ℚ) + 1 / 2 ^ 24) * (1 + 1 / 2 ^ 24) - 1) :=
      mul_le_mul_of_nonneg_right (by linarith) (by norm_num)
    have e2 : (1 : ℚ) / 2 ^ 14 * ((1 + 1 / 2 ^ 24) * (1 + 1 / 2 ^ 24))
        ≤ t * ((1 + 1 / 2 ^ 24) * (1 + 1 / 2 ^ 24)) :=
      mul_le_mul_of_nonneg_right h5 (by norm_num)
    have e3 : (256 : ℚ) * (((1 : ℚ) + 1 / 2 ^ 24) * (1 + 1 / 2 ^ 24) - 1)
        < (1 : ℚ) / 2 ^ 14 * ((1 + 1 / 2 ^ 24) * (1 + 1 / 2 ^ 24)) := by norm_num
    linarith
  -- the product is not below the quotient
  have hlo : ((s / n : Nat) : ℚ) ≤ (Float32.mul (Float32.ofNat s) (averageOf n)).val := by
    have hb := ofRatio_below_integer (s / n) (by omega)
    have hdB := ofRatio_den_pos ((s / n) * (2 ^ 25 - 1)) (2 ^ 25)
    have hB : ((s / n : Nat) : ℚ)
        ≤ (Float32.ofRatio ((s / n) * (2 ^ 25 - 1)) (2 ^ 25)).val := by
      unfold Float32.val
      rw [le_div_iff₀ (by exact_mod_cast hdB)]
      exact_mod_cast hb
    refine le_trans hB ?_
    unfold Float32.mul
    apply ofRatio_mono_val _ _ _ _ (by norm_num) (Nat.mul_pos (ofNat_den_pos s) hden)
    rw [mul_ratio, hX]
    have h1 : ((s / n : Nat) : ℚ) * n * (averageOf n).val ≤ (s : ℚ) * (averageOf n).val :=
      mul_le_mul_of_nonneg_right hcnQ hA0
    have h2 : ((s / n : Nat) : ℚ) * n * (((2 : ℚ) ^ 25 - 1) / (2 ^ 25 * n))
        ≤ ((s / n : Nat) : ℚ) * n * (averageOf n).val :=
      mul_le_mul_of_nonneg_left hAge (by positivity)
    have h3 : ((s / n : Nat) : ℚ) * n * (((2 : ℚ) ^ 25 - 1) / (2 ^ 25 * n))
        = (((s / n) * (2 ^ 25 - 1) : Nat) : ℚ) / ((2 ^ 25 : Nat) : ℚ) := by
      push_cast
      field_simp
      ring
    rw [← h3]
    linarith
  have hfl : ⌊(Float32.mul (Float32.ofNat s) (averageOf n)).val⌋₊ = s / n := by
    rw [Nat.floor_eq_iff (le_trans hc0 hlo)]
    exact ⟨hlo, hup⟩
  rw [scaleChannel_eq, hfl]
  exact Nat.mod_eq_of_lt (by omega)

theorem demo_sizes_exact : ∀ k, k ∈ [3, 5, 7, 15, 29, 41, 73, 101] →
    (2 ^ 25 - 1) * (averageOf (k * k)).den ≤ 2 ^ 25 * (k * k) * (averageOf (k * k)).num := by
  decide!

/-! ## A returning call has a valid kernel size -/

theorem length_windowOffsets (half : Nat) : (windowOffsets half).length = 2 * half + 1 := by
  simp [windowOffsets]

theorem le_foldr_max (l : List Nat) : ∀ x, x ∈ l → x ≤ l.foldr max 0 := by
  induction l with
  | nil => intro x hx; simp at hx
  | cons a l ih =>
    intro x hx
    simp only [List.foldr_cons]
    rcases List.mem_cons.mp hx with h | h
    · rw [h]; exact le_max_left _ _
    · exact le_trans (ih x h) (le_max_right _ _)

theorem foldr_max_le (l : List Nat) (B : Nat) (h : ∀ x, x ∈ l → x ≤ B) : l.foldr max 0 ≤ B := by
  induction l with
  | nil => simp
  | cons a l ih =>
    simp only [List.foldr_cons]
    exact max_le (h a (List.mem_cons_self _ _))
      (ih fun x hx => h x (List.mem_cons_of_mem _ hx))

theorem sum_map_le_length_mul {α : Type} (l : List α) (f : α → Nat) (B : Nat)
    (h : ∀ x, x ∈ l → f x ≤ B) : (l.map f).sum ≤ l.length * B := by
  induction l with
  | nil => simp
  | cons a l ih =>
    simp only [List.map_cons, List.sum_cons, List.length_cons]
    have h1 := h a (List.mem_cons_self _ _)
    have h2 := ih fun x hx => h x (List.mem_cons_of_mem _ hx)
    have : (l.length + 1) * B = l.length * B + B := by ring
    omega

theorem sum_map_le_sum_map {α : Type} (l : List α) (f g : α → Nat)
    (h : ∀ x, x ∈ l → f x ≤ g x) : (l.map f).sum ≤ (l.map g).sum := by
  induction l with
  | nil => simp
  | cons a l ih =>
    simp only [List.map_cons, List.sum_cons]
    have h1 := h a (List.mem_cons_self _ _)
    have h2 := ih fun x hx => h x (List.mem_cons_of_mem _ hx)
    omega

theorem specWindowSum_le_max (s : SDL_Surface) (k : Nat) (channel : SDL_Color → Nat)
    (row col : Int) :
    specWindowSum s k channel row col
      ≤ specWindowMax s k channel row col
        * ((2 * ((k - 1) / 2) + 1) * (2 * ((k - 1) / 2) + 1)) := by
  unfold specWindowSum
  have hM : ∀ dr, dr ∈ windowOffsets ((k - 1) / 2) → ∀ dc, dc ∈ windowOffsets ((k - 1) / 2) →
      (if insideImage s (row + dr) (col + dc) then
        channel (SDL_GetRGBA (s.pixels.getD ((row + dr) * s.w + (col + dc)).toNat 0))
      else 0) ≤ specWindowMax s k channel row col := by
    intro dr hdr dc hdc
    unfold specWindowMax
    refine le_trans ?_ (le_foldr_max _ _ (List.mem_map_of_mem _ hdr))
    exact le_foldr_max _ _ (List.mem_map_of_mem
      (fun dc => if insideImage s (row + dr) (col + dc) then
        channel (SDL_GetRGBA (s.pixels.getD ((row + dr) * s.w + (col + dc)).toNat 0))
      else 0) hdc)
  have hin : ∀ dr, dr ∈ windowOffsets ((k - 1) / 2) →
      ((windowOffsets ((k - 1) / 2)).map fun dc =>
        if insideImage s (row + dr) (col + dc) then
          channel (SDL_GetRGBA (s.pixels.getD ((row + dr) * s.w + (col + dc)).toNat 0))
        else 0).sum ≤ (2 * ((k - 1) / 2) + 1) * specWindowMax s k channel row col := by
    intro dr hdr
    have := sum_map_le_length_mul (windowOffsets ((k - 1) / 2)) _ _ (hM dr hdr)
    rw [length_windowOffsets] at this
    exact this
  have := sum_map_le_length_mul (windowOffsets ((k - 1) / 2)) _ _ hin
  rw [length_windowOffsets] at this
  refine le_trans this (le_of_eq ?_)
  ring

theorem specWindowMax_le (s : SDL_Surface) (k : Nat) (channel : SDL_Color → Nat)
    (B : Nat) (hch : ∀ p, channel (SDL_GetRGBA p) ≤ B) (row col : Int) :
    specWindowMax s k channel row col ≤ B := by
  unfold specWindowMax
  apply foldr_max_le
  intro x hx
  obtain ⟨dr, _, rfl⟩ := List.mem_map.mp hx
  apply foldr_max_le
  intro y hy
  obtain ⟨dc, _, rfl⟩ := List.mem_map.mp hy
  split
  · exact hch _
  · exact Nat.zero_le _

theorem channel_r_le (p : Nat) : (SDL_GetRGBA p).r ≤ 255 := by
  have := Nat.mod_lt p (show 0 < 256 by norm_num)
  simp only [SDL_GetRGBA]
  omega

theorem channel_g_le (p : Nat) : (SDL_GetRGBA p).g ≤ 255 := by
  have := Nat.mod_lt (p / 2 ^ 8) (show 0 < 256 by norm_num)
  simp only [SDL_GetRGBA]
  omega

theorem channel_b_le (p : Nat) : (SDL_GetRGBA p).b ≤ 255 := by
  have := Nat.mod_lt (p / 2 ^ 16) (show 0 < 256 by norm_num)
  simp only [SDL_GetRGBA]
  omega

theorem odd_window (k : Nat) (hodd : k % 2 = 1) : 2 * ((k - 1) / 2) + 1 = k := by
  omega

theorem specWindowSum_le (s : SDL_Surface) (k : Nat) (hodd : k % 2 = 1)
    (channel : SDL_Color → Nat) (hch : ∀ p, channel (SDL_GetRGBA p) ≤ 255) (row col : Int) :
    specWindowSum s k channel row col ≤ 255 * (k * k) := by
  have h1 := specWindowSum_le_max s k channel row col
  have h2 := specWindowMax_le s k channel 255 hch row col
  rw [odd_window k hodd] at h1
  exact le_trans h1 (Nat.mul_le_mul_right _ h2)

theorem insideImage_iff (s : SDL_Surface) (r c : Int) :
    insideImage s r c = true ↔ 0 ≤ r ∧ r < s.h ∧ 0 ≤ c ∧ c < s.w := by
  unfold insideImage
  simp

theorem specWindowSum_mono (a b : SDL_Surface) (hw : a.w = b.w) (hh : a.h = b.h) (k : Nat)
    (channel : SDL_Color → Nat)
    (hle : ∀ i, i < a.w * a.h →
      channel (SDL_GetRGBA (a.pixels.getD i 0)) ≤ channel (SDL_GetRGBA (b.pixels.getD i 0)))
    (row col : Int) :
    specWindowSum a k channel row col ≤ specWindowSum b k channel row col := by
  unfold specWindowSum
  apply sum_map_le_sum_map
  intro dr _
  apply sum_map_le_sum_map
  intro dc _
  have hin : insideImage b (row + dr) (col + dc) = insideImage a (row + dr) (col + dc) := by
    unfold insideImage
    rw [hw, hh]
  rw [hin, ← hw]
  cases hi : insideImage a (row + dr) (col + dc) with
  | false => simp
  | true =>
    simp only [if_true]
    obtain ⟨h1, h2, h3, h4⟩ := (insideImage_iff a _ _).mp hi
    exact hle _ (index_lt a.w a.h _ _ h1 h2 h3 h4)

/-! ## Uniform images and the number of window positions inside the image -/

theorem sum_map_ite_const {α : Type} (l : List α) (p : α → Bool) (f : α → Nat) (c : Nat)
    (h : ∀ x, x ∈ l → p x = true → f x = c) :
    (l.map fun x => if p x then f x else 0).sum
      = c * (l.map fun x => if p x then 1 else 0).sum := by
  induction l with
  | nil => simp
  | cons a l ih =>
    simp only [List.map_cons, List.sum_cons]
    rw [ih fun x hx => h x (List.mem_cons_of_mem _ hx), Nat.mul_add]
    congr 1
    cases hp : p a with
    | false => simp
    | true => simp [h a (List.mem_cons_self _ _) hp]

theorem specWindowSum_uniform (w h r g b a k : Nat) (channel : SDL_Color → Nat)
    (row col : Int) :
    specWindowSum (uniformImage w h r g b a) k channel row col
      = channel (SDL_GetRGBA (SDL_MapRGBA r g b a))
        * specWindowCount (uniformImage w h r g b a) k row col := by
  unfold specWindowSum specWindowCount
  rw [← List.sum_map_mul_left]
  congr 1
  apply List.map_congr_left
  intro dr _
  apply sum_map_ite_const _ (fun dc => insideImage (uniformImage w h r g b a) (row + dr) (col + dc))
  intro dc _ hin
  obtain ⟨h1, h2, h3, h4⟩ := (insideImage_iff _ _ _).mp hin
  have hidx := index_lt (uniformImage w h r g b a).w (uniformImage w h r g b a).h _ _ h1 h2 h3 h4
  have hpix : (uniformImage w h r g b a).pixels.getD
      ((row + dr) * ((uniformImage w h r g b a).w : Int) + (col + dc)).toNat 0
        = SDL_MapRGBA r g b a := by
    rw [List.getD_eq_getElem?_getD]
    have hlen : ((row + dr) * ((uniformImage w h r g b a).w : Int) + (col + dc)).toNat
        < (uniformImage w h r g b a).pixels.length := by
      simp only [uniformImage, List.length_replicate] at hidx ⊢
      exact hidx
    rw [List.getElem?_eq_getElem hlen]
    simp [uniformImage]
  rw [hpix]

theorem specWindowCount_eq (s : SDL_Surface) (k : Nat) (row col : Int) :
    specWindowCount s k row col
      = ((windowOffsets ((k - 1) / 2)).map fun dr =>
            if 0 ≤ row + dr ∧ row + dr < s.h then 1 else 0).sum
        * ((windowOffsets ((k - 1) / 2)).map fun dc =>
            if 0 ≤ col + dc ∧ col + dc < s.w then 1 else 0).sum := by
  unfold specWindowCount
  rw [← List.sum_map_mul_right]
  congr 1
  apply List.map_congr_left
  intro dr _
  rw [← List.sum_map_mul_left]
  congr 1
  apply List.map_congr_left
  intro dc _
  unfold insideImage
  by_cases hA : 0 ≤ row + dr ∧ row + dr < s.h
  · by_cases hB : 0 ≤ col + dc ∧ col + dc < s.w
    · simp [hA, hB]
    · have : ¬ (0 ≤ row + dr ∧ row + dr < ↑s.h ∧ 0 ≤ col + dc ∧ col + dc < ↑s.w) :=
        fun h => hB ⟨h.2.2.1, h.2.2.2⟩
      simp [hA, hB, this]
  · have : ¬ (0 ≤ row + dr ∧ row + dr < ↑s.h ∧ 0 ≤ col + dc ∧ col + dc < ↑s.w) :=
      fun h => hA ⟨h.1, h.2.1⟩
    simp [hA, this]

theorem mem_windowOffsets (half : Nat) (d : Int) (h : d ∈ windowOffsets half) :
    -(half : Int) ≤ d ∧ d ≤ half := by
  unfold windowOffsets at h
  obtain ⟨j, hj, rfl⟩ := List.mem_map.mp h
  have := List.mem_range.mp hj
  omega

theorem sum_map_ite_all {α : Type} (l : List α) (p : α → Prop) [DecidablePred p]
    (h : ∀ x, x ∈ l → p x) : (l.map fun x => if p x then 1 else 0).sum = l.length := by
  induction l with
  | nil => simp
  | cons a l ih =>
    simp only [List.map_cons, List.sum_cons, List.length_cons]
    rw [ih fun x hx => h x (List.mem_cons_of_mem _ hx), if_pos (h a (List.mem_cons_self _ _))]
    omega

/-- A window that lies inside the image has all its positions inside. -/
theorem specWindowCount_interior (s : SDL_Surface) (k : Nat) (hodd : k % 2 = 1) (row col : Nat)
    (h1 : (k - 1) / 2 ≤ row) (h2 : row + (k - 1) / 2 < s.h) (h3 : (k - 1) / 2 ≤ col)
    (h4 : col + (k - 1) / 2 < s.w) : specWindowCount s k row col = k * k := by
  rw [specWindowCount_eq, sum_map_ite_all, sum_map_ite_all, length_windowOffsets,
    odd_window k hodd]
  · intro d hd
    have := mem_windowOffsets _ d hd
    omega
  · intro d hd
    have := mem_windowOffsets _ d hd
    omega

theorem blurReady_loadedState (s : SDL_Surface) (hwf : s.WellFormed) (ok : Bool) :
    BlurReady ⟨true, ok⟩ (loadedState s) s
      { w := s.w, h := s.h, pixels := List.replicate (s.w * s.h) 0 } := by
  refine ⟨rfl, hwf, rfl, rfl, rfl, ?_⟩
  simp

/-! ## Transposition -/

theorem transpose_wellFormed (s : SDL_Surface) (h : s.WellFormed) :
    (transposeSurface s).WellFormed := by
  obtain ⟨hw, hh, hlen, hp⟩ := h
  refine ⟨hh, hw, by simp [transposeSurface], ?_⟩
  intro p hmem
  simp only [transposeSurface] at hmem
  obtain ⟨i, _, rfl⟩ := List.mem_map.mp hmem
  rw [List.getD_eq_getElem?_getD]
  cases hq : s.pixels[i % s.h * s.w + i / s.h]? with
  | none => simp
  | some q =>
    simp only [Option.getD_some]
    exact hp q (List.mem_iff_getElem?.mpr ⟨_, hq⟩)

/-! ## Channels of uniform images, and the kernel sizes of the demo -/

theorem getRGBA_mapRGBA_mod (r g b a : Nat) :
    SDL_GetRGBA (SDL_MapRGBA r g b a)
      = { r := r % 256, g := g % 256, b := b % 256, a := a % 256 } := by
  have e : SDL_MapRGBA r g b a = SDL_MapRGBA (r % 256) (g % 256) (b % 256) (a % 256) := by
    simp [SDL_MapRGBA, Nat.mod_mod]
  rw [e]
  exact getRGBA_mapRGBA _ _ _ _ (Nat.mod_lt _ (by norm_num)) (Nat.mod_lt _ (by norm_num))
    (Nat.mod_lt _ (by norm_num)) (Nat.mod_lt _ (by norm_num))

theorem truncatedProduct_mod (average : Float32) (sum : Nat) :
    scaleChannel average sum = truncatedProduct average sum % 256 := rfl

/-- The output at a pixel of a uniform image whose window lies inside the image. -/
theorem blurredAt_uniform_interior (env : Backend) (st : State) (sf : SDL_Surface)
    (w h r g b a k : Nat) (hready : BlurReady env st (uniformImage w h r g b a) sf)
    (hodd : k % 2 = 1) (hk : k * k < 2 ^ 31) (row col : Nat)
    (h1 : (k - 1) / 2 ≤ row) (h2 : row + (k - 1) / 2 < h) (h3 : (k - 1) / 2 ≤ col)
    (h4 : col + (k - 1) / 2 < w) :
    blurredAt (MyImage_blur env st .global .valid k) row col
      = some
        { r := scaleChannel (averageOf (k * k)) (r % 256 * (k * k) % 2 ^ 32)
          g := scaleChannel (averageOf (k * k)) (g % 256 * (k * k) % 2 ^ 32)
          b := scaleChannel (averageOf (k * k)) (b % 256 * (k * k) % 2 ^ 32)
          a := 255 } := by
  have hr : row < (uniformImage w h r g b a).h := by
    show row < h
    omega
  have hc : col < (uniformImage w h r g b a).w := by
    show col < w
    omega
  rw [blurredAt_eq_spec env st _ sf k hready hodd hk row col hr hc]
  simp only [specWindowSum_uniform, getRGBA_mapRGBA_mod]
  rw [specWindowCount_interior _ k hodd row col h1 h2 h3 h4]

/-! ## The scaled sum against the brightest sample -/

theorem scaleChannel_sum_mono (k : Nat) (hodd : k % 2 = 1) (s s' : Nat) (h : s ≤ s')
    (hs' : s' ≤ 255 * (k * k)) :
    scaleChannel (averageOf (k * k)) s ≤ scaleChannel (averageOf (k * k)) s' := by
  have hpos : 0 < k * k := by
    have : 0 < k := by omega
    exact Nat.mul_pos this this
  obtain ⟨h1, _⟩ := scaleChannel_le (k * k) s' 255 hpos (le_refl _) hs'
  exact scaleChannel_mono _ (averageOf_den_pos _) s s' h (by omega)

/-! ## The window against the size of the image -/

theorem count_inside_range (half : Nat) (x : Int) (n : Nat) : ∀ K : Nat,
    ((List.range K).map fun (j : Nat) =>
        if 0 ≤ x + ((j : Int) - (half : Int)) ∧ x + ((j : Int) - (half : Int)) < (n : Int)
        then 1 else 0).sum
      ≤ min n (x - (half : Int) + (K : Int)).toNat := by
  intro K
  induction K with
  | zero => simp
  | succ K ih =>
    rw [List.range_succ, List.map_append, List.sum_append]
    simp only [List.map_cons, List.map_nil, List.sum_cons, List.sum_nil]
    split_ifs with hc
    · have h1 : min n (x - (half : Int) + (K : Int)).toNat ≤ (x - (half : Int) + (K : Int)).toNat :=
        Nat.min_le_right _ _
      have h2 : (x - (half : Int) + ((K + 1 : Nat) : Int)).toNat
          = (x - (half : Int) + (K : Int)).toNat + 1 := by
        push_cast
        omega
      have h3 : (x - (half : Int) + (K : Int)).toNat + 1 ≤ n := by omega
      rw [h2]
      have h4 := le_trans ih h1
      exact le_min (by omega) (by omega)
    · have h1 : min n (x - (half : Int) + (K : Int)).toNat
          ≤ min n (x - (half : Int) + ((K + 1 : Nat) : Int)).toNat := by
        apply min_le_min (le_refl _)
        push_cast
        omega
      omega

theorem count_inside_le (half : Nat) (x : Int) (n : Nat) :
    ((windowOffsets half).map fun d => if 0 ≤ x + d ∧ x + d < (n : Int) then 1 else 0).sum
      ≤ n := by
  rw [map_windowOffsets]
  exact le_trans (count_inside_range half x n (2 * half + 1)) (Nat.min_le_left _ _)

theorem specWindowCount_le (s : SDL_Surface) (k : Nat) (row col : Int) :
    specWindowCount s k row col ≤ s.w * s.h := by
  rw [specWindowCount_eq, Nat.mul_comm s.w s.h]
  exact Nat.mul_le_mul (count_inside_le _ row s.h) (count_inside_le _ col s.w)

theorem specWindowSum_le_count (s : SDL_Surface) (k : Nat) (channel : SDL_Color → Nat)
    (hch : ∀ p, channel (SDL_GetRGBA p) ≤ 255) (row col : Int) :
    specWindowSum s k channel row col ≤ 255 * specWindowCount s k row col := by
  unfold specWindowSum specWindowCount
  rw [← List.sum_map_mul_left]
  apply sum_map_le_sum_map
  intro dr _
  rw [← List.sum_map_mul_left]
  apply sum_map_le_sum_map
  intro dc _
  split
  · simpa using hch _
  · simp

theorem specWindowSum_lt_wrap (s : SDL_Surface) (k : Nat) (hodd : k % 2 = 1)
    (channel : SDL_Color → Nat) (hch : ∀ p, channel (SDL_GetRGBA p) ≤ 255) (row col : Int)
    (h : 255 * (k * k) < 2 ^ 32 ∨ 255 * (s.w * s.h) < 2 ^ 32) :
    specWindowSum s k channel row col < 2 ^ 32 := by
  rcases h with h | h
  · exact lt_of_le_of_lt (specWindowSum_le s k hodd channel hch row col) h
  · refine lt_of_le_of_lt (le_trans (specWindowSum_le_count s k channel hch row col) ?_) h
    exact Nat.mul_le_mul_left _ (specWindowCount_le s k row col)

/-! ## Publication after a transform -/

/-- Claim C22 fails on the code: on a 2 x 2 image with its scratch surface, a call of
`MyImage_blur` with kernel size 3 in which the back end cannot create the texture
returns true, although the image is left without texture and the window shows
nothing.  `MyImage_blur` discards the result of
`MyImage_update_texture_with_surface`; `MyImage_restore_texture` and `load_rgba32`
test the result of the same call and return false. -/
theorem C22_blur_hides_publish_failure :
    ((MyImage_blur ⟨true, false⟩ (loadedState (uniformImage 2 2 10 20 30 40)) .global .valid
        3).map fun r => (r.1, r.2.g_image.texture, displayed r.2)) = some (true, none, none) ∧
      ((MyImage_restore_texture false (loadedState (uniformImage 2 2 10 20 30 40)) .global
        .valid).map fun r => r.1) = some false ∧
      (load_rgba32 ⟨true, some (uniformImage 2 2 10 20 30 40), false⟩ initialState
        (some IMAGE_FILENAME) .valid .global).1 = false := by
  decide!

/-- Claim C28.  When `MyImage_update_texture_with_surface` is called with a null image,
a null renderer or a null surface it returns false and leaves the whole state as it
was: the texture of the image is not destroyed and stays the texture of the image, and
the rectangle is unchanged. -/
theorem C28_publish_rejects_null_arguments (ok : Bool) (st : State) (image : MyImagePtr)
    (renderer : RendererPtr) (surface : Option SDL_Surface)
    (h : image = .null ∨ renderer = .null ∨ surface = none) :
    MyImage_update_texture_with_surface ok st image renderer surface = (false, st) := by
  rcases h with h | h | h
  · subst h
    rfl
  · subst h
    cases image <;> rfl
  · subst h
    cases image <;> cases renderer <;> rfl

/-- Witness of C28 in the state `main` enters `loop` with: a call with a null surface
returns false and the texture 0 of the image stays live. -/
theorem C28_publish_rejects_null_arguments_witness :
    MyImage_update_texture_with_surface true (loadedState (uniformImage 2 2 10 20 30 40))
        .global .valid none = (false, loadedState (uniformImage 2 2 10 20 30 40)) ∧
      (loadedState (uniformImage 2 2 10 20 30 40)).liveTextures = [0] :=
  ⟨C28_publish_rejects_null_arguments true (loadedState (uniformImage 2 2 10 20 30 40))
    .global .valid none (Or.inr (Or.inr rfl)), rfl⟩

/-- Claim C29.  After `MyImage_destroy` on the image, its surface and its texture are
null and its rectangle is (0, 0, 0, 0), and its texture is no longer live; a second
call leaves the state of the first unchanged, the live textures included; and on a
null image the call changes nothing. -/
theorem C29_destroy_resets_the_image (st : State) :
    (MyImage_destroy st .global).g_image
        = { surface := none, texture := none, rect := { x := 0, y := 0, w := 0, h := 0 } } ∧
      (MyImage_destroy st .global).liveTextures
        = (SDL_DestroyTexture st st.g_image.texture).liveTextures ∧
      MyImage_destroy (MyImage_destroy st .global) .global = MyImage_destroy st .global ∧
      MyImage_destroy st .null = st := by
  refine ⟨rfl, rfl, ?_, rfl⟩
  simp [MyImage_destroy, SDL_DestroyTexture]

/-- Claim C24 fails on the code for kernel size 11: for the channel sum 121 the code
stores `(Uint8)(121 * (1.0f / 121)) = 0`, while `121 / 121 = 1`.  The constant
`1.0f / 121` is below `1 / 121` by more than one part in `2 ^ 25`, so the product
rounds to the float just below 1.  For the other eight kernel sizes of the demo the
stored value is the integer quotient for every sum up to `255 * k * k`. -/
theorem C24_reciprocal_scaling_fails_at_11 :
    scaleChannel (averageOf (11 * 11)) 121 = 0 ∧ 121 / (11 * 11) = 1 ∧
      121 ≤ 255 * (11 * 11) ∧
      ¬ (2 ^ 25 - 1) * (averageOf (11 * 11)).den
          ≤ 2 ^ 25 * (11 * 11) * (averageOf (11 * 11)).num ∧
      ∀ k, k ∈ [3, 5, 7, 15, 29, 41, 73, 101] → ∀ s, s ≤ 255 * (k * k) →
        scaleChannel (averageOf (k * k)) s = s / (k * k) := by
  refine ⟨by decide!, by decide, by decide, by decide!, ?_⟩
  intro k hk s hs
  have hb : 0 < k * k ∧ k * k ≤ 2 ^ 14 := by
    simp only [List.mem_cons, List.mem_singleton, List.not_mem_nil, or_false] at hk
    rcases hk with rfl | rfl | rfl | rfl | rfl | rfl | rfl | rfl <;> norm_num
  exact scaleChannel_exact (k * k) hb.1 hb.2 (demo_sizes_exact k hk) s hs

/-- Witness of C24 for kernel size 101 and the largest channel sum: the code stores
255. -/
theorem C24_reciprocal_scaling_fails_at_11_witness :
    scaleChannel (averageOf (101 * 101)) (255 * (101 * 101)) = 255 * (101 * 101) / (101 * 101) :=
  C24_reciprocal_scaling_fails_at_11.2.2.2.2 101 (by decide) (255 * (101 * 101)) (le_refl _)

/-- For kernel size 4105 and the 4105 x 4105 images whose pixels all are
(254, 254, 254, 255) and (255, 255, 255, 255), the window of the pixel (2052, 2052) is
the whole image; the sums of the second image wrap modulo `2 ^ 32`. -/
theorem accumulator_wraps_at_4105 :
    BlurReady ⟨true, true⟩ (loadedState (uniformImage 4105 4105 254 254 254 255))
        (uniformImage 4105 4105 254 254 254 255)
        ⟨4105, 4105, List.replicate (4105 * 4105) 0⟩ ∧
      BlurReady ⟨true, true⟩ (loadedState (uniformImage 4105 4105 255 255 255 255))
        (uniformImage 4105 4105 255 255 255 255)
        ⟨4105, 4105, List.replicate (4105 * 4105) 0⟩ ∧
      ChannelwiseLe (uniformImage 4105 4105 254 254 254 255)
        (uniformImage 4105 4105 255 255 255 255) ∧
      blurredAt (MyImage_blur ⟨true, true⟩ (loadedState (uniformImage 4105 4105 254 254 254 255))
        .global .valid 4105) 2052 2052 = some ⟨254, 254, 254, 255⟩ ∧
      blurredAt (MyImage_blur ⟨true, true⟩ (loadedState (uniformImage 4105 4105 255 255 255 255))
        .global .valid 4105) 2052 2052 = some ⟨0, 0, 0, 255⟩ := by
  have hA := blurReady_loadedState (uniformImage 4105 4105 254 254 254 255)
    (uniformImage_wellFormed 4105 4105 254 254 254 255 (by norm_num) (by norm_num)) true
  have hB := blurReady_loadedState (uniformImage 4105 4105 255 255 255 255)
    (uniformImage_wellFormed 4105 4105 255 255 255 255 (by norm_num) (by norm_num)) true
  have e1 : scaleChannel (averageOf (4105 * 4105)) (254 % 256 * (4105 * 4105) % 2 ^ 32) = 254 := by
    decide!
  have e2 : scaleChannel (averageOf (4105 * 4105)) (255 % 256 * (4105 * 4105) % 2 ^ 32) = 0 := by
    decide!
  refine ⟨hA, hB, ?_, ?_, ?_⟩
  · intro i hi
    have hi' : i < 4105 * 4105 := hi
    rw [getD_uniformImage _ _ _ _ _ _ _ hi', getD_uniformImage _ _ _ _ _ _ _ hi',
      getRGBA_mapRGBA_mod, getRGBA_mapRGBA_mod]
    decide
  · rw [blurredAt_uniform_interior _ _ _ 4105 4105 254 254 254 255 4105 hA (by norm_num)
      (by norm_num) 2052 2052 (by norm_num) (by norm_num) (by norm_num) (by norm_num), e1]
  · rw [blurredAt_uniform_interior _ _ _ 4105 4105 255 255 255 255 4105 hB (by norm_num)
      (by norm_num) 2052 2052 (by norm_num) (by norm_num) (by norm_num) (by norm_num), e2]

/-- The blur is monotone as long as no channel sum can reach `2 ^ 32`. -/
theorem MyImage_blur_monotone (envA envB : Backend) (stA stB : State)
    (A B sfA sfB : SDL_Surface) (k : Nat) (hA : BlurReady envA stA A sfA)
    (hB : BlurReady envB stB B sfB) (hw : A.w = B.w) (hh : A.h = B.h)
    (hle : ChannelwiseLe A B) (hodd : k % 2 = 1) (h31 : k * k < 2 ^ 31)
    (hk : 255 * (k * k) < 2 ^ 32 ∨ 255 * (A.w * A.h) < 2 ^ 32)
    (row col : Nat) (hr : row < A.h) (hc : col < A.w) :
    (∃ stA', MyImage_blur envA stA .global .valid k = some (true, stA')) ∧
      (∃ stB', MyImage_blur envB stB .global .valid k = some (true, stB')) ∧
      ∃ a b, blurredAt (MyImage_blur envA stA .global .valid k) row col = some a ∧
        blurredAt (MyImage_blur envB stB .global .valid k) row col = some b ∧
        a.r ≤ b.r ∧ a.g ≤ b.g ∧ a.b ≤ b.b := by
  have hkB : 255 * (k * k) < 2 ^ 32 ∨ 255 * (B.w * B.h) < 2 ^ 32 := by
    rw [← hw, ← hh]
    exact hk
  have retA := MyImage_blur_eq envA stA A sfA k hA.1 hA.2.1.2.2.1 hA.2.2.1 hA.2.2.2.2.2 hodd h31
  have retB := MyImage_blur_eq envB stB B sfB k hB.1 hB.2.1.2.2.1 hB.2.2.1 hB.2.2.2.2.2 hodd h31
  refine ⟨⟨_, retA⟩, ⟨_, retB⟩, _, _,
    blurredAt_eq_spec envA stA A sfA k hA hodd h31 row col hr hc,
    blurredAt_eq_spec envB stB B sfB k hB hodd h31 row col (hh ▸ hr) (hw ▸ hc), ?_, ?_, ?_⟩
  · have hb := specWindowSum_le B k hodd (fun c => c.r) channel_r_le row col
    have hm := specWindowSum_mono A B hw hh k (fun c => c.r) (fun i hi => (hle i hi).1) row col
    rw [Nat.mod_eq_of_lt (specWindowSum_lt_wrap A k hodd _ channel_r_le row col hk),
      Nat.mod_eq_of_lt (specWindowSum_lt_wrap B k hodd _ channel_r_le row col hkB)]
    exact scaleChannel_sum_mono k hodd _ _ hm hb
  · have hb := specWindowSum_le B k hodd (fun c => c.g) channel_g_le row col
    have hm := specWindowSum_mono A B hw hh k (fun c => c.g) (fun i hi => (hle i hi).2.1) row col
    rw [Nat.mod_eq_of_lt (specWindowSum_lt_wrap A k hodd _ channel_g_le row col hk),
      Nat.mod_eq_of_lt (specWindowSum_lt_wrap B k hodd _ channel_g_le row col hkB)]
    exact scaleChannel_sum_mono k hodd _ _ hm hb
  · have hb := specWindowSum_le B k hodd (fun c => c.b) channel_b_le row col
    have hm := specWindowSum_mono A B hw hh k (fun c => c.b) (fun i hi => (hle i hi).2.2) row col
    rw [Nat.mod_eq_of_lt (specWindowSum_lt_wrap A k hodd _ channel_b_le row col hk),
      Nat.mod_eq_of_lt (specWindowSum_lt_wrap B k hodd _ channel_b_le row col hkB)]
    exact scaleChannel_sum_mono k hodd _ _ hm hb

/-- Claim C25 fails on the code once a channel sum reaches `2 ^ 32`, where the `Uint32`
accumulators wrap.  For `k = 4105` and the 4105 x 4105 images `A`, all pixels
(254, 254, 254, 255), and `B`, all pixels (255, 255, 255, 255), every channel of `A` is
below that of `B`, and the window of the pixel (2052, 2052) is the whole image: the sums
of `A` are 254 * 4105 * 4105 = 4280160350, below `2 ^ 32`, and the pixel becomes
(254, 254, 254, 255), while the sums of `B` are 255 * 4105 * 4105 = 4297011375, which
wraps to 2044079, and the pixel becomes (0, 0, 0, 255).  Where no sum can wrap the claim
holds: for all well-formed images `A` and `B` of the same dimensions `w × h`, each with
its scratch surface, such that every colour channel of every pixel of `A` is at most
the corresponding channel of `B`, and every positive odd `k` with `k * k < 2 ^ 31` and
`255 * k * k < 2 ^ 32` (`k ≤ 4103`) or `255 * w * h < 2 ^ 32`, both calls of
`MyImage_blur` return true and every r, g, b channel of every pixel of the output for
`A` is at most the corresponding channel of the output for `B`. -/
theorem C25_accumulator_wraps_at_4105 :
    (BlurReady ⟨true, true⟩ (loadedState (uniformImage 4105 4105 254 254 254 255))
        (uniformImage 4105 4105 254 254 254 255)
        ⟨4105, 4105, List.replicate (4105 * 4105) 0⟩ ∧
      BlurReady ⟨true, true⟩ (loadedState (uniformImage 4105 4105 255 255 255 255))
        (uniformImage 4105 4105 255 255 255 255)
        ⟨4105, 4105, List.replicate (4105 * 4105) 0⟩ ∧
      ChannelwiseLe (uniformImage 4105 4105 254 254 254 255)
        (uniformImage 4105 4105 255 255 255 255) ∧
      blurredAt (MyImage_blur ⟨true, true⟩ (loadedState (uniformImage 4105 4105 254 254 254 255))
        .global .valid 4105) 2052 2052 = some ⟨254, 254, 254, 255⟩ ∧
      blurredAt (MyImage_blur ⟨true, true⟩ (loadedState (uniformImage 4105 4105 255 255 255 255))
        .global .valid 4105) 2052 2052 = some ⟨0, 0, 0, 255⟩) ∧
      ∀ (envA envB : Backend) (stA stB : State) (A B sfA sfB : SDL_Surface) (k : Nat),
        BlurReady envA stA A sfA → BlurReady envB stB B sfB → A.w = B.w → A.h = B.h →
        ChannelwiseLe A B → k % 2 = 1 → k * k < 2 ^ 31 →
        (255 * (k * k) < 2 ^ 32 ∨ 255 * (A.w * A.h) < 2 ^ 32) →
        ∀ (row col : Nat), row < A.h → col < A.w →
          (∃ stA', MyImage_blur envA stA .global .valid k = some (true, stA')) ∧
            (∃ stB', MyImage_blur envB stB .global .valid k = some (true, stB')) ∧
            ∃ a b, blurredAt (MyImage_blur envA stA .global .valid k) row col = some a ∧
              blurredAt (MyImage_blur envB stB .global .valid k) row col = some b ∧
              a.r ≤ b.r ∧ a.g ≤ b.g ∧ a.b ≤ b.b :=
  ⟨accumulator_wraps_at_4105, MyImage_blur_monotone⟩

/-- Witness of C25 on two 2 x 2 images, all pixels (10, 20, 30, 40) and all pixels
(11, 20, 31, 40), kernel size 3 and the pixel (0, 0). -/
theorem C25_accumulator_wraps_at_4105_witness :
    BlurReady ⟨true, true⟩ (loadedState (uniformImage 2 2 10 20 30 40))
        (uniformImage 2 2 10 20 30 40) ⟨2, 2, List.replicate (2 * 2) 0⟩ ∧
      BlurReady ⟨true, true⟩ (loadedState (uniformImage 2 2 11 20 31 40))
        (uniformImage 2 2 11 20 31 40) ⟨2, 2, List.replicate (2 * 2) 0⟩ ∧
      ChannelwiseLe (uniformImage 2 2 10 20 30 40) (uniformImage 2 2 11 20 31 40) ∧
      ∃ a b,
        blurredAt (MyImage_blur ⟨true, true⟩ (loadedState (uniformImage 2 2 10 20 30 40))
          .global .valid 3) ((0 : Nat)) ((0 : Nat)) = some a ∧
        blurredAt (MyImage_blur ⟨true, true⟩ (loadedState (uniformImage 2 2 11 20 31 40))
          .global .valid 3) ((0 : Nat)) ((0 : Nat)) = some b ∧
        a.r ≤ b.r ∧ a.g ≤ b.g ∧ a.b ≤ b.b :=
  ⟨by decide, by decide, by decide,
    (C25_accumulator_wraps_at_4105.2 ⟨true, true⟩ ⟨true, true⟩
      (loadedState (uniformImage 2 2 10 20 30 40)) (loadedState (uniformImage 2 2 11 20 31 40))
      (uniformImage 2 2 10 20 30 40) (uniformImage 2 2 11 20 31 40)
      ⟨2, 2, List.replicate (2 * 2) 0⟩ ⟨2, 2, List.replicate (2 * 2) 0⟩ 3
      (by decide) (by decide) rfl rfl (by decide) (by decide) (by decide)
      (Or.inl (by decide)) 0 0 (by decide) (by decide)).2.2⟩

end CompVis252
